import Mathlib

/-!
# Verification of the depsgraph node-type core
  (source/blender/depsgraph/intern/depsgraph_type_defines.c)

Shallow embedding of the node-type dispatch core: outer nodes (ID / Group),
data nodes, the identity -> node hash, relations, and the cyclic-merge
algorithm `DEG_group_cyclic_node_pair`.

Modelling conventions:
* External identities (`ID *` pointers) are `Ident := Nat`.
* Heap objects are referenced through stores `Nat -> Option _`; allocation
  uses a counter (`nextNodeRef` / `nextRelRef`), freeing deletes the entry.
* `BLI_ghash` (as used here via insert / lookup / remove) is embedded as an
  association list where insert prepends a fresh entry, lookup returns the
  first entry for a key, and remove deletes the first entry for a key; this
  matches the bucket-prepend insert and front-to-back probe of the hash the
  source uses, so a re-inserted key shadows an older duplicate.
* `BLI_addtail` appends, `BLI_remlink` erases the (single) occurrence,
  `BLI_movelisttolist dst src` appends src's list to dst and empties src.
* Undeclared-identifier slips in the source are resolved to the only
  in-scope intent and are flagged in the doc comment of the definition that
  embeds them.
-/

abbrev Ident := Nat
abbrev NodeRef := Nat
abbrev RelRef := Nat

/-- eDepsNode_Type: the node type tags used in this file. -/
inductive eDepsNode_Type where
  | OUTER_ID
  | OUTER_GROUP
  | OUTER_OP
  | DATA
deriving DecidableEq

/-- DepsRelation: a directed edge `{from, to}` between two nodes. -/
structure DepsRelation where
  fromRef : NodeRef
  toRef : NodeRef
deriving DecidableEq

/-- One flat record covering the common `DepsNode` header plus the variant
fields of `IDDepsNode` (`id`, `subdata`, `nodes`), the
`OuterIdDepsNodeTemplate` shape the transfer helper casts through, and
`GroupDepsNode` (`id_blocks`).  Fields not meaningful for a variant are
simply unused, mirroring the C layout casts. -/
structure DepsNode where
  type : eDepsNode_Type
  owner : Option NodeRef
  inlinks : List RelRef
  outlinks : List RelRef
  subdata : List NodeRef
  nodes : List NodeRef
  id : Ident
  id_blocks : List Ident
deriving DecidableEq

/-- A freshly calloc'd node of the given type (DEG_create_node zero-fills). -/
def blankNode (t : eDepsNode_Type) : DepsNode :=
  { type := t, owner := none, inlinks := [], outlinks := [],
    subdata := [], nodes := [], id := 0, id_blocks := [] }

/-- The Depsgraph container: toplevel node list, identity index, and the
object stores standing for the heap. -/
structure Depsgraph where
  nodes : List NodeRef
  nodehash : List (Ident × NodeRef)
  nodeStore : NodeRef → Option DepsNode
  relStore : RelRef → Option DepsRelation
  nextNodeRef : NodeRef
  nextRelRef : RelRef

def Depsgraph.empty : Depsgraph :=
  { nodes := [], nodehash := [], nodeStore := fun _ => none,
    relStore := fun _ => none, nextNodeRef := 0, nextRelRef := 0 }

/-! ## GHash model (BLI_ghash_insert / lookup / remove) -/

/-- BLI_ghash_insert: prepend an entry (newest entry shadows older ones). -/
def ghashInsert (h : List (Ident × NodeRef)) (a : Ident) (r : NodeRef) :
    List (Ident × NodeRef) :=
  (a, r) :: h

/-- BLI_ghash_lookup: first entry for the key. -/
def ghashLookup (h : List (Ident × NodeRef)) (a : Ident) : Option NodeRef :=
  match h with
  | [] => none
  | (k, v) :: t => if k = a then some v else ghashLookup t a

/-- BLI_ghash_remove: delete the first entry for the key. -/
def ghashRemove (h : List (Ident × NodeRef)) (a : Ident) :
    List (Ident × NodeRef) :=
  match h with
  | [] => []
  | (k, v) :: t => if k = a then t else (k, v) :: ghashRemove t a

/-- Number of entries a key has in the hash. -/
def countKey (h : List (Ident × NodeRef)) (a : Ident) : Nat :=
  match h with
  | [] => 0
  | (k, _) :: t => (if k = a then 1 else 0) + countKey t a

/-! ## Store helpers -/

def Depsgraph.setNode (g : Depsgraph) (r : NodeRef) (n : DepsNode) : Depsgraph :=
  { g with nodeStore := fun x => if x = r then some n else g.nodeStore x }

def Depsgraph.delNode (g : Depsgraph) (r : NodeRef) : Depsgraph :=
  { g with nodeStore := fun x => if x = r then none else g.nodeStore x }

/-- In-place mutation of the node object behind a reference. -/
def Depsgraph.updNode (g : Depsgraph) (r : NodeRef) (f : DepsNode → DepsNode) :
    Depsgraph :=
  match g.nodeStore r with
  | some n => g.setNode r (f n)
  | none => g

def Depsgraph.setRel (g : Depsgraph) (rr : RelRef) (rel : DepsRelation) :
    Depsgraph :=
  { g with relStore := fun x => if x = rr then some rel else g.relStore x }

/-- In-place mutation of the relation object behind a reference. -/
def Depsgraph.updRel (g : Depsgraph) (rr : RelRef) (f : DepsRelation → DepsRelation) :
    Depsgraph :=
  match g.relStore rr with
  | some rel => g.setRel rr (f rel)
  | none => g

/-! ## Source functions (depsgraph_type_defines.c) -/

/-- `dnti_outer_id__add_to_graph`: insert the identity into `nodehash` and
append the node to the toplevel list. -/
def dnti_outer_id__add_to_graph (g : Depsgraph) (node : NodeRef) (id0 : Ident) :
    Depsgraph :=
  { g with nodehash := ghashInsert g.nodehash id0 node,
           nodes := g.nodes ++ [node] }

/-- `dnti_outer_id__remove_from_graph`: remove the hash entry and unlink the
node from the toplevel list.  The source line `BLI_ghash_remove(graph->nodehash,
id, ...)` names an undeclared `id`; the only in-scope intent is the ID node's
own identity, i.e. `((IDDepsNode *)node)->id`. -/
def dnti_outer_id__remove_from_graph (g : Depsgraph) (node : NodeRef) : Depsgraph :=
  let h := match g.nodeStore node with
           | some n => ghashRemove g.nodehash n.id
           | none => g.nodehash
  { g with nodehash := h, nodes := g.nodes.erase node }

/-- `dnti_outer_group__add_to_graph`: append the node to the toplevel list,
then insert one `nodehash` entry per member of its `id_blocks`. -/
def dnti_outer_group__add_to_graph (g : Depsgraph) (node : NodeRef) : Depsgraph :=
  let g1 := { g with nodes := g.nodes ++ [node] }
  match g.nodeStore node with
  | some n =>
      { g1 with nodehash := n.id_blocks.foldl (fun h a => ghashInsert h a node) g1.nodehash }
  | none => g1

/-- `dnti_outer_group__remove_from_graph`: unlink the node from the toplevel
list and remove one `nodehash` entry per (remaining) member of `id_blocks`. -/
def dnti_outer_group__remove_from_graph (g : Depsgraph) (node : NodeRef) : Depsgraph :=
  let g1 := { g with nodes := g.nodes.erase node }
  match g.nodeStore node with
  | some n =>
      { g1 with nodehash := n.id_blocks.foldl (fun h a => ghashRemove h a) g1.nodehash }
  | none => g1

/-- `deg_group_add_id_ref`: append the identity to the group's `id_blocks`;
when a graph is supplied (`updateHash = true`, i.e. the `graph != NULL` call
form), also make `nodehash` point at the group for that identity. -/
def deg_group_add_id_ref (updateHash : Bool) (g : Depsgraph) (group : NodeRef)
    (id0 : Ident) : Depsgraph :=
  let g1 := g.updNode group (fun n => { n with id_blocks := n.id_blocks ++ [id0] })
  if updateHash then
    { g1 with nodehash := ghashInsert g1.nodehash id0 group }
  else g1

/-- `transfer_nodegraph_to_group`: rewrite every relation in `src`'s
`inlinks` whose `to` endpoint is `src` (resp. `outlinks` / `from`) to point
at the group, re-parent `src`'s `subdata`/`nodes` children, then move the
four lists over to the group and leave `src`'s lists empty. -/
def transfer_nodegraph_to_group (g : Depsgraph) (group : NodeRef) (src : NodeRef) :
    Depsgraph :=
  match g.nodeStore src with
  | none => g
  | some s =>
    let g1 := s.inlinks.foldl
      (fun g0 rr => g0.updRel rr
        (fun rel => if rel.toRef = src then { rel with toRef := group } else rel)) g
    let g2 := s.outlinks.foldl
      (fun g0 rr => g0.updRel rr
        (fun rel => if rel.fromRef = src then { rel with fromRef := group } else rel)) g1
    let g3 := s.subdata.foldl
      (fun g0 c => g0.updNode c (fun n => { n with owner := some group })) g2
    let g4 := s.nodes.foldl
      (fun g0 c => g0.updNode c
        (fun n => if n.owner = some src then { n with owner := some group } else n)) g3
    let g5 := g4.updNode group (fun n =>
      { n with inlinks := n.inlinks ++ s.inlinks,
               outlinks := n.outlinks ++ s.outlinks,
               subdata := n.subdata ++ s.subdata,
               nodes := n.nodes ++ s.nodes })
    g5.updNode src (fun n =>
      { n with inlinks := [], outlinks := [], subdata := [], nodes := [] })

/-- Modelled from the spec: `DEG_create_node` (declared in
depsgraph_intern.h, body not under src) allocates a zero-filled node of the
given type; allocation is a fresh reference from the counter (spec section 4.5). -/
def DEG_create_node (g : Depsgraph) (t : eDepsNode_Type) : Depsgraph × NodeRef :=
  let r := g.nextNodeRef
  ({ g.setNode r (blankNode t) with nextNodeRef := r + 1 }, r)

/-- Modelled from the spec: `DEG_add_node` (body not under src) dispatches to
the type's `add_to_graph` hook (spec sections 4.2, 4.5).  The merge algorithm
only invokes it on the freshly built Group, whose hook ignores the identity
argument. -/
def DEG_add_node (g : Depsgraph) (r : NodeRef) : Depsgraph :=
  match g.nodeStore r with
  | some n =>
      match n.type with
      | .OUTER_GROUP => dnti_outer_group__add_to_graph g r
      | _ => g
  | none => g

/-- Modelled from the spec: `DEG_remove_node` (body not under src) dispatches
to the type's `remove_from_graph` hook (spec sections 4.2, 4.5). -/
def DEG_remove_node (g : Depsgraph) (r : NodeRef) : Depsgraph :=
  match g.nodeStore r with
  | some n =>
      match n.type with
      | .OUTER_ID => dnti_outer_id__remove_from_graph g r
      | .OUTER_GROUP => dnti_outer_group__remove_from_graph g r
      | _ => g
  | none => g

/-- Modelled from the spec: `DEG_free_node` (body not under src) releases the
node's own storage (spec section 4.5). -/
def DEG_free_node (g : Depsgraph) (r : NodeRef) : Depsgraph :=
  g.delNode r

/-- `DEG_group_cyclic_node_pair`: fuse two outer nodes into one group.
Source slips resolved to their only in-scope intent: in the Group+Group
branch, `transfer_nodegraph_to_group(graph, group, ...)` names an undeclared
`group`, which is the base group `g1` (= node1); `DEG_remove_node(node2)` is
missing the graph argument present in every other call, resolved to
`DEG_remove_node(graph, node2)`.  The `idnode->id` read in the mixed branch
happens after the remove, but before the free, so it reads the node's
unchanged `id` field. -/
def DEG_group_cyclic_node_pair (g : Depsgraph) (node1 node2 : NodeRef) :
    Depsgraph × Option NodeRef :=
  match g.nodeStore node1, g.nodeStore node2 with
  | some n1, some n2 =>
    if n1.type = .OUTER_ID ∧ n2.type = .OUTER_ID then
      let pr := DEG_create_node g .OUTER_GROUP
      let group := pr.2
      let ga := transfer_nodegraph_to_group pr.1 group node1
      let gb := transfer_nodegraph_to_group ga group node2
      let gc := DEG_remove_node gb node1
      let gd := DEG_remove_node gc node2
      let ge := deg_group_add_id_ref false gd group n1.id
      let gf := deg_group_add_id_ref false ge group n2.id
      let gg := DEG_free_node gf node1
      let gh := DEG_free_node gg node2
      (DEG_add_node gh group, some group)
    else if n1.type = .OUTER_GROUP ∧ n2.type = .OUTER_GROUP then
      let h := n2.id_blocks.foldl
        (fun h0 a => ghashInsert (ghashRemove h0 a) a node1) g.nodehash
      let ga := { g with nodehash := h }
      let gb := ga.updNode node1 (fun n => { n with id_blocks := n.id_blocks ++ n2.id_blocks })
      let gc := gb.updNode node2 (fun n => { n with id_blocks := [] })
      let gd := transfer_nodegraph_to_group gc node1 node2
      let ge := DEG_remove_node gd node2
      (DEG_free_node ge node2, some node1)
    else
      let group := if n1.type = .OUTER_GROUP then node1 else node2
      let idnode := if n1.type = .OUTER_GROUP then node2 else node1
      let idn := if n1.type = .OUTER_GROUP then n2 else n1
      let ga := transfer_nodegraph_to_group g group idnode
      let gb := DEG_remove_node ga idnode
      let gc := deg_group_add_id_ref true gb group idn.id
      (DEG_free_node gc idnode, some group)
  | _, _ => (g, none)

/-- `dnti_data__add_to_graph`: attach a data node beneath the outer node
currently representing the identity.  `DEG_find_node` is not under src and is
modelled from the spec as a `nodehash` lookup (spec section 4.3); the
`BLI_assert(id_node != NULL)` failure is the `none` result.  The group-owner
branch appends to the group's child collection (the source's misspelt
`subdaa` field, i.e. the group's `subdata`). -/
def dnti_data__add_to_graph (g : Depsgraph) (node : NodeRef) (id0 : Ident) :
    Option Depsgraph :=
  match ghashLookup g.nodehash id0 with
  | none => none
  | some id_node =>
    match g.nodeStore id_node with
    | none => none
    | some ownerNode =>
      let g1 := g.updNode node (fun n => { n with owner := some id_node })
      if ownerNode.type = .OUTER_ID then
        some (g1.updNode id_node (fun n => { n with subdata := n.subdata ++ [node] }))
      else
        some (g1.updNode id_node (fun n => { n with subdata := n.subdata ++ [node] }))

/-- Modelled from the spec: `DEG_copy_node` (body not under src) duplicates a
node object at a fresh reference; the child collections are the caller's
(`copy_data` hook's) responsibility and the relation lists are carried over
unchanged, with no re-linking (spec sections 4.2, 9). -/
def DEG_copy_node (g : Depsgraph) (r : NodeRef) : Depsgraph × Option NodeRef :=
  match g.nodeStore r with
  | none => (g, none)
  | some n =>
    let nr := g.nextNodeRef
    ({ g.setNode nr n with nextNodeRef := nr + 1 }, some nr)

/-- The per-child copy step of `dnti_outer_node__copy_data`: copy the child
and append the copy to the destination's `subdata` list. -/
def copyChildrenSubdata (g : Depsgraph) (dst : NodeRef) (l : List NodeRef) :
    Depsgraph :=
  l.foldl (fun g0 c =>
    let pr := DEG_copy_node g0 c
    match pr.2 with
    | some nc => pr.1.updNode dst (fun n => { n with subdata := n.subdata ++ [nc] })
    | none => pr.1) g

/-- The per-child copy step over the `nodes` collection. -/
def copyChildrenNodes (g : Depsgraph) (dst : NodeRef) (l : List NodeRef) :
    Depsgraph :=
  l.foldl (fun g0 c =>
    let pr := DEG_copy_node g0 c
    match pr.2 with
    | some nc => pr.1.updNode dst (fun n => { n with nodes := n.nodes ++ [nc] })
    | none => pr.1) g

/-- `dnti_outer_node__copy_data`: copy each `subdata` child via
`DEG_copy_node`, appending the copy to the destination's `subdata` (the
`if (src->subdata.first)` guard is a no-op for an empty list), then the same
for the `nodes` collection.  The "hook them up correctly again" steps are
absent in the source, so no re-linking happens. -/
def dnti_outer_node__copy_data (g : Depsgraph) (dst src : NodeRef) : Depsgraph :=
  match g.nodeStore src with
  | none => g
  | some s => copyChildrenNodes (copyChildrenSubdata g dst s.subdata) dst s.nodes

/-- `dnti_outer_group__copy_data`: outer-node copying first (the source's
`dst_nod` is the sole in-scope destination `dst_node`), then
`BLI_duplicatelist` sets the destination's `id_blocks` to a duplicate of the
source's. -/
def dnti_outer_group__copy_data (g : Depsgraph) (dst src : NodeRef) : Depsgraph :=
  let g1 := dnti_outer_node__copy_data g dst src
  match g.nodeStore src with
  | none => g1
  | some s => g1.updNode dst (fun n => { n with id_blocks := s.id_blocks })

/-! ## Type registry (External API) -/

/-- A dispatch-table value: the tag plus the diagnostic name (the function
pointers carry no data relevant to the registry claims). -/
structure DepsNodeTypeInfo where
  type : eDepsNode_Type
  name : String
deriving DecidableEq

def DNTI_OUTER_ID_info : DepsNodeTypeInfo :=
  { type := .OUTER_ID, name := "ID Node" }

def DNTI_OUTER_GROUP_info : DepsNodeTypeInfo :=
  { type := .OUTER_GROUP, name := "ID Group Node" }

/-- `DEG_register_node_typeinfo`: guarded by `if (typeinfo)`; a non-null
table is inserted into the registry hash under its type tag, a null argument
leaves the registry untouched and returns normally. -/
def DEG_register_node_typeinfo (reg : List (eDepsNode_Type × DepsNodeTypeInfo))
    (typeinfo : Option DepsNodeTypeInfo) :
    List (eDepsNode_Type × DepsNodeTypeInfo) :=
  match typeinfo with
  | some ti => (ti.type, ti) :: reg
  | none => reg

/-- `DEG_get_node_typeinfo`: the source body sets `nti = NULL`, leaves a
`TODO: look up typeinfo` comment, and returns `nti` — it never consults the
registry. -/
def DEG_get_node_typeinfo (_reg : List (eDepsNode_Type × DepsNodeTypeInfo))
    (_t : eDepsNode_Type) : Option DepsNodeTypeInfo :=
  none

/-! ## Construction operations and traces

`addIdNode` and `DEG_add_relation` are the construction entry points the
spec describes; together with the merge they generate the reachable graphs
the invariant claims quantify over. -/

/-- Modelled from the spec: creating the ID node for a newly seen identity
(spec section 3, ID Node lifecycle) — allocate the node, set its `id`, and
run the source's `dnti_outer_id__add_to_graph` hook on it. -/
def addIdNode (g : Depsgraph) (a : Ident) : Depsgraph :=
  let r := g.nextNodeRef
  let g1 := { g.setNode r { blankNode .OUTER_ID with id := a } with nextNodeRef := r + 1 }
  dnti_outer_id__add_to_graph g1 r a

/-- Modelled from the spec: creating a relation `{from, to}` between two
registered nodes and appending it to `from.outlinks` and `to.inlinks`
(spec section 3, Relation). -/
def DEG_add_relation (g : Depsgraph) (r1 r2 : NodeRef) : Depsgraph :=
  let rr := g.nextRelRef
  let g1 := { g.setRel rr { fromRef := r1, toRef := r2 } with nextRelRef := rr + 1 }
  let g2 := g1.updNode r1 (fun n => { n with outlinks := n.outlinks ++ [rr] })
  g2.updNode r2 (fun n => { n with inlinks := n.inlinks ++ [rr] })

/-- One construction step: add an ID node for a fresh identity, add a
relation between two toplevel nodes, or merge two toplevel nodes. -/
inductive DepsOp where
  | addId (a : Ident)
  | addRel (r1 r2 : NodeRef)
  | merge (r1 r2 : NodeRef)

def runOp (g : Depsgraph) : DepsOp → Depsgraph
  | .addId a => addIdNode g a
  | .addRel r1 r2 => DEG_add_relation g r1 r2
  | .merge r1 r2 => (DEG_group_cyclic_node_pair g r1 r2).1

def runOps (g : Depsgraph) (ops : List DepsOp) : Depsgraph :=
  ops.foldl runOp g

/-- The preconditions under which the caller may issue each step: identities
passed to `add_to_graph` are distinct (never already indexed), relation
endpoints are registered toplevel nodes, and merges act on two distinct
toplevel nodes. -/
inductive ValidFrom : Depsgraph → List DepsOp → Prop where
  | nil (g : Depsgraph) : ValidFrom g []
  | addId (g : Depsgraph) (a : Ident) (ops : List DepsOp)
      (hfresh : countKey g.nodehash a = 0)
      (htail : ValidFrom (runOp g (.addId a)) ops) :
      ValidFrom g (.addId a :: ops)
  | addRel (g : Depsgraph) (r1 r2 : NodeRef) (ops : List DepsOp)
      (h1 : r1 ∈ g.nodes) (h2 : r2 ∈ g.nodes)
      (htail : ValidFrom (runOp g (.addRel r1 r2)) ops) :
      ValidFrom g (.addRel r1 r2 :: ops)
  | merge (g : Depsgraph) (r1 r2 : NodeRef) (ops : List DepsOp)
      (h1 : r1 ∈ g.nodes) (h2 : r2 ∈ g.nodes) (hne : r1 ≠ r2)
      (htail : ValidFrom (runOp g (.merge r1 r2)) ops) :
      ValidFrom g (.merge r1 r2 :: ops)

/-- The identities handed to `add_to_graph` along a trace. -/
def tracedIds : List DepsOp → List Ident
  | [] => []
  | .addId a :: ops => a :: tracedIds ops
  | _ :: ops => tracedIds ops

/-- The identities an outer node represents: its own `id` for an ID node,
its `id_blocks` for a group. -/
def nodeIds (n : DepsNode) : List Ident :=
  match n.type with
  | .OUTER_ID => [n.id]
  | .OUTER_GROUP => n.id_blocks
  | _ => []

/-- Well-formedness of a depsgraph: the inductive invariant tying the
toplevel list, the identity hash, the object stores and the relation links
together.  Every reachable graph satisfies it. -/
structure WF (g : Depsgraph) : Prop where
  nodesNodup : g.nodes.Nodup
  topLive : ∀ r ∈ g.nodes, ∃ n, g.nodeStore r = some n ∧
      (n.type = .OUTER_ID ∨ n.type = .OUTER_GROUP)
  keysOnce : ∀ a, countKey g.nodehash a ≤ 1
  hashToLive : ∀ a r, (a, r) ∈ g.nodehash → r ∈ g.nodes ∧
      ∃ n, g.nodeStore r = some n ∧ a ∈ nodeIds n
  liveToHash : ∀ r ∈ g.nodes, ∀ n, g.nodeStore r = some n →
      ∀ a ∈ nodeIds n, (a, r) ∈ g.nodehash
  idsNodup : ∀ r ∈ g.nodes, ∀ n, g.nodeStore r = some n → (nodeIds n).Nodup
  storeBound : ∀ r, g.nextNodeRef ≤ r → g.nodeStore r = none
  relBound : ∀ rr, g.nextRelRef ≤ rr → g.relStore rr = none
  relLive : ∀ rr rel, g.relStore rr = some rel →
      rel.fromRef ∈ g.nodes ∧ rel.toRef ∈ g.nodes
  relLinked : ∀ rr rel, g.relStore rr = some rel →
      (∀ n, g.nodeStore rel.toRef = some n → rr ∈ n.inlinks) ∧
      (∀ n, g.nodeStore rel.fromRef = some n → rr ∈ n.outlinks)
  childGood : ∀ r ∈ g.nodes, ∀ n, g.nodeStore r = some n →
      ∀ c ∈ n.subdata ++ n.nodes, c ∉ g.nodes ∧ (g.nodeStore c).isSome

/-! ## GHash lemmas -/

@[simp] theorem ghashLookup_insert_self (h : List (Ident × NodeRef)) (a : Ident)
    (r : NodeRef) : ghashLookup (ghashInsert h a r) a = some r := by
  simp [ghashInsert, ghashLookup]

theorem ghashLookup_insert_ne (h : List (Ident × NodeRef)) {a b : Ident}
    (r : NodeRef) (hne : a ≠ b) :
    ghashLookup (ghashInsert h a r) b = ghashLookup h b := by
  simp [ghashInsert, ghashLookup, hne]

@[simp] theorem countKey_insert_self (h : List (Ident × NodeRef)) (a : Ident)
    (r : NodeRef) : countKey (ghashInsert h a r) a = countKey h a + 1 := by
  simp [ghashInsert, countKey, Nat.add_comm]

theorem countKey_insert_ne (h : List (Ident × NodeRef)) {a b : Ident}
    (r : NodeRef) (hne : a ≠ b) :
    countKey (ghashInsert h a r) b = countKey h b := by
  simp [ghashInsert, countKey, hne]

theorem countKey_remove_self (h : List (Ident × NodeRef)) (a : Ident) :
    countKey (ghashRemove h a) a = countKey h a - 1 := by
  induction h with
  | nil => simp [ghashRemove, countKey]
  | cons e t ih =>
    obtain ⟨k, v⟩ := e
    by_cases hk : k = a
    · simp [ghashRemove, countKey, hk]
    · simp [ghashRemove, countKey, hk, ih]

theorem countKey_remove_ne (h : List (Ident × NodeRef)) {a b : Ident}
    (hne : a ≠ b) : countKey (ghashRemove h a) b = countKey h b := by
  induction h with
  | nil => simp [ghashRemove]
  | cons e t ih =>
    obtain ⟨k, v⟩ := e
    by_cases hk : k = a
    · have hkb : k ≠ b := hk ▸ hne
      simp [ghashRemove, countKey, hk, hkb, hne]
    · simp [ghashRemove, countKey, hk, ih]

theorem ghashLookup_remove_ne (h : List (Ident × NodeRef)) {a b : Ident}
    (hne : a ≠ b) : ghashLookup (ghashRemove h a) b = ghashLookup h b := by
  induction h with
  | nil => simp [ghashRemove]
  | cons e t ih =>
    obtain ⟨k, v⟩ := e
    by_cases hk : k = a
    · have hkb : k ≠ b := hk ▸ hne
      simp [ghashRemove, ghashLookup, hk, hkb, hne]
    · by_cases hb : k = b
      · simp [ghashRemove, ghashLookup, hk, hb, Ne.symm hne]
      · simp [ghashRemove, ghashLookup, hk, hb, ih]

theorem mem_of_ghashLookup {h : List (Ident × NodeRef)} {a : Ident} {r : NodeRef}
    (hl : ghashLookup h a = some r) : (a, r) ∈ h := by
  induction h with
  | nil => simp [ghashLookup] at hl
  | cons e t ih =>
    obtain ⟨k, v⟩ := e
    by_cases hk : k = a
    · subst hk
      simp [ghashLookup] at hl
      subst hl
      exact List.mem_cons_self _ _
    · simp [ghashLookup, hk] at hl
      exact List.mem_cons_of_mem _ (ih hl)

theorem countKey_pos_of_mem {h : List (Ident × NodeRef)} {a : Ident} {r : NodeRef}
    (hm : (a, r) ∈ h) : 1 ≤ countKey h a := by
  induction h with
  | nil => simp at hm
  | cons e t ih =>
    obtain ⟨k, v⟩ := e
    rcases List.mem_cons.mp hm with heq | ht
    · have hk : k = a := by
        cases heq
        rfl
      simp [countKey, hk]
    · have := ih ht
      by_cases hk : k = a
      · simp [countKey, hk]
      · simp only [countKey, if_neg hk]
        omega

theorem ghashLookup_of_mem_of_once {h : List (Ident × NodeRef)} {a : Ident}
    {r : NodeRef} (hm : (a, r) ∈ h) (honce : countKey h a ≤ 1) :
    ghashLookup h a = some r := by
  induction h with
  | nil => simp at hm
  | cons e t ih =>
    obtain ⟨k, v⟩ := e
    rcases List.mem_cons.mp hm with heq | ht
    · cases heq
      simp [ghashLookup]
    · have hpos := countKey_pos_of_mem ht
      by_cases hk : k = a
      · exfalso
        simp only [countKey, if_pos hk] at honce
        omega
      · simp only [ghashLookup, if_neg hk]
        simp only [countKey, if_neg hk, Nat.zero_add] at honce
        exact ih ht honce

theorem mem_ghashRemove_of_ne {h : List (Ident × NodeRef)} {a b : Ident}
    {r : NodeRef} (hm : (b, r) ∈ h) (hne : b ≠ a) : (b, r) ∈ ghashRemove h a := by
  induction h with
  | nil => simp at hm
  | cons e t ih =>
    obtain ⟨k, v⟩ := e
    rcases List.mem_cons.mp hm with heq | ht
    · cases heq
      simp [ghashRemove, hne]
    · by_cases hk : k = a
      · simpa [ghashRemove, hk] using ht
      · simp only [ghashRemove, if_neg hk]
        exact List.mem_cons_of_mem _ (ih ht)

theorem mem_of_mem_ghashRemove {h : List (Ident × NodeRef)} {a b : Ident}
    {r : NodeRef} (hm : (b, r) ∈ ghashRemove h a) : (b, r) ∈ h := by
  induction h with
  | nil => simp [ghashRemove] at hm
  | cons e t ih =>
    obtain ⟨k, v⟩ := e
    by_cases hk : k = a
    · simp only [ghashRemove, if_pos hk] at hm
      exact List.mem_cons_of_mem _ hm
    · simp only [ghashRemove, if_neg hk] at hm
      rcases List.mem_cons.mp hm with heq | ht
      · exact heq ▸ List.mem_cons_self _ _
      · exact List.mem_cons_of_mem _ (ih ht)

theorem countKey_eq_zero_iff (h : List (Ident × NodeRef)) (a : Ident) :
    countKey h a = 0 ↔ ∀ r, (a, r) ∉ h := by
  constructor
  · intro h0 r hm
    have := countKey_pos_of_mem hm
    omega
  · intro hnone
    induction h with
    | nil => simp [countKey]
    | cons e t ih =>
      obtain ⟨k, v⟩ := e
      by_cases hk : k = a
      · exact absurd (hk ▸ List.mem_cons_self (k, v) t) (hk ▸ hnone v)
      · simp only [countKey, if_neg hk, Nat.zero_add]
        exact ih (fun r hm => hnone r (List.mem_cons_of_mem _ hm))

theorem exists_lookup_of_countKey_one {h : List (Ident × NodeRef)} {a : Ident}
    (hone : countKey h a = 1) : ∃ r, ghashLookup h a = some r ∧ (a, r) ∈ h := by
  induction h with
  | nil => simp [countKey] at hone
  | cons e t ih =>
    obtain ⟨k, v⟩ := e
    by_cases hk : k = a
    · exact ⟨v, by simp [ghashLookup, hk], by
        have : (k, v) = (a, v) := by rw [hk]
        exact this ▸ List.mem_cons_self _ _⟩
    · simp only [countKey, if_neg hk, Nat.zero_add] at hone
      obtain ⟨r, hl, hm⟩ := ih hone
      exact ⟨r, by simp [ghashLookup, hk, hl], List.mem_cons_of_mem _ hm⟩

/-! ## Store lemmas -/

@[simp] theorem setNode_store_self (g : Depsgraph) (r : NodeRef) (n : DepsNode) :
    (g.setNode r n).nodeStore r = some n := by
  simp [Depsgraph.setNode]

theorem setNode_store_ne (g : Depsgraph) {r x : NodeRef} (n : DepsNode)
    (hne : x ≠ r) : (g.setNode r n).nodeStore x = g.nodeStore x := by
  simp [Depsgraph.setNode, hne]

@[simp] theorem setNode_nodes (g : Depsgraph) (r : NodeRef) (n : DepsNode) :
    (g.setNode r n).nodes = g.nodes := rfl

@[simp] theorem setNode_nodehash (g : Depsgraph) (r : NodeRef) (n : DepsNode) :
    (g.setNode r n).nodehash = g.nodehash := rfl

@[simp] theorem setNode_relStore (g : Depsgraph) (r : NodeRef) (n : DepsNode) :
    (g.setNode r n).relStore = g.relStore := rfl

@[simp] theorem setNode_nextNodeRef (g : Depsgraph) (r : NodeRef) (n : DepsNode) :
    (g.setNode r n).nextNodeRef = g.nextNodeRef := rfl

@[simp] theorem setNode_nextRelRef (g : Depsgraph) (r : NodeRef) (n : DepsNode) :
    (g.setNode r n).nextRelRef = g.nextRelRef := rfl

@[simp] theorem delNode_store_self (g : Depsgraph) (r : NodeRef) :
    (g.delNode r).nodeStore r = none := by
  simp [Depsgraph.delNode]

theorem delNode_store_ne (g : Depsgraph) {r x : NodeRef} (hne : x ≠ r) :
    (g.delNode r).nodeStore x = g.nodeStore x := by
  simp [Depsgraph.delNode, hne]

@[simp] theorem delNode_nodes (g : Depsgraph) (r : NodeRef) :
    (g.delNode r).nodes = g.nodes := rfl

@[simp] theorem delNode_nodehash (g : Depsgraph) (r : NodeRef) :
    (g.delNode r).nodehash = g.nodehash := rfl

@[simp] theorem delNode_relStore (g : Depsgraph) (r : NodeRef) :
    (g.delNode r).relStore = g.relStore := rfl

@[simp] theorem delNode_nextNodeRef (g : Depsgraph) (r : NodeRef) :
    (g.delNode r).nextNodeRef = g.nextNodeRef := rfl

@[simp] theorem delNode_nextRelRef (g : Depsgraph) (r : NodeRef) :
    (g.delNode r).nextRelRef = g.nextRelRef := rfl

theorem updNode_store_self (g : Depsgraph) (r : NodeRef) (f : DepsNode → DepsNode) :
    (g.updNode r f).nodeStore r = (g.nodeStore r).map f := by
  unfold Depsgraph.updNode
  cases hr : g.nodeStore r with
  | none => simp [hr]
  | some n => simp

theorem updNode_store_ne (g : Depsgraph) {r x : NodeRef} (f : DepsNode → DepsNode)
    (hne : x ≠ r) : (g.updNode r f).nodeStore x = g.nodeStore x := by
  unfold Depsgraph.updNode
  cases hr : g.nodeStore r with
  | none => rfl
  | some n => simp [setNode_store_ne _ _ hne]

@[simp] theorem updNode_nodes (g : Depsgraph) (r : NodeRef) (f : DepsNode → DepsNode) :
    (g.updNode r f).nodes = g.nodes := by
  unfold Depsgraph.updNode
  cases g.nodeStore r <;> rfl

@[simp] theorem updNode_nodehash (g : Depsgraph) (r : NodeRef) (f : DepsNode → DepsNode) :
    (g.updNode r f).nodehash = g.nodehash := by
  unfold Depsgraph.updNode
  cases g.nodeStore r <;> rfl

@[simp] theorem updNode_relStore (g : Depsgraph) (r : NodeRef) (f : DepsNode → DepsNode) :
    (g.updNode r f).relStore = g.relStore := by
  unfold Depsgraph.updNode
  cases g.nodeStore r <;> rfl

@[simp] theorem updNode_nextNodeRef (g : Depsgraph) (r : NodeRef) (f : DepsNode → DepsNode) :
    (g.updNode r f).nextNodeRef = g.nextNodeRef := by
  unfold Depsgraph.updNode
  cases g.nodeStore r <;> rfl

@[simp] theorem updNode_nextRelRef (g : Depsgraph) (r : NodeRef) (f : DepsNode → DepsNode) :
    (g.updNode r f).nextRelRef = g.nextRelRef := by
  unfold Depsgraph.updNode
  cases g.nodeStore r <;> rfl

@[simp] theorem setRel_store_self (g : Depsgraph) (rr : RelRef) (rel : DepsRelation) :
    (g.setRel rr rel).relStore rr = some rel := by
  simp [Depsgraph.setRel]

theorem setRel_store_ne (g : Depsgraph) {rr x : RelRef} (rel : DepsRelation)
    (hne : x ≠ rr) : (g.setRel rr rel).relStore x = g.relStore x := by
  simp [Depsgraph.setRel, hne]

@[simp] theorem setRel_nodes (g : Depsgraph) (rr : RelRef) (rel : DepsRelation) :
    (g.setRel rr rel).nodes = g.nodes := rfl

@[simp] theorem setRel_nodehash (g : Depsgraph) (rr : RelRef) (rel : DepsRelation) :
    (g.setRel rr rel).nodehash = g.nodehash := rfl

@[simp] theorem setRel_nodeStore (g : Depsgraph) (rr : RelRef) (rel : DepsRelation) :
    (g.setRel rr rel).nodeStore = g.nodeStore := rfl

@[simp] theorem setRel_nextNodeRef (g : Depsgraph) (rr : RelRef) (rel : DepsRelation) :
    (g.setRel rr rel).nextNodeRef = g.nextNodeRef := rfl

@[simp] theorem setRel_nextRelRef (g : Depsgraph) (rr : RelRef) (rel : DepsRelation) :
    (g.setRel rr rel).nextRelRef = g.nextRelRef := rfl

theorem updRel_store_self (g : Depsgraph) (rr : RelRef) (f : DepsRelation → DepsRelation) :
    (g.updRel rr f).relStore rr = (g.relStore rr).map f := by
  unfold Depsgraph.updRel
  cases hr : g.relStore rr with
  | none => simp [hr]
  | some rel => simp

theorem updRel_store_ne (g : Depsgraph) {rr x : RelRef} (f : DepsRelation → DepsRelation)
    (hne : x ≠ rr) : (g.updRel rr f).relStore x = g.relStore x := by
  unfold Depsgraph.updRel
  cases hr : g.relStore rr with
  | none => rfl
  | some rel => simp [setRel_store_ne _ _ hne]

@[simp] theorem updRel_nodes (g : Depsgraph) (rr : RelRef) (f : DepsRelation → DepsRelation) :
    (g.updRel rr f).nodes = g.nodes := by
  unfold Depsgraph.updRel
  cases g.relStore rr <;> rfl

@[simp] theorem updRel_nodehash (g : Depsgraph) (rr : RelRef) (f : DepsRelation → DepsRelation) :
    (g.updRel rr f).nodehash = g.nodehash := by
  unfold Depsgraph.updRel
  cases g.relStore rr <;> rfl

@[simp] theorem updRel_nodeStore (g : Depsgraph) (rr : RelRef) (f : DepsRelation → DepsRelation) :
    (g.updRel rr f).nodeStore = g.nodeStore := by
  unfold Depsgraph.updRel
  cases g.relStore rr <;> rfl

@[simp] theorem updRel_nextNodeRef (g : Depsgraph) (rr : RelRef) (f : DepsRelation → DepsRelation) :
    (g.updRel rr f).nextNodeRef = g.nextNodeRef := by
  unfold Depsgraph.updRel
  cases g.relStore rr <;> rfl

@[simp] theorem updRel_nextRelRef (g : Depsgraph) (rr : RelRef) (f : DepsRelation → DepsRelation) :
    (g.updRel rr f).nextRelRef = g.nextRelRef := by
  unfold Depsgraph.updRel
  cases g.relStore rr <;> rfl

/-! ## Fold lemmas -/

theorem foldl_updRel_proj (l : List RelRef) (g : Depsgraph)
    (f : DepsRelation → DepsRelation) :
    (l.foldl (fun g0 r0 => g0.updRel r0 f) g).nodes = g.nodes ∧
    (l.foldl (fun g0 r0 => g0.updRel r0 f) g).nodehash = g.nodehash ∧
    (l.foldl (fun g0 r0 => g0.updRel r0 f) g).nodeStore = g.nodeStore ∧
    (l.foldl (fun g0 r0 => g0.updRel r0 f) g).nextNodeRef = g.nextNodeRef ∧
    (l.foldl (fun g0 r0 => g0.updRel r0 f) g).nextRelRef = g.nextRelRef := by
  induction l generalizing g with
  | nil => simp
  | cons a t ih =>
    simp only [List.foldl_cons]
    obtain ⟨h1, h2, h3, h4, h5⟩ := ih (g.updRel a f)
    simp [h1, h2, h3, h4, h5]

theorem foldl_updRel_relStore (l : List RelRef) (g : Depsgraph)
    (f : DepsRelation → DepsRelation) (hf : ∀ x, f (f x) = f x) (rr : RelRef) :
    (l.foldl (fun g0 r0 => g0.updRel r0 f) g).relStore rr =
      if rr ∈ l then (g.relStore rr).map f else g.relStore rr := by
  induction l generalizing g with
  | nil => simp
  | cons a t ih =>
    simp only [List.foldl_cons]
    rw [ih (g.updRel a f)]
    by_cases ha : rr = a
    · subst ha
      rw [updRel_store_self]
      by_cases ht : rr ∈ t
      · simp only [ht, if_pos, List.mem_cons, true_or, or_true]
        cases g.relStore rr with
        | none => simp
        | some rel => simp [hf]
      · simp [ht, List.mem_cons]
    · rw [updRel_store_ne _ _ ha]
      by_cases ht : rr ∈ t
      · simp [ht, List.mem_cons, ha]
      · simp [ht, List.mem_cons, ha]

theorem foldl_updNode_proj (l : List NodeRef) (g : Depsgraph)
    (f : DepsNode → DepsNode) :
    (l.foldl (fun g0 r0 => g0.updNode r0 f) g).nodes = g.nodes ∧
    (l.foldl (fun g0 r0 => g0.updNode r0 f) g).nodehash = g.nodehash ∧
    (l.foldl (fun g0 r0 => g0.updNode r0 f) g).relStore = g.relStore ∧
    (l.foldl (fun g0 r0 => g0.updNode r0 f) g).nextNodeRef = g.nextNodeRef ∧
    (l.foldl (fun g0 r0 => g0.updNode r0 f) g).nextRelRef = g.nextRelRef := by
  induction l generalizing g with
  | nil => simp
  | cons a t ih =>
    simp only [List.foldl_cons]
    obtain ⟨h1, h2, h3, h4, h5⟩ := ih (g.updNode a f)
    simp [h1, h2, h3, h4, h5]

theorem foldl_updNode_nodeStore (l : List NodeRef) (g : Depsgraph)
    (f : DepsNode → DepsNode) (hf : ∀ x, f (f x) = f x) (r : NodeRef) :
    (l.foldl (fun g0 r0 => g0.updNode r0 f) g).nodeStore r =
      if r ∈ l then (g.nodeStore r).map f else g.nodeStore r := by
  induction l generalizing g with
  | nil => simp
  | cons a t ih =>
    simp only [List.foldl_cons]
    rw [ih (g.updNode a f)]
    by_cases ha : r = a
    · subst ha
      rw [updNode_store_self]
      by_cases ht : r ∈ t
      · simp only [ht, if_pos, List.mem_cons, true_or, or_true]
        cases g.nodeStore r with
        | none => simp
        | some n => simp [hf]
      · simp [ht, List.mem_cons]
    · rw [updNode_store_ne _ _ ha]
      by_cases ht : r ∈ t
      · simp [ht, List.mem_cons, ha]
      · simp [ht, List.mem_cons, ha]

theorem foldl_ghashInsert_countKey (l : List Ident) (ρ : NodeRef)
    (h : List (Ident × NodeRef)) (b : Ident) (hb : b ∉ l) :
    countKey (l.foldl (fun h0 a => ghashInsert h0 a ρ) h) b = countKey h b := by
  induction l generalizing h with
  | nil => simp
  | cons a t ih =>
    simp only [List.foldl_cons]
    rw [ih _ (fun hm => hb (List.mem_cons_of_mem _ hm))]
    exact countKey_insert_ne _ _ (fun heq => hb (heq ▸ List.mem_cons_self _ _))

theorem foldl_ghashInsert_countKey_mem (l : List Ident) (ρ : NodeRef)
    (h : List (Ident × NodeRef)) (b : Ident) (hnd : l.Nodup) (hb : b ∈ l) :
    countKey (l.foldl (fun h0 a => ghashInsert h0 a ρ) h) b = countKey h b + 1 := by
  induction l generalizing h with
  | nil => simp at hb
  | cons a t ih =>
    simp only [List.foldl_cons]
    rcases List.mem_cons.mp hb with heq | ht
    · subst heq
      have hnt : b ∉ t := (List.nodup_cons.mp hnd).1
      rw [foldl_ghashInsert_countKey _ _ _ _ hnt, countKey_insert_self]
    · have hba : b ≠ a := fun heq => (List.nodup_cons.mp hnd).1 (heq ▸ ht)
      rw [ih _ (List.nodup_cons.mp hnd).2 ht, countKey_insert_ne _ _ (Ne.symm hba)]

theorem foldl_ghashInsert_lookup_not_mem (l : List Ident) (ρ : NodeRef)
    (h : List (Ident × NodeRef)) (b : Ident) (hb : b ∉ l) :
    ghashLookup (l.foldl (fun h0 a => ghashInsert h0 a ρ) h) b = ghashLookup h b := by
  induction l generalizing h with
  | nil => simp
  | cons a t ih =>
    simp only [List.foldl_cons]
    rw [ih _ (fun hm => hb (List.mem_cons_of_mem _ hm))]
    exact ghashLookup_insert_ne _ _ (fun heq => hb (heq ▸ List.mem_cons_self _ _))

theorem foldl_ghashInsert_lookup_mem (l : List Ident) (ρ : NodeRef)
    (h : List (Ident × NodeRef)) (b : Ident) (hb : b ∈ l) :
    ghashLookup (l.foldl (fun h0 a => ghashInsert h0 a ρ) h) b = some ρ := by
  induction l generalizing h with
  | nil => simp at hb
  | cons a t ih =>
    simp only [List.foldl_cons]
    rcases List.mem_cons.mp hb with heq | ht
    · subst heq
      by_cases hbt : b ∈ t
      · exact ih _ hbt
      · rw [foldl_ghashInsert_lookup_not_mem _ _ _ _ hbt]
        simp
    · exact ih _ ht

theorem foldl_ghashInsert_mem (l : List Ident) (ρ : NodeRef)
    (h : List (Ident × NodeRef)) (b : Ident) (r : NodeRef) :
    (b, r) ∈ l.foldl (fun h0 a => ghashInsert h0 a ρ) h ↔
      (b ∈ l ∧ r = ρ) ∨ (b, r) ∈ h := by
  induction l generalizing h with
  | nil => simp
  | cons a t ih =>
    simp only [List.foldl_cons]
    rw [ih]
    constructor
    · rintro (⟨hbt, hr⟩ | hm)
      · exact Or.inl ⟨List.mem_cons_of_mem _ hbt, hr⟩
      · rcases List.mem_cons.mp hm with heq | hm0
        · obtain ⟨h1, h2⟩ := Prod.mk.injEq .. ▸ heq
          exact Or.inl ⟨h1 ▸ List.mem_cons_self _ _, h2⟩
        · exact Or.inr hm0
    · rintro (⟨hbl, hr⟩ | hm)
      · rcases List.mem_cons.mp hbl with heq | hbt
        · exact Or.inr (by simp [ghashInsert, heq, hr])
        · exact Or.inl ⟨hbt, hr⟩
      · exact Or.inr (List.mem_cons_of_mem _ hm)

theorem foldl_reindex_not_mem (l : List Ident) (r1 : NodeRef)
    (h : List (Ident × NodeRef)) (b : Ident) (hb : b ∉ l) :
    countKey (l.foldl (fun h0 a => ghashInsert (ghashRemove h0 a) a r1) h) b =
        countKey h b ∧
    ghashLookup (l.foldl (fun h0 a => ghashInsert (ghashRemove h0 a) a r1) h) b =
        ghashLookup h b ∧
    ∀ r, ((b, r) ∈ l.foldl (fun h0 a => ghashInsert (ghashRemove h0 a) a r1) h ↔
        (b, r) ∈ h) := by
  induction l generalizing h with
  | nil => simp
  | cons a t ih =>
    have hba : b ≠ a := fun heq => hb (heq ▸ List.mem_cons_self _ _)
    have hbt : b ∉ t := fun hm => hb (List.mem_cons_of_mem _ hm)
    simp only [List.foldl_cons]
    obtain ⟨ihc, ihl, ihm⟩ := ih (ghashInsert (ghashRemove h a) a r1) hbt
    refine ⟨?_, ?_, ?_⟩
    · rw [ihc, countKey_insert_ne _ _ (Ne.symm hba), countKey_remove_ne _ (Ne.symm hba)]
    · rw [ihl, ghashLookup_insert_ne _ _ (Ne.symm hba), ghashLookup_remove_ne _ (Ne.symm hba)]
    · intro r
      rw [ihm r]
      constructor
      · intro hm
        rcases List.mem_cons.mp hm with heq | hm0
        · exact absurd (congrArg Prod.fst heq) hba
        · exact mem_of_mem_ghashRemove hm0
      · intro hm
        exact List.mem_cons_of_mem _ (mem_ghashRemove_of_ne hm hba)

theorem foldl_reindex_mem (l : List Ident) (r1 : NodeRef)
    (h : List (Ident × NodeRef)) (b : Ident) (hnd : l.Nodup)
    (honce : ∀ a ∈ l, countKey h a ≤ 1) (hb : b ∈ l) :
    countKey (l.foldl (fun h0 a => ghashInsert (ghashRemove h0 a) a r1) h) b = 1 ∧
    ghashLookup (l.foldl (fun h0 a => ghashInsert (ghashRemove h0 a) a r1) h) b =
        some r1 ∧
    ∀ r, ((b, r) ∈ l.foldl (fun h0 a => ghashInsert (ghashRemove h0 a) a r1) h ↔
        r = r1) := by
  induction l generalizing h with
  | nil => simp at hb
  | cons a t ih =>
    simp only [List.foldl_cons]
    have hnt : a ∉ t := (List.nodup_cons.mp hnd).1
    have h1cnt : countKey (ghashInsert (ghashRemove h a) a r1) a = 1 := by
      rw [countKey_insert_self, countKey_remove_self]
      have := honce a (List.mem_cons_self _ _)
      omega
    have hremzero : countKey (ghashRemove h a) a = 0 := by
      rw [countKey_remove_self]
      have := honce a (List.mem_cons_self _ _)
      omega
    rcases List.mem_cons.mp hb with heq | ht
    · subst heq
      obtain ⟨ihc, ihl, ihm⟩ :=
        foldl_reindex_not_mem t r1 (ghashInsert (ghashRemove h b) b r1) b hnt
      refine ⟨by rw [ihc, h1cnt], by rw [ihl]; simp, ?_⟩
      intro r
      rw [ihm r]
      constructor
      · intro hm
        rcases List.mem_cons.mp hm with heq2 | hm0
        · exact (Prod.mk.injEq .. ▸ heq2).2
        · exact absurd hm0 ((countKey_eq_zero_iff _ _).mp hremzero r)
      · intro hr
        exact hr ▸ List.mem_cons_self _ _
    · have hba : b ≠ a := fun heq => hnt (heq ▸ ht)
      refine ih (ghashInsert (ghashRemove h a) a r1) (List.nodup_cons.mp hnd).2 ?_ ht
      intro a2 ha2
      by_cases haa : a2 = a
      · subst haa
        exact h1cnt.le
      · rw [countKey_insert_ne _ _ (Ne.symm haa), countKey_remove_ne _ (Ne.symm haa)]
        exact honce a2 (List.mem_cons_of_mem _ ha2)

/-! ## Transfer characterization -/

/-- The outer-identity data of a node, untouched by the transfer routine. -/
def nodeKey (n : DepsNode) : eDepsNode_Type × Ident × List Ident :=
  (n.type, n.id, n.id_blocks)

/-- Pointwise effect of the transfer routine's two relation-rewrite passes
on the relation stored behind `rr`. -/
def relAdjust (inl outl : List RelRef) (src group : NodeRef) (rr : RelRef)
    (rel : DepsRelation) : DepsRelation :=
  let rel1 := if rr ∈ inl ∧ rel.toRef = src then { rel with toRef := group } else rel
  if rr ∈ outl ∧ rel1.fromRef = src then { rel1 with fromRef := group } else rel1

theorem rewrites_relStore (g : Depsgraph) (group src : NodeRef)
    (inl outl : List RelRef) (hgs : group ≠ src) (rr : RelRef) :
    (outl.foldl (fun g0 r0 => g0.updRel r0
        (fun rel => if rel.fromRef = src then { rel with fromRef := group } else rel))
      (inl.foldl (fun g0 r0 => g0.updRel r0
        (fun rel => if rel.toRef = src then { rel with toRef := group } else rel)) g)).relStore rr
    = (g.relStore rr).map (relAdjust inl outl src group rr) := by
  have hfIn : ∀ x : DepsRelation,
      (fun rel => if rel.toRef = src then { rel with toRef := group } else rel)
        ((fun rel => if rel.toRef = src then { rel with toRef := group } else rel) x) =
      (fun rel => if rel.toRef = src then { rel with toRef := group } else rel) x := by
    intro x
    by_cases hx : x.toRef = src
    · simp [hx, hgs]
    · simp [hx]
  have hfOut : ∀ x : DepsRelation,
      (fun rel => if rel.fromRef = src then { rel with fromRef := group } else rel)
        ((fun rel => if rel.fromRef = src then { rel with fromRef := group } else rel) x) =
      (fun rel => if rel.fromRef = src then { rel with fromRef := group } else rel) x := by
    intro x
    by_cases hx : x.fromRef = src
    · simp [hx, hgs]
    · simp [hx]
  rw [foldl_updRel_relStore _ _ _ hfOut, foldl_updRel_relStore _ _ _ hfIn]
  by_cases hin : rr ∈ inl <;> by_cases hout : rr ∈ outl <;>
    cases hrel : g.relStore rr <;>
    simp [hin, hout, relAdjust]

theorem rewrites_proj (g : Depsgraph) (group src : NodeRef)
    (inl outl : List RelRef) :
    (outl.foldl (fun g0 r0 => g0.updRel r0
        (fun rel => if rel.fromRef = src then { rel with fromRef := group } else rel))
      (inl.foldl (fun g0 r0 => g0.updRel r0
        (fun rel => if rel.toRef = src then { rel with toRef := group } else rel)) g)).nodes = g.nodes ∧
    (outl.foldl (fun g0 r0 => g0.updRel r0
        (fun rel => if rel.fromRef = src then { rel with fromRef := group } else rel))
      (inl.foldl (fun g0 r0 => g0.updRel r0
        (fun rel => if rel.toRef = src then { rel with toRef := group } else rel)) g)).nodehash = g.nodehash ∧
    (outl.foldl (fun g0 r0 => g0.updRel r0
        (fun rel => if rel.fromRef = src then { rel with fromRef := group } else rel))
      (inl.foldl (fun g0 r0 => g0.updRel r0
        (fun rel => if rel.toRef = src then { rel with toRef := group } else rel)) g)).nodeStore = g.nodeStore ∧
    (outl.foldl (fun g0 r0 => g0.updRel r0
        (fun rel => if rel.fromRef = src then { rel with fromRef := group } else rel))
      (inl.foldl (fun g0 r0 => g0.updRel r0
        (fun rel => if rel.toRef = src then { rel with toRef := group } else rel)) g)).nextNodeRef = g.nextNodeRef ∧
    (outl.foldl (fun g0 r0 => g0.updRel r0
        (fun rel => if rel.fromRef = src then { rel with fromRef := group } else rel))
      (inl.foldl (fun g0 r0 => g0.updRel r0
        (fun rel => if rel.toRef = src then { rel with toRef := group } else rel)) g)).nextRelRef = g.nextRelRef := by
  obtain ⟨a1, a2, a3, a4, a5⟩ := foldl_updRel_proj inl g
    (fun rel => if rel.toRef = src then { rel with toRef := group } else rel)
  obtain ⟨b1, b2, b3, b4, b5⟩ := foldl_updRel_proj outl
    (inl.foldl (fun g0 r0 => g0.updRel r0
      (fun rel => if rel.toRef = src then { rel with toRef := group } else rel)) g)
    (fun rel => if rel.fromRef = src then { rel with fromRef := group } else rel)
  exact ⟨b1.trans a1, b2.trans a2, b3.trans a3, b4.trans a4, b5.trans a5⟩

theorem owners_nodeStore_unchanged (g : Depsgraph) (group src : NodeRef)
    (subl nodl : List NodeRef) (x : NodeRef) (hx1 : x ∉ subl) (hx2 : x ∉ nodl) :
    (nodl.foldl (fun g0 c => g0.updNode c
        (fun n => if n.owner = some src then { n with owner := some group } else n))
      (subl.foldl (fun g0 c => g0.updNode c
        (fun n => { n with owner := some group })) g)).nodeStore x = g.nodeStore x := by
  have hfNod : ∀ n : DepsNode,
      (fun n0 => if n0.owner = some src then { n0 with owner := some group } else n0)
        ((fun n0 => if n0.owner = some src then { n0 with owner := some group } else n0) n) =
      (fun n0 => if n0.owner = some src then { n0 with owner := some group } else n0) n := by
    intro n
    by_cases hn : n.owner = some src
    · by_cases hgs : group = src
      · simp [hn, hgs]
      · simp [hn, hgs]
    · simp [hn]
  have hfSub : ∀ n : DepsNode,
      (fun n0 : DepsNode => { n0 with owner := some group })
        ((fun n0 : DepsNode => { n0 with owner := some group }) n) =
      (fun n0 : DepsNode => { n0 with owner := some group }) n := by
    intro n
    rfl
  rw [foldl_updNode_nodeStore _ _ _ hfNod, if_neg hx2,
      foldl_updNode_nodeStore _ _ _ hfSub, if_neg hx1]

theorem owners_nodeStore_key (g : Depsgraph) (group src : NodeRef)
    (subl nodl : List NodeRef) (x : NodeRef) :
    ((nodl.foldl (fun g0 c => g0.updNode c
        (fun n => if n.owner = some src then { n with owner := some group } else n))
      (subl.foldl (fun g0 c => g0.updNode c
        (fun n => { n with owner := some group })) g)).nodeStore x).map nodeKey =
      (g.nodeStore x).map nodeKey ∧
    ((nodl.foldl (fun g0 c => g0.updNode c
        (fun n => if n.owner = some src then { n with owner := some group } else n))
      (subl.foldl (fun g0 c => g0.updNode c
        (fun n => { n with owner := some group })) g)).nodeStore x).isSome =
      (g.nodeStore x).isSome := by
  have hfNod : ∀ n : DepsNode,
      (fun n0 => if n0.owner = some src then { n0 with owner := some group } else n0)
        ((fun n0 => if n0.owner = some src then { n0 with owner := some group } else n0) n) =
      (fun n0 => if n0.owner = some src then { n0 with owner := some group } else n0) n := by
    intro n
    by_cases hn : n.owner = some src
    · by_cases hgs : group = src
      · simp [hn, hgs]
      · simp [hn, hgs]
    · simp [hn]
  have hfSub : ∀ n : DepsNode,
      (fun n0 : DepsNode => { n0 with owner := some group })
        ((fun n0 : DepsNode => { n0 with owner := some group }) n) =
      (fun n0 : DepsNode => { n0 with owner := some group }) n := by
    intro n
    rfl
  rw [foldl_updNode_nodeStore _ _ _ hfNod, foldl_updNode_nodeStore _ _ _ hfSub]
  by_cases h1 : x ∈ subl <;> by_cases h2 : x ∈ nodl <;>
    cases hx : g.nodeStore x <;>
    simp [h1, h2, nodeKey] <;>
    split <;> simp [nodeKey]

theorem owners_proj (g : Depsgraph) (group src : NodeRef)
    (subl nodl : List NodeRef) :
    (nodl.foldl (fun g0 c => g0.updNode c
        (fun n => if n.owner = some src then { n with owner := some group } else n))
      (subl.foldl (fun g0 c => g0.updNode c
        (fun n => { n with owner := some group })) g)).nodes = g.nodes ∧
    (nodl.foldl (fun g0 c => g0.updNode c
        (fun n => if n.owner = some src then { n with owner := some group } else n))
      (subl.foldl (fun g0 c => g0.updNode c
        (fun n => { n with owner := some group })) g)).nodehash = g.nodehash ∧
    (nodl.foldl (fun g0 c => g0.updNode c
        (fun n => if n.owner = some src then { n with owner := some group } else n))
      (subl.foldl (fun g0 c => g0.updNode c
        (fun n => { n with owner := some group })) g)).relStore = g.relStore ∧
    (nodl.foldl (fun g0 c => g0.updNode c
        (fun n => if n.owner = some src then { n with owner := some group } else n))
      (subl.foldl (fun g0 c => g0.updNode c
        (fun n => { n with owner := some group })) g)).nextNodeRef = g.nextNodeRef ∧
    (nodl.foldl (fun g0 c => g0.updNode c
        (fun n => if n.owner = some src then { n with owner := some group } else n))
      (subl.foldl (fun g0 c => g0.updNode c
        (fun n => { n with owner := some group })) g)).nextRelRef = g.nextRelRef := by
  obtain ⟨a1, a2, a3, a4, a5⟩ := foldl_updNode_proj subl g
    (fun n => { n with owner := some group })
  obtain ⟨b1, b2, b3, b4, b5⟩ := foldl_updNode_proj nodl
    (subl.foldl (fun g0 c => g0.updNode c (fun n => { n with owner := some group })) g)
    (fun n => if n.owner = some src then { n with owner := some group } else n)
  exact ⟨b1.trans a1, b2.trans a2, b3.trans a3, b4.trans a4, b5.trans a5⟩

/-- Full characterization of `transfer_nodegraph_to_group` under the aliasing
discipline the merge algorithm guarantees (distinct group/src, neither listed
among src's children). -/
theorem transfer_spec (g : Depsgraph) (group src : NodeRef) (s gn : DepsNode)
    (hs : g.nodeStore src = some s) (hg : g.nodeStore group = some gn)
    (hgs : group ≠ src)
    (hgc1 : group ∉ s.subdata) (hgc2 : group ∉ s.nodes)
    (hsc1 : src ∉ s.subdata) (hsc2 : src ∉ s.nodes) :
    (transfer_nodegraph_to_group g group src).nodes = g.nodes ∧
    (transfer_nodegraph_to_group g group src).nodehash = g.nodehash ∧
    (transfer_nodegraph_to_group g group src).nextNodeRef = g.nextNodeRef ∧
    (transfer_nodegraph_to_group g group src).nextRelRef = g.nextRelRef ∧
    (transfer_nodegraph_to_group g group src).nodeStore src =
      some { s with inlinks := [], outlinks := [], subdata := [], nodes := [] } ∧
    (transfer_nodegraph_to_group g group src).nodeStore group =
      some { gn with inlinks := gn.inlinks ++ s.inlinks,
                     outlinks := gn.outlinks ++ s.outlinks,
                     subdata := gn.subdata ++ s.subdata,
                     nodes := gn.nodes ++ s.nodes } ∧
    (∀ x, x ≠ src → x ≠ group → x ∉ s.subdata → x ∉ s.nodes →
      (transfer_nodegraph_to_group g group src).nodeStore x = g.nodeStore x) ∧
    (∀ x, x ≠ src → x ≠ group →
      ((transfer_nodegraph_to_group g group src).nodeStore x).map nodeKey =
        (g.nodeStore x).map nodeKey ∧
      ((transfer_nodegraph_to_group g group src).nodeStore x).isSome =
        (g.nodeStore x).isSome) ∧
    (∀ rr, (transfer_nodegraph_to_group g group src).relStore rr =
      (g.relStore rr).map (relAdjust s.inlinks s.outlinks src group rr)) := by
  obtain ⟨p1, p2, p3, p4, p5⟩ := rewrites_proj g group src s.inlinks s.outlinks
  refine ⟨?_, ?_, ?_, ?_, ?_, ?_, ?_, ?_, ?_⟩
  · simp only [transfer_nodegraph_to_group, hs, updNode_nodes]
    rw [(owners_proj _ group src s.subdata s.nodes).1, p1]
  · simp only [transfer_nodegraph_to_group, hs, updNode_nodehash]
    rw [(owners_proj _ group src s.subdata s.nodes).2.1, p2]
  · simp only [transfer_nodegraph_to_group, hs, updNode_nextNodeRef]
    rw [(owners_proj _ group src s.subdata s.nodes).2.2.2.1, p4]
  · simp only [transfer_nodegraph_to_group, hs, updNode_nextRelRef]
    rw [(owners_proj _ group src s.subdata s.nodes).2.2.2.2, p5]
  · simp only [transfer_nodegraph_to_group, hs]
    rw [updNode_store_self, updNode_store_ne _ _ (Ne.symm hgs),
        owners_nodeStore_unchanged _ group src _ _ src hsc1 hsc2, p3, hs]
    rfl
  · simp only [transfer_nodegraph_to_group, hs]
    rw [updNode_store_ne _ _ hgs, updNode_store_self,
        owners_nodeStore_unchanged _ group src _ _ group hgc1 hgc2, p3, hg]
    rfl
  · intro x hx1 hx2 hx3 hx4
    simp only [transfer_nodegraph_to_group, hs]
    rw [updNode_store_ne _ _ hx1, updNode_store_ne _ _ hx2,
        owners_nodeStore_unchanged _ group src _ _ x hx3 hx4, p3]
  · intro x hx1 hx2
    simp only [transfer_nodegraph_to_group, hs]
    rw [updNode_store_ne _ _ hx1, updNode_store_ne _ _ hx2]
    obtain ⟨k1, k2⟩ := owners_nodeStore_key
      (s.outlinks.foldl (fun g0 r0 => g0.updRel r0
        (fun rel => if rel.fromRef = src then { rel with fromRef := group } else rel))
       (s.inlinks.foldl (fun g0 r0 => g0.updRel r0
        (fun rel => if rel.toRef = src then { rel with toRef := group } else rel)) g))
      group src s.subdata s.nodes x
    rw [k1, k2, p3]
    exact ⟨rfl, rfl⟩
  · intro rr
    simp only [transfer_nodegraph_to_group, hs, updNode_relStore]
    rw [(owners_proj _ group src s.subdata s.nodes).2.2.1]
    exact rewrites_relStore g group src s.inlinks s.outlinks hgs rr

/-- Under the linkage discipline (every relation whose endpoint is `src` sits
in src's corresponding link list), the rewrite passes substitute `group` for
`src` at both endpoints. -/
theorem relAdjust_endpoint (inl outl : List RelRef) (src group : NodeRef)
    (rr : RelRef) (rel : DepsRelation)
    (hlin : rel.toRef = src → rr ∈ inl) (hlout : rel.fromRef = src → rr ∈ outl) :
    relAdjust inl outl src group rr rel =
      { fromRef := if rel.fromRef = src then group else rel.fromRef,
        toRef := if rel.toRef = src then group else rel.toRef } := by
  unfold relAdjust
  by_cases ht : rel.toRef = src
  · have hin := hlin ht
    by_cases hf : rel.fromRef = src
    · simp [ht, hf, hin, hlout hf]
    · simp [ht, hf, hin]
  · by_cases hf : rel.fromRef = src
    · simp [ht, hf, hlout hf]
    · simp [ht, hf]

/-- Characterization of the merge in the ID + ID case: a fresh group is
created at `g.nextNodeRef`, receives both nodes' relations, children and
identities, replaces them in the toplevel list and the hash, and both ID
nodes are freed. -/
theorem merge_idid_spec (g : Depsgraph) (r1 r2 : NodeRef) (n1 n2 : DepsNode)
    (hwf : WF g) (hs1 : g.nodeStore r1 = some n1) (hs2 : g.nodeStore r2 = some n2)
    (hm1 : r1 ∈ g.nodes) (hm2 : r2 ∈ g.nodes) (hne : r1 ≠ r2)
    (ht1 : n1.type = .OUTER_ID) (ht2 : n2.type = .OUTER_ID) :
    (DEG_group_cyclic_node_pair g r1 r2).2 = some g.nextNodeRef ∧
    (DEG_group_cyclic_node_pair g r1 r2).1.nodes =
      ((g.nodes.erase r1).erase r2) ++ [g.nextNodeRef] ∧
    (DEG_group_cyclic_node_pair g r1 r2).1.nodehash =
      ghashInsert (ghashInsert (ghashRemove (ghashRemove g.nodehash n1.id) n2.id)
        n1.id g.nextNodeRef) n2.id g.nextNodeRef ∧
    (DEG_group_cyclic_node_pair g r1 r2).1.nextNodeRef = g.nextNodeRef + 1 ∧
    (DEG_group_cyclic_node_pair g r1 r2).1.nextRelRef = g.nextRelRef ∧
    (DEG_group_cyclic_node_pair g r1 r2).1.nodeStore r1 = none ∧
    (DEG_group_cyclic_node_pair g r1 r2).1.nodeStore r2 = none ∧
    (DEG_group_cyclic_node_pair g r1 r2).1.nodeStore g.nextNodeRef =
      some { type := .OUTER_GROUP, owner := none,
             inlinks := n1.inlinks ++ n2.inlinks,
             outlinks := n1.outlinks ++ n2.outlinks,
             subdata := n1.subdata ++ n2.subdata,
             nodes := n1.nodes ++ n2.nodes,
             id := 0, id_blocks := [n1.id, n2.id] } ∧
    (∀ x ∈ g.nodes, x ≠ r1 → x ≠ r2 →
      (DEG_group_cyclic_node_pair g r1 r2).1.nodeStore x = g.nodeStore x) ∧
    (∀ x, x ≠ r1 → x ≠ r2 → x ≠ g.nextNodeRef →
      ((DEG_group_cyclic_node_pair g r1 r2).1.nodeStore x).map nodeKey =
        (g.nodeStore x).map nodeKey ∧
      ((DEG_group_cyclic_node_pair g r1 r2).1.nodeStore x).isSome =
        (g.nodeStore x).isSome) ∧
    (∀ rr, (DEG_group_cyclic_node_pair g r1 r2).1.relStore rr =
      (g.relStore rr).map (fun rel =>
        { fromRef := if rel.fromRef = r1 ∨ rel.fromRef = r2 then g.nextNodeRef
                     else rel.fromRef,
          toRef := if rel.toRef = r1 ∨ rel.toRef = r2 then g.nextNodeRef
                   else rel.toRef })) := by
  have hρr1 : g.nextNodeRef ≠ r1 := by
    intro h
    rw [hwf.storeBound r1 (le_of_eq h)] at hs1
    cases hs1
  have hρr2 : g.nextNodeRef ≠ r2 := by
    intro h
    rw [hwf.storeBound r2 (le_of_eq h)] at hs2
    cases hs2
  have hch1 := hwf.childGood r1 hm1 n1 hs1
  have hch2 := hwf.childGood r2 hm2 n2 hs2
  have hρc1s : g.nextNodeRef ∉ n1.subdata := by
    intro h
    have := (hch1 _ (List.mem_append_left _ h)).2
    rw [hwf.storeBound _ (le_refl _)] at this
    cases this
  have hρc1n : g.nextNodeRef ∉ n1.nodes := by
    intro h
    have := (hch1 _ (List.mem_append_right _ h)).2
    rw [hwf.storeBound _ (le_refl _)] at this
    cases this
  have hρc2s : g.nextNodeRef ∉ n2.subdata := by
    intro h
    have := (hch2 _ (List.mem_append_left _ h)).2
    rw [hwf.storeBound _ (le_refl _)] at this
    cases this
  have hρc2n : g.nextNodeRef ∉ n2.nodes := by
    intro h
    have := (hch2 _ (List.mem_append_right _ h)).2
    rw [hwf.storeBound _ (le_refl _)] at this
    cases this
  have hr1c1s : r1 ∉ n1.subdata :=
    fun h => (hch1 _ (List.mem_append_left _ h)).1 hm1
  have hr1c1n : r1 ∉ n1.nodes :=
    fun h => (hch1 _ (List.mem_append_right _ h)).1 hm1
  have hr2c1s : r2 ∉ n1.subdata :=
    fun h => (hch1 _ (List.mem_append_left _ h)).1 hm2
  have hr2c1n : r2 ∉ n1.nodes :=
    fun h => (hch1 _ (List.mem_append_right _ h)).1 hm2
  have hr1c2s : r1 ∉ n2.subdata :=
    fun h => (hch2 _ (List.mem_append_left _ h)).1 hm1
  have hr1c2n : r1 ∉ n2.nodes :=
    fun h => (hch2 _ (List.mem_append_right _ h)).1 hm1
  have hr2c2s : r2 ∉ n2.subdata :=
    fun h => (hch2 _ (List.mem_append_left _ h)).1 hm2
  have hr2c2n : r2 ∉ n2.nodes :=
    fun h => (hch2 _ (List.mem_append_right _ h)).1 hm2
  have e0 : DEG_group_cyclic_node_pair g r1 r2 =
      (DEG_add_node (DEG_free_node (DEG_free_node (deg_group_add_id_ref false
        (deg_group_add_id_ref false (DEG_remove_node (DEG_remove_node
          (transfer_nodegraph_to_group (transfer_nodegraph_to_group
            { g.setNode g.nextNodeRef (blankNode .OUTER_GROUP) with
                nextNodeRef := g.nextNodeRef + 1 } g.nextNodeRef r1)
            g.nextNodeRef r2) r1) r2) g.nextNodeRef n1.id) g.nextNodeRef n2.id)
          r1) r2) g.nextNodeRef, some g.nextNodeRef) := by
    simp only [DEG_group_cyclic_node_pair, hs1, hs2, ht1, ht2, DEG_create_node]
    simp
  rw [e0]
  set gA : Depsgraph :=
    { g.setNode g.nextNodeRef (blankNode .OUTER_GROUP) with
        nextNodeRef := g.nextNodeRef + 1 } with hgA
  have hA_r1 : gA.nodeStore r1 = some n1 := by
    rw [hgA]
    show (g.setNode g.nextNodeRef (blankNode .OUTER_GROUP)).nodeStore r1 = some n1
    rw [setNode_store_ne _ _ (fun h => hρr1 h.symm)]
    exact hs1
  have hA_r2 : gA.nodeStore r2 = some n2 := by
    rw [hgA]
    show (g.setNode g.nextNodeRef (blankNode .OUTER_GROUP)).nodeStore r2 = some n2
    rw [setNode_store_ne _ _ (fun h => hρr2 h.symm)]
    exact hs2
  have hA_ρ : gA.nodeStore g.nextNodeRef = some (blankNode .OUTER_GROUP) := by
    rw [hgA]
    exact setNode_store_self _ _ _
  obtain ⟨tb1, tb2, tb3, tb4, tb5, tb6, tb7, tb8, tb9⟩ :=
    transfer_spec gA g.nextNodeRef r1 n1 (blankNode .OUTER_GROUP)
      hA_r1 hA_ρ hρr1 hρc1s hρc1n hr1c1s hr1c1n
  set gB := transfer_nodegraph_to_group gA g.nextNodeRef r1 with hgB
  have hB_r2 : gB.nodeStore r2 = some n2 := by
    rw [tb7 r2 (Ne.symm hne) (fun h => hρr2 h.symm) hr2c1s hr2c1n]
    exact hA_r2
  have hB_ρ : gB.nodeStore g.nextNodeRef =
      some { blankNode .OUTER_GROUP with
              inlinks := n1.inlinks, outlinks := n1.outlinks,
              subdata := n1.subdata, nodes := n1.nodes } := by
    rw [tb6]
    rfl
  obtain ⟨tc1, tc2, tc3, tc4, tc5, tc6, tc7, tc8, tc9⟩ :=
    transfer_spec gB g.nextNodeRef r2 n2
      { blankNode .OUTER_GROUP with
          inlinks := n1.inlinks, outlinks := n1.outlinks,
          subdata := n1.subdata, nodes := n1.nodes }
      hB_r2 hB_ρ hρr2 hρc2s hρc2n hr2c2s hr2c2n
  set gC := transfer_nodegraph_to_group gB g.nextNodeRef r2 with hgC
  have hC_nodes : gC.nodes = g.nodes := by
    rw [tc1, tb1, hgA]
    rfl
  have hC_hash : gC.nodehash = g.nodehash := by
    rw [tc2, tb2, hgA]
    rfl
  have hC_nnr : gC.nextNodeRef = g.nextNodeRef + 1 := by
    rw [tc3, tb3, hgA]
  have hC_nrr : gC.nextRelRef = g.nextRelRef := by
    rw [tc4, tb4, hgA]
    rfl
  have hC_r1 : gC.nodeStore r1 =
      some { n1 with inlinks := [], outlinks := [], subdata := [], nodes := [] } := by
    rw [tc7 r1 hne (fun h => hρr1 h.symm) hr1c2s hr1c2n]
    exact tb5
  have hC_r2 : gC.nodeStore r2 =
      some { n2 with inlinks := [], outlinks := [], subdata := [], nodes := [] } :=
    tc5
  have hC_ρ : gC.nodeStore g.nextNodeRef =
      some { type := .OUTER_GROUP, owner := none,
             inlinks := n1.inlinks ++ n2.inlinks,
             outlinks := n1.outlinks ++ n2.outlinks,
             subdata := n1.subdata ++ n2.subdata,
             nodes := n1.nodes ++ n2.nodes,
             id := 0, id_blocks := [] } := by
    rw [tc6]
    rfl
  have hC_r1t : gC.nodeStore r1 =
      some { type := .OUTER_ID, owner := n1.owner, inlinks := [], outlinks := [],
             subdata := [], nodes := [], id := n1.id, id_blocks := n1.id_blocks } := by
    rw [hC_r1, ht1]
  set gD := DEG_remove_node gC r1 with hgD
  have hD_eq : gD = { gC with nodehash := ghashRemove g.nodehash n1.id,
                              nodes := g.nodes.erase r1 } := by
    rw [hgD]
    unfold DEG_remove_node
    rw [hC_r1t]
    show dnti_outer_id__remove_from_graph gC r1 = _
    unfold dnti_outer_id__remove_from_graph
    rw [hC_r1t, hC_hash, hC_nodes]
  set gE := DEG_remove_node gD r2 with hgE
  have hD_r2 : gD.nodeStore r2 =
      some { n2 with inlinks := [], outlinks := [], subdata := [], nodes := [] } := by
    rw [hD_eq]
    exact hC_r2
  have hD_r2t : gD.nodeStore r2 =
      some { type := .OUTER_ID, owner := n2.owner, inlinks := [], outlinks := [],
             subdata := [], nodes := [], id := n2.id, id_blocks := n2.id_blocks } := by
    rw [hD_r2, ht2]
  have hE_eq : gE = { gC with
      nodehash := ghashRemove (ghashRemove g.nodehash n1.id) n2.id,
      nodes := (g.nodes.erase r1).erase r2 } := by
    rw [hgE]
    unfold DEG_remove_node
    rw [hD_r2t]
    show dnti_outer_id__remove_from_graph gD r2 = _
    unfold dnti_outer_id__remove_from_graph
    rw [hD_r2t, hD_eq]
  set gF := deg_group_add_id_ref false gE g.nextNodeRef n1.id with hgF
  have hE_ρ : gE.nodeStore g.nextNodeRef =
      some { type := .OUTER_GROUP, owner := none,
             inlinks := n1.inlinks ++ n2.inlinks,
             outlinks := n1.outlinks ++ n2.outlinks,
             subdata := n1.subdata ++ n2.subdata,
             nodes := n1.nodes ++ n2.nodes,
             id := 0, id_blocks := [] } := by
    rw [hE_eq]
    exact hC_ρ
  have hF_eq : gF = gE.updNode g.nextNodeRef
      (fun n => { n with id_blocks := n.id_blocks ++ [n1.id] }) := by
    rw [hgF]
    rfl
  set gG := deg_group_add_id_ref false gF g.nextNodeRef n2.id with hgG
  have hG_eq : gG = gF.updNode g.nextNodeRef
      (fun n => { n with id_blocks := n.id_blocks ++ [n2.id] }) := by
    rw [hgG]
    rfl
  have hG_ρ : gG.nodeStore g.nextNodeRef =
      some { type := .OUTER_GROUP, owner := none,
             inlinks := n1.inlinks ++ n2.inlinks,
             outlinks := n1.outlinks ++ n2.outlinks,
             subdata := n1.subdata ++ n2.subdata,
             nodes := n1.nodes ++ n2.nodes,
             id := 0, id_blocks := [n1.id, n2.id] } := by
    rw [hG_eq, hF_eq, updNode_store_self, updNode_store_self, hE_ρ]
    rfl
  have hG_store_ne : ∀ x, x ≠ g.nextNodeRef → gG.nodeStore x = gE.nodeStore x := by
    intro x hx
    rw [hG_eq, hF_eq, updNode_store_ne _ _ hx, updNode_store_ne _ _ hx]
  set gH := DEG_free_node gG r1 with hgH
  set gI := DEG_free_node gH r2 with hgI
  have hI_ρ : gI.nodeStore g.nextNodeRef =
      some { type := .OUTER_GROUP, owner := none,
             inlinks := n1.inlinks ++ n2.inlinks,
             outlinks := n1.outlinks ++ n2.outlinks,
             subdata := n1.subdata ++ n2.subdata,
             nodes := n1.nodes ++ n2.nodes,
             id := 0, id_blocks := [n1.id, n2.id] } := by
    rw [hgI, hgH]
    unfold DEG_free_node
    rw [delNode_store_ne _ hρr2, delNode_store_ne _ hρr1]
    exact hG_ρ
  have hI_nodes : gI.nodes = (g.nodes.erase r1).erase r2 := by
    rw [hgI, hgH]
    unfold DEG_free_node
    rw [delNode_nodes, delNode_nodes, hG_eq, hF_eq, updNode_nodes, updNode_nodes,
        hE_eq]
  have hI_hash : gI.nodehash = ghashRemove (ghashRemove g.nodehash n1.id) n2.id := by
    rw [hgI, hgH]
    unfold DEG_free_node
    rw [delNode_nodehash, delNode_nodehash, hG_eq, hF_eq, updNode_nodehash,
        updNode_nodehash, hE_eq]
  have hfinal_eq : DEG_add_node gI g.nextNodeRef =
      { gI with
          nodes := gI.nodes ++ [g.nextNodeRef],
          nodehash := ghashInsert (ghashInsert gI.nodehash n1.id g.nextNodeRef)
            n2.id g.nextNodeRef } := by
    unfold DEG_add_node
    rw [hI_ρ]
    show dnti_outer_group__add_to_graph gI g.nextNodeRef = _
    unfold dnti_outer_group__add_to_graph
    rw [hI_ρ]
    rfl
  refine ⟨rfl, ?_, ?_, ?_, ?_, ?_, ?_, ?_, ?_, ?_, ?_⟩
  · show (DEG_add_node gI g.nextNodeRef).nodes = _
    rw [hfinal_eq]
    show gI.nodes ++ [g.nextNodeRef] = _
    rw [hI_nodes]
  · show (DEG_add_node gI g.nextNodeRef).nodehash = _
    rw [hfinal_eq]
    show ghashInsert (ghashInsert gI.nodehash n1.id g.nextNodeRef) n2.id g.nextNodeRef = _
    rw [hI_hash]
  · show (DEG_add_node gI g.nextNodeRef).nextNodeRef = _
    rw [hfinal_eq]
    show gI.nextNodeRef = _
    rw [hgI, hgH]
    unfold DEG_free_node
    rw [delNode_nextNodeRef, delNode_nextNodeRef, hG_eq, hF_eq, updNode_nextNodeRef,
        updNode_nextNodeRef, hE_eq]
    exact hC_nnr
  · show (DEG_add_node gI g.nextNodeRef).nextRelRef = _
    rw [hfinal_eq]
    show gI.nextRelRef = _
    rw [hgI, hgH]
    unfold DEG_free_node
    rw [delNode_nextRelRef, delNode_nextRelRef, hG_eq, hF_eq, updNode_nextRelRef,
        updNode_nextRelRef, hE_eq]
    exact hC_nrr
  · show (DEG_add_node gI g.nextNodeRef).nodeStore r1 = none
    rw [hfinal_eq]
    show gI.nodeStore r1 = none
    rw [hgI, hgH]
    unfold DEG_free_node
    rw [delNode_store_ne _ hne]
    exact delNode_store_self _ _
  · show (DEG_add_node gI g.nextNodeRef).nodeStore r2 = none
    rw [hfinal_eq]
    show gI.nodeStore r2 = none
    rw [hgI]
    unfold DEG_free_node
    exact delNode_store_self _ _
  · show (DEG_add_node gI g.nextNodeRef).nodeStore g.nextNodeRef = _
    rw [hfinal_eq]
    exact hI_ρ
  · intro x hx hx1 hx2
    have hxρ : x ≠ g.nextNodeRef := by
      intro h
      rw [h] at hx
      obtain ⟨n, hn, _⟩ := hwf.topLive _ hx
      rw [hwf.storeBound _ (le_refl _)] at hn
      cases hn
    have hxc1s : x ∉ n1.subdata := fun h => (hch1 _ (List.mem_append_left _ h)).1 hx
    have hxc1n : x ∉ n1.nodes := fun h => (hch1 _ (List.mem_append_right _ h)).1 hx
    have hxc2s : x ∉ n2.subdata := fun h => (hch2 _ (List.mem_append_left _ h)).1 hx
    have hxc2n : x ∉ n2.nodes := fun h => (hch2 _ (List.mem_append_right _ h)).1 hx
    show (DEG_add_node gI g.nextNodeRef).nodeStore x = _
    rw [hfinal_eq]
    show gI.nodeStore x = _
    rw [hgI, hgH]
    unfold DEG_free_node
    rw [delNode_store_ne _ hx2, delNode_store_ne _ hx1, hG_store_ne x hxρ, hE_eq]
    show gC.nodeStore x = _
    rw [tc7 x hx2 hxρ hxc2s hxc2n, tb7 x hx1 hxρ hxc1s hxc1n, hgA]
    show (g.setNode g.nextNodeRef (blankNode .OUTER_GROUP)).nodeStore x = _
    rw [setNode_store_ne _ _ hxρ]
  · intro x hx1 hx2 hxρ
    show (Option.map nodeKey ((DEG_add_node gI g.nextNodeRef).nodeStore x) =
        Option.map nodeKey (g.nodeStore x)) ∧ _
    rw [hfinal_eq]
    show (Option.map nodeKey (gI.nodeStore x) = _) ∧ (gI.nodeStore x).isSome = _
    rw [hgI, hgH]
    unfold DEG_free_node
    rw [delNode_store_ne _ hx2, delNode_store_ne _ hx1, hG_store_ne x hxρ, hE_eq]
    show (Option.map nodeKey (gC.nodeStore x) = _) ∧ (gC.nodeStore x).isSome = _
    obtain ⟨k1, k2⟩ := tc8 x hx2 hxρ
    obtain ⟨k3, k4⟩ := tb8 x hx1 hxρ
    rw [k1, k2, k3, k4, hgA]
    show (Option.map nodeKey ((g.setNode g.nextNodeRef (blankNode .OUTER_GROUP)).nodeStore x) = _) ∧ _
    rw [setNode_store_ne _ _ hxρ]
    exact ⟨rfl, rfl⟩
  · intro rr
    show (DEG_add_node gI g.nextNodeRef).relStore rr = _
    rw [hfinal_eq]
    show gI.relStore rr = _
    rw [hgI, hgH]
    unfold DEG_free_node
    rw [delNode_relStore, delNode_relStore, hG_eq, hF_eq, updNode_relStore,
        updNode_relStore, hE_eq]
    show gC.relStore rr = _
    rw [tc9 rr, tb9 rr, hgA]
    show Option.map _ (Option.map _ ((g.setNode g.nextNodeRef (blankNode .OUTER_GROUP)).relStore rr)) = _
    rw [setNode_relStore]
    cases hrel : g.relStore rr with
    | none => rfl
    | some rel =>
      show some _ = some _
      congr 1
      have hlk := hwf.relLinked rr rel hrel
      have hadj1 : relAdjust n1.inlinks n1.outlinks r1 g.nextNodeRef rr rel =
          { fromRef := if rel.fromRef = r1 then g.nextNodeRef else rel.fromRef,
            toRef := if rel.toRef = r1 then g.nextNodeRef else rel.toRef } :=
        relAdjust_endpoint _ _ _ _ _ _
          (fun h => hlk.1 n1 (h ▸ hs1)) (fun h => hlk.2 n1 (h ▸ hs1))
      rw [hadj1]
      have hadj2 : relAdjust n2.inlinks n2.outlinks r2 g.nextNodeRef rr
          { fromRef := if rel.fromRef = r1 then g.nextNodeRef else rel.fromRef,
            toRef := if rel.toRef = r1 then g.nextNodeRef else rel.toRef } =
          { fromRef := if (if rel.fromRef = r1 then g.nextNodeRef else rel.fromRef) = r2
                       then g.nextNodeRef
                       else (if rel.fromRef = r1 then g.nextNodeRef else rel.fromRef),
            toRef := if (if rel.toRef = r1 then g.nextNodeRef else rel.toRef) = r2
                     then g.nextNodeRef
                     else (if rel.toRef = r1 then g.nextNodeRef else rel.toRef) } := by
        refine relAdjust_endpoint _ _ _ _ _ _ ?_ ?_
        · intro h
          by_cases hr : rel.toRef = r1
          · rw [if_pos hr] at h
            exact absurd h hρr2
          · rw [if_neg hr] at h
            exact hlk.1 n2 (h ▸ hs2)
        · intro h
          by_cases hr : rel.fromRef = r1
          · rw [if_pos hr] at h
            exact absurd h hρr2
          · rw [if_neg hr] at h
            exact hlk.2 n2 (h ▸ hs2)
      rw [hadj2]
      congr 1
      · by_cases h1 : rel.fromRef = r1
        · rw [if_pos h1, if_pos (Or.inl h1), if_neg hρr2]
        · rw [if_neg h1]
          by_cases h2 : rel.fromRef = r2
          · rw [if_pos h2, if_pos (Or.inr h2)]
          · rw [if_neg h2, if_neg (fun hor => Or.elim hor h1 h2)]
      · by_cases h1 : rel.toRef = r1
        · rw [if_pos h1, if_pos (Or.inl h1), if_neg hρr2]
        · rw [if_neg h1]
          by_cases h2 : rel.toRef = r2
          · rw [if_pos h2, if_pos (Or.inr h2)]
          · rw [if_neg h2, if_neg (fun hor => Or.elim hor h1 h2)]

/-- Characterization of the merge in the Group + Group case: node1 absorbs
node2's identities (re-pointed in the hash), id_blocks, relations and
children; node2 is removed and freed. -/
theorem merge_gg_spec (g : Depsgraph) (r1 r2 : NodeRef) (n1 n2 : DepsNode)
    (hwf : WF g) (hs1 : g.nodeStore r1 = some n1) (hs2 : g.nodeStore r2 = some n2)
    (hm1 : r1 ∈ g.nodes) (hm2 : r2 ∈ g.nodes) (hne : r1 ≠ r2)
    (ht1 : n1.type = .OUTER_GROUP) (ht2 : n2.type = .OUTER_GROUP) :
    (DEG_group_cyclic_node_pair g r1 r2).2 = some r1 ∧
    (DEG_group_cyclic_node_pair g r1 r2).1.nodes = g.nodes.erase r2 ∧
    (DEG_group_cyclic_node_pair g r1 r2).1.nodehash =
      n2.id_blocks.foldl (fun h0 a => ghashInsert (ghashRemove h0 a) a r1) g.nodehash ∧
    (DEG_group_cyclic_node_pair g r1 r2).1.nextNodeRef = g.nextNodeRef ∧
    (DEG_group_cyclic_node_pair g r1 r2).1.nextRelRef = g.nextRelRef ∧
    (DEG_group_cyclic_node_pair g r1 r2).1.nodeStore r2 = none ∧
    (DEG_group_cyclic_node_pair g r1 r2).1.nodeStore r1 =
      some { n1 with id_blocks := n1.id_blocks ++ n2.id_blocks,
                     inlinks := n1.inlinks ++ n2.inlinks,
                     outlinks := n1.outlinks ++ n2.outlinks,
                     subdata := n1.subdata ++ n2.subdata,
                     nodes := n1.nodes ++ n2.nodes } ∧
    (∀ x ∈ g.nodes, x ≠ r1 → x ≠ r2 →
      (DEG_group_cyclic_node_pair g r1 r2).1.nodeStore x = g.nodeStore x) ∧
    (∀ x, x ≠ r1 → x ≠ r2 →
      ((DEG_group_cyclic_node_pair g r1 r2).1.nodeStore x).map nodeKey =
        (g.nodeStore x).map nodeKey ∧
      ((DEG_group_cyclic_node_pair g r1 r2).1.nodeStore x).isSome =
        (g.nodeStore x).isSome) ∧
    (∀ rr, (DEG_group_cyclic_node_pair g r1 r2).1.relStore rr =
      (g.relStore rr).map (fun rel =>
        { fromRef := if rel.fromRef = r2 then r1 else rel.fromRef,
          toRef := if rel.toRef = r2 then r1 else rel.toRef })) := by
  have hch2 := hwf.childGood r2 hm2 n2 hs2
  have hr1c2s : r1 ∉ n2.subdata :=
    fun h => (hch2 _ (List.mem_append_left _ h)).1 hm1
  have hr1c2n : r1 ∉ n2.nodes :=
    fun h => (hch2 _ (List.mem_append_right _ h)).1 hm1
  have hr2c2s : r2 ∉ n2.subdata :=
    fun h => (hch2 _ (List.mem_append_left _ h)).1 hm2
  have hr2c2n : r2 ∉ n2.nodes :=
    fun h => (hch2 _ (List.mem_append_right _ h)).1 hm2
  have e0 : DEG_group_cyclic_node_pair g r1 r2 =
      (DEG_free_node (DEG_remove_node (transfer_nodegraph_to_group
        ((({ g with nodehash := (n2.id_blocks.foldl
              (fun h0 a => ghashInsert (ghashRemove h0 a) a r1) g.nodehash)
           }).updNode r1 (fun n => { n with id_blocks := n.id_blocks ++ n2.id_blocks })).updNode
          r2 (fun n => { n with id_blocks := [] })) r1 r2) r2) r2, some r1) := by
    simp only [DEG_group_cyclic_node_pair, hs1, hs2, ht1, ht2]
    simp
  rw [e0]
  set gA : Depsgraph :=
    { g with nodehash := (n2.id_blocks.foldl
        (fun h0 a => ghashInsert (ghashRemove h0 a) a r1) g.nodehash) } with hgA
  set gB := gA.updNode r1 (fun n => { n with id_blocks := n.id_blocks ++ n2.id_blocks })
    with hgB
  set gC := gB.updNode r2 (fun n => { n with id_blocks := [] }) with hgC
  have hA_store : gA.nodeStore = g.nodeStore := by
    rw [hgA]
  have hC_r1 : gC.nodeStore r1 =
      some { n1 with id_blocks := n1.id_blocks ++ n2.id_blocks } := by
    rw [hgC, updNode_store_ne _ _ hne, hgB, updNode_store_self, hA_store, hs1]
    rfl
  have hC_r2 : gC.nodeStore r2 = some { n2 with id_blocks := [] } := by
    rw [hgC, updNode_store_self, hgB, updNode_store_ne _ _ (Ne.symm hne), hA_store, hs2]
    rfl
  have hC_frame : ∀ x, x ≠ r1 → x ≠ r2 → gC.nodeStore x = g.nodeStore x := by
    intro x hx1 hx2
    rw [hgC, updNode_store_ne _ _ hx2, hgB, updNode_store_ne _ _ hx1, hA_store]
  obtain ⟨td1, td2, td3, td4, td5, td6, td7, td8, td9⟩ :=
    transfer_spec gC r1 r2 { n2 with id_blocks := [] }
      { n1 with id_blocks := n1.id_blocks ++ n2.id_blocks }
      hC_r2 hC_r1 hne hr1c2s hr1c2n hr2c2s hr2c2n
  set gD := transfer_nodegraph_to_group gC r1 r2 with hgD
  have hD_nodes : gD.nodes = g.nodes := by
    rw [td1, hgC, updNode_nodes, hgB, updNode_nodes, hgA]
  have hD_hash : gD.nodehash =
      n2.id_blocks.foldl (fun h0 a => ghashInsert (ghashRemove h0 a) a r1) g.nodehash := by
    rw [td2, hgC, updNode_nodehash, hgB, updNode_nodehash, hgA]
  have hD_r2t : gD.nodeStore r2 =
      some { type := .OUTER_GROUP, owner := n2.owner, inlinks := [], outlinks := [],
             subdata := [], nodes := [], id := n2.id, id_blocks := [] } := by
    rw [td5, ht2]
  set gE := DEG_remove_node gD r2 with hgE
  have hE_eq : gE = { gD with nodes := g.nodes.erase r2 } := by
    rw [hgE]
    unfold DEG_remove_node
    rw [hD_r2t]
    show dnti_outer_group__remove_from_graph gD r2 = _
    unfold dnti_outer_group__remove_from_graph
    rw [hD_r2t, hD_nodes]
    rfl
  refine ⟨rfl, ?_, ?_, ?_, ?_, ?_, ?_, ?_, ?_, ?_⟩
  · show (DEG_free_node gE r2).nodes = _
    unfold DEG_free_node
    rw [delNode_nodes, hE_eq]
  · show (DEG_free_node gE r2).nodehash = _
    unfold DEG_free_node
    rw [delNode_nodehash, hE_eq]
    show gD.nodehash = _
    exact hD_hash
  · show (DEG_free_node gE r2).nextNodeRef = _
    unfold DEG_free_node
    rw [delNode_nextNodeRef, hE_eq]
    show gD.nextNodeRef = _
    rw [td3, hgC, updNode_nextNodeRef, hgB, updNode_nextNodeRef, hgA]
  · show (DEG_free_node gE r2).nextRelRef = _
    unfold DEG_free_node
    rw [delNode_nextRelRef, hE_eq]
    show gD.nextRelRef = _
    rw [td4, hgC, updNode_nextRelRef, hgB, updNode_nextRelRef, hgA]
  · show (DEG_free_node gE r2).nodeStore r2 = none
    unfold DEG_free_node
    exact delNode_store_self _ _
  · show (DEG_free_node gE r2).nodeStore r1 = _
    unfold DEG_free_node
    rw [delNode_store_ne _ hne, hE_eq]
    show gD.nodeStore r1 = _
    rw [td6]
  · intro x hx hx1 hx2
    have hxc2s : x ∉ n2.subdata := fun h => (hch2 _ (List.mem_append_left _ h)).1 hx
    have hxc2n : x ∉ n2.nodes := fun h => (hch2 _ (List.mem_append_right _ h)).1 hx
    show (DEG_free_node gE r2).nodeStore x = _
    unfold DEG_free_node
    rw [delNode_store_ne _ hx2, hE_eq]
    show gD.nodeStore x = _
    rw [td7 x hx2 hx1 hxc2s hxc2n, hC_frame x hx1 hx2]
  · intro x hx1 hx2
    show (Option.map nodeKey ((DEG_free_node gE r2).nodeStore x) = _) ∧
      ((DEG_free_node gE r2).nodeStore x).isSome = _
    unfold DEG_free_node
    rw [delNode_store_ne _ hx2, hE_eq]
    show (Option.map nodeKey (gD.nodeStore x) = _) ∧ (gD.nodeStore x).isSome = _
    obtain ⟨k1, k2⟩ := td8 x hx2 hx1
    rw [k1, k2, hC_frame x hx1 hx2]
    exact ⟨rfl, rfl⟩
  · intro rr
    show (DEG_free_node gE r2).relStore rr = _
    unfold DEG_free_node
    rw [delNode_relStore, hE_eq]
    show gD.relStore rr = _
    rw [td9 rr, hgC, updNode_relStore, hgB, updNode_relStore, hgA]
    show Option.map _ (g.relStore rr) = _
    cases hrel : g.relStore rr with
    | none => rfl
    | some rel =>
      show some _ = some _
      congr 1
      have hlk := hwf.relLinked rr rel hrel
      exact relAdjust_endpoint _ _ _ _ _ _
        (fun h => hlk.1 n2 (h ▸ hs2)) (fun h => hlk.2 n2 (h ▸ hs2))

/-- Characterization of the merge in the Group + ID case (group first): the
group absorbs the ID node's relations and children, the ID's identity is
re-pointed at the group, and the ID node is removed and freed. -/
theorem merge_gid_spec (g : Depsgraph) (r1 r2 : NodeRef) (n1 n2 : DepsNode)
    (hwf : WF g) (hs1 : g.nodeStore r1 = some n1) (hs2 : g.nodeStore r2 = some n2)
    (hm1 : r1 ∈ g.nodes) (hm2 : r2 ∈ g.nodes) (hne : r1 ≠ r2)
    (ht1 : n1.type = .OUTER_GROUP) (ht2 : n2.type = .OUTER_ID) :
    (DEG_group_cyclic_node_pair g r1 r2).2 = some r1 ∧
    (DEG_group_cyclic_node_pair g r1 r2).1.nodes = g.nodes.erase r2 ∧
    (DEG_group_cyclic_node_pair g r1 r2).1.nodehash =
      ghashInsert (ghashRemove g.nodehash n2.id) n2.id r1 ∧
    (DEG_group_cyclic_node_pair g r1 r2).1.nextNodeRef = g.nextNodeRef ∧
    (DEG_group_cyclic_node_pair g r1 r2).1.nextRelRef = g.nextRelRef ∧
    (DEG_group_cyclic_node_pair g r1 r2).1.nodeStore r2 = none ∧
    (DEG_group_cyclic_node_pair g r1 r2).1.nodeStore r1 =
      some { n1 with id_blocks := n1.id_blocks ++ [n2.id],
                     inlinks := n1.inlinks ++ n2.inlinks,
                     outlinks := n1.outlinks ++ n2.outlinks,
                     subdata := n1.subdata ++ n2.subdata,
                     nodes := n1.nodes ++ n2.nodes } ∧
    (∀ x ∈ g.nodes, x ≠ r1 → x ≠ r2 →
      (DEG_group_cyclic_node_pair g r1 r2).1.nodeStore x = g.nodeStore x) ∧
    (∀ x, x ≠ r1 → x ≠ r2 →
      ((DEG_group_cyclic_node_pair g r1 r2).1.nodeStore x).map nodeKey =
        (g.nodeStore x).map nodeKey ∧
      ((DEG_group_cyclic_node_pair g r1 r2).1.nodeStore x).isSome =
        (g.nodeStore x).isSome) ∧
    (∀ rr, (DEG_group_cyclic_node_pair g r1 r2).1.relStore rr =
      (g.relStore rr).map (fun rel =>
        { fromRef := if rel.fromRef = r2 then r1 else rel.fromRef,
          toRef := if rel.toRef = r2 then r1 else rel.toRef })) := by
  have hch2 := hwf.childGood r2 hm2 n2 hs2
  have hr1c2s : r1 ∉ n2.subdata :=
    fun h => (hch2 _ (List.mem_append_left _ h)).1 hm1
  have hr1c2n : r1 ∉ n2.nodes :=
    fun h => (hch2 _ (List.mem_append_right _ h)).1 hm1
  have hr2c2s : r2 ∉ n2.subdata :=
    fun h => (hch2 _ (List.mem_append_left _ h)).1 hm2
  have hr2c2n : r2 ∉ n2.nodes :=
    fun h => (hch2 _ (List.mem_append_right _ h)).1 hm2
  have e0 : DEG_group_cyclic_node_pair g r1 r2 =
      (DEG_free_node (deg_group_add_id_ref true (DEG_remove_node
        (transfer_nodegraph_to_group g r1 r2) r2) r1 n2.id) r2, some r1) := by
    simp only [DEG_group_cyclic_node_pair, hs1, hs2, ht1, ht2]
    simp
  rw [e0]
  obtain ⟨ta1, ta2, ta3, ta4, ta5, ta6, ta7, ta8, ta9⟩ :=
    transfer_spec g r1 r2 n2 n1 hs2 hs1 hne hr1c2s hr1c2n hr2c2s hr2c2n
  set gA := transfer_nodegraph_to_group g r1 r2 with hgA
  have hA_r2t : gA.nodeStore r2 =
      some { type := .OUTER_ID, owner := n2.owner, inlinks := [], outlinks := [],
             subdata := [], nodes := [], id := n2.id, id_blocks := n2.id_blocks } := by
    rw [ta5, ht2]
  set gB := DEG_remove_node gA r2 with hgB
  have hB_eq : gB = { gA with nodehash := ghashRemove g.nodehash n2.id,
                              nodes := g.nodes.erase r2 } := by
    rw [hgB]
    unfold DEG_remove_node
    rw [hA_r2t]
    show dnti_outer_id__remove_from_graph gA r2 = _
    unfold dnti_outer_id__remove_from_graph
    rw [hA_r2t, ta2, ta1]
  set gC := deg_group_add_id_ref true gB r1 n2.id with hgC
  have hC_eq : gC = { gB.updNode r1 (fun n => { n with id_blocks := n.id_blocks ++ [n2.id] })
      with nodehash := (ghashInsert
        (gB.updNode r1 (fun n => { n with id_blocks := n.id_blocks ++ [n2.id] })).nodehash
        n2.id r1) } := by
    rw [hgC]
    rfl
  refine ⟨rfl, ?_, ?_, ?_, ?_, ?_, ?_, ?_, ?_, ?_⟩
  · show (DEG_free_node gC r2).nodes = _
    unfold DEG_free_node
    rw [delNode_nodes, hC_eq]
    show (gB.updNode r1 _).nodes = _
    rw [updNode_nodes, hB_eq]
  · show (DEG_free_node gC r2).nodehash = _
    unfold DEG_free_node
    rw [delNode_nodehash, hC_eq]
    show ghashInsert
      (gB.updNode r1 (fun n => { n with id_blocks := n.id_blocks ++ [n2.id] })).nodehash
      n2.id r1 = _
    rw [updNode_nodehash, hB_eq]
  · show (DEG_free_node gC r2).nextNodeRef = _
    unfold DEG_free_node
    rw [delNode_nextNodeRef, hC_eq]
    show (gB.updNode r1 _).nextNodeRef = _
    rw [updNode_nextNodeRef, hB_eq]
    show gA.nextNodeRef = _
    exact ta3
  · show (DEG_free_node gC r2).nextRelRef = _
    unfold DEG_free_node
    rw [delNode_nextRelRef, hC_eq]
    show (gB.updNode r1 _).nextRelRef = _
    rw [updNode_nextRelRef, hB_eq]
    show gA.nextRelRef = _
    exact ta4
  · show (DEG_free_node gC r2).nodeStore r2 = none
    unfold DEG_free_node
    exact delNode_store_self _ _
  · show (DEG_free_node gC r2).nodeStore r1 = _
    unfold DEG_free_node
    rw [delNode_store_ne _ hne, hC_eq]
    show (gB.updNode r1 _).nodeStore r1 = _
    rw [updNode_store_self, hB_eq]
    show Option.map _ (gA.nodeStore r1) = _
    rw [ta6]
    rfl
  · intro x hx hx1 hx2
    have hxc2s : x ∉ n2.subdata := fun h => (hch2 _ (List.mem_append_left _ h)).1 hx
    have hxc2n : x ∉ n2.nodes := fun h => (hch2 _ (List.mem_append_right _ h)).1 hx
    show (DEG_free_node gC r2).nodeStore x = _
    unfold DEG_free_node
    rw [delNode_store_ne _ hx2, hC_eq]
    show (gB.updNode r1 _).nodeStore x = _
    rw [updNode_store_ne _ _ hx1, hB_eq]
    show gA.nodeStore x = _
    exact ta7 x hx2 hx1 hxc2s hxc2n
  · intro x hx1 hx2
    show (Option.map nodeKey ((DEG_free_node gC r2).nodeStore x) = _) ∧
      ((DEG_free_node gC r2).nodeStore x).isSome = _
    unfold DEG_free_node
    rw [delNode_store_ne _ hx2, hC_eq]
    show (Option.map nodeKey ((gB.updNode r1 _).nodeStore x) = _) ∧ _
    rw [updNode_store_ne _ _ hx1, hB_eq]
    show (Option.map nodeKey (gA.nodeStore x) = _) ∧ (gA.nodeStore x).isSome = _
    exact ta8 x hx2 hx1
  · intro rr
    show (DEG_free_node gC r2).relStore rr = _
    unfold DEG_free_node
    rw [delNode_relStore, hC_eq]
    show (gB.updNode r1 _).relStore rr = _
    rw [updNode_relStore, hB_eq]
    show gA.relStore rr = _
    rw [ta9 rr]
    cases hrel : g.relStore rr with
    | none => rfl
    | some rel =>
      show some _ = some _
      congr 1
      have hlk := hwf.relLinked rr rel hrel
      exact relAdjust_endpoint _ _ _ _ _ _
        (fun h => hlk.1 n2 (h ▸ hs2)) (fun h => hlk.2 n2 (h ▸ hs2))

/-- Characterization of the merge in the ID + Group case (group second):
same as the Group + ID case with the argument roles swapped — the group
(node2) survives. -/
theorem merge_idg_spec (g : Depsgraph) (r1 r2 : NodeRef) (n1 n2 : DepsNode)
    (hwf : WF g) (hs1 : g.nodeStore r1 = some n1) (hs2 : g.nodeStore r2 = some n2)
    (hm1 : r1 ∈ g.nodes) (hm2 : r2 ∈ g.nodes) (hne : r1 ≠ r2)
    (ht1 : n1.type = .OUTER_ID) (ht2 : n2.type = .OUTER_GROUP) :
    (DEG_group_cyclic_node_pair g r1 r2).2 = some r2 ∧
    (DEG_group_cyclic_node_pair g r1 r2).1.nodes = g.nodes.erase r1 ∧
    (DEG_group_cyclic_node_pair g r1 r2).1.nodehash =
      ghashInsert (ghashRemove g.nodehash n1.id) n1.id r2 ∧
    (DEG_group_cyclic_node_pair g r1 r2).1.nextNodeRef = g.nextNodeRef ∧
    (DEG_group_cyclic_node_pair g r1 r2).1.nextRelRef = g.nextRelRef ∧
    (DEG_group_cyclic_node_pair g r1 r2).1.nodeStore r1 = none ∧
    (DEG_group_cyclic_node_pair g r1 r2).1.nodeStore r2 =
      some { n2 with id_blocks := n2.id_blocks ++ [n1.id],
                     inlinks := n2.inlinks ++ n1.inlinks,
                     outlinks := n2.outlinks ++ n1.outlinks,
                     subdata := n2.subdata ++ n1.subdata,
                     nodes := n2.nodes ++ n1.nodes } ∧
    (∀ x ∈ g.nodes, x ≠ r1 → x ≠ r2 →
      (DEG_group_cyclic_node_pair g r1 r2).1.nodeStore x = g.nodeStore x) ∧
    (∀ x, x ≠ r1 → x ≠ r2 →
      ((DEG_group_cyclic_node_pair g r1 r2).1.nodeStore x).map nodeKey =
        (g.nodeStore x).map nodeKey ∧
      ((DEG_group_cyclic_node_pair g r1 r2).1.nodeStore x).isSome =
        (g.nodeStore x).isSome) ∧
    (∀ rr, (DEG_group_cyclic_node_pair g r1 r2).1.relStore rr =
      (g.relStore rr).map (fun rel =>
        { fromRef := if rel.fromRef = r1 then r2 else rel.fromRef,
          toRef := if rel.toRef = r1 then r2 else rel.toRef })) := by
  have hch1 := hwf.childGood r1 hm1 n1 hs1
  have hr2c1s : r2 ∉ n1.subdata :=
    fun h => (hch1 _ (List.mem_append_left _ h)).1 hm2
  have hr2c1n : r2 ∉ n1.nodes :=
    fun h => (hch1 _ (List.mem_append_right _ h)).1 hm2
  have hr1c1s : r1 ∉ n1.subdata :=
    fun h => (hch1 _ (List.mem_append_left _ h)).1 hm1
  have hr1c1n : r1 ∉ n1.nodes :=
    fun h => (hch1 _ (List.mem_append_right _ h)).1 hm1
  have e0 : DEG_group_cyclic_node_pair g r1 r2 =
      (DEG_free_node (deg_group_add_id_ref true (DEG_remove_node
        (transfer_nodegraph_to_group g r2 r1) r1) r2 n1.id) r1, some r2) := by
    simp only [DEG_group_cyclic_node_pair, hs1, hs2, ht1, ht2]
    simp
  rw [e0]
  obtain ⟨ta1, ta2, ta3, ta4, ta5, ta6, ta7, ta8, ta9⟩ :=
    transfer_spec g r2 r1 n1 n2 hs1 hs2 (Ne.symm hne) hr2c1s hr2c1n hr1c1s hr1c1n
  set gA := transfer_nodegraph_to_group g r2 r1 with hgA
  have hA_r1t : gA.nodeStore r1 =
      some { type := .OUTER_ID, owner := n1.owner, inlinks := [], outlinks := [],
             subdata := [], nodes := [], id := n1.id, id_blocks := n1.id_blocks } := by
    rw [ta5, ht1]
  set gB := DEG_remove_node gA r1 with hgB
  have hB_eq : gB = { gA with nodehash := ghashRemove g.nodehash n1.id,
                              nodes := g.nodes.erase r1 } := by
    rw [hgB]
    unfold DEG_remove_node
    rw [hA_r1t]
    show dnti_outer_id__remove_from_graph gA r1 = _
    unfold dnti_outer_id__remove_from_graph
    rw [hA_r1t, ta2, ta1]
  set gC := deg_group_add_id_ref true gB r2 n1.id with hgC
  have hC_eq : gC = { gB.updNode r2 (fun n => { n with id_blocks := n.id_blocks ++ [n1.id] })
      with nodehash := (ghashInsert
        (gB.updNode r2 (fun n => { n with id_blocks := n.id_blocks ++ [n1.id] })).nodehash
        n1.id r2) } := by
    rw [hgC]
    rfl
  refine ⟨rfl, ?_, ?_, ?_, ?_, ?_, ?_, ?_, ?_, ?_⟩
  · show (DEG_free_node gC r1).nodes = _
    unfold DEG_free_node
    rw [delNode_nodes, hC_eq]
    show (gB.updNode r2 _).nodes = _
    rw [updNode_nodes, hB_eq]
  · show (DEG_free_node gC r1).nodehash = _
    unfold DEG_free_node
    rw [delNode_nodehash, hC_eq]
    show ghashInsert
      (gB.updNode r2 (fun n => { n with id_blocks := n.id_blocks ++ [n1.id] })).nodehash
      n1.id r2 = _
    rw [updNode_nodehash, hB_eq]
  · show (DEG_free_node gC r1).nextNodeRef = _
    unfold DEG_free_node
    rw [delNode_nextNodeRef, hC_eq]
    show (gB.updNode r2 _).nextNodeRef = _
    rw [updNode_nextNodeRef, hB_eq]
    show gA.nextNodeRef = _
    exact ta3
  · show (DEG_free_node gC r1).nextRelRef = _
    unfold DEG_free_node
    rw [delNode_nextRelRef, hC_eq]
    show (gB.updNode r2 _).nextRelRef = _
    rw [updNode_nextRelRef, hB_eq]
    show gA.nextRelRef = _
    exact ta4
  · show (DEG_free_node gC r1).nodeStore r1 = none
    unfold DEG_free_node
    exact delNode_store_self _ _
  · show (DEG_free_node gC r1).nodeStore r2 = _
    unfold DEG_free_node
    rw [delNode_store_ne _ (Ne.symm hne), hC_eq]
    show (gB.updNode r2 _).nodeStore r2 = _
    rw [updNode_store_self, hB_eq]
    show Option.map _ (gA.nodeStore r2) = _
    rw [ta6]
    rfl
  · intro x hx hx1 hx2
    have hxc1s : x ∉ n1.subdata := fun h => (hch1 _ (List.mem_append_left _ h)).1 hx
    have hxc1n : x ∉ n1.nodes := fun h => (hch1 _ (List.mem_append_right _ h)).1 hx
    show (DEG_free_node gC r1).nodeStore x = _
    unfold DEG_free_node
    rw [delNode_store_ne _ hx1, hC_eq]
    show (gB.updNode r2 _).nodeStore x = _
    rw [updNode_store_ne _ _ hx2, hB_eq]
    show gA.nodeStore x = _
    exact ta7 x hx1 hx2 hxc1s hxc1n
  · intro x hx1 hx2
    show (Option.map nodeKey ((DEG_free_node gC r1).nodeStore x) = _) ∧
      ((DEG_free_node gC r1).nodeStore x).isSome = _
    unfold DEG_free_node
    rw [delNode_store_ne _ hx1, hC_eq]
    show (Option.map nodeKey ((gB.updNode r2 _).nodeStore x) = _) ∧ _
    rw [updNode_store_ne _ _ hx2, hB_eq]
    show (Option.map nodeKey (gA.nodeStore x) = _) ∧ (gA.nodeStore x).isSome = _
    exact ta8 x hx1 hx2
  · intro rr
    show (DEG_free_node gC r1).relStore rr = _
    unfold DEG_free_node
    rw [delNode_relStore, hC_eq]
    show (gB.updNode r2 _).relStore rr = _
    rw [updNode_relStore, hB_eq]
    show gA.relStore rr = _
    rw [ta9 rr]
    cases hrel : g.relStore rr with
    | none => rfl
    | some rel =>
      show some _ = some _
      congr 1
      have hlk := hwf.relLinked rr rel hrel
      exact relAdjust_endpoint _ _ _ _ _ _
        (fun h => hlk.1 n1 (h ▸ hs1)) (fun h => hlk.2 n1 (h ▸ hs1))

/-! ## Well-formedness preservation -/

theorem WF.top_lt {g : Depsgraph} (hwf : WF g) {r : NodeRef} (hr : r ∈ g.nodes) :
    r < g.nextNodeRef := by
  by_contra hlt
  obtain ⟨n, hn, _⟩ := hwf.topLive r hr
  rw [hwf.storeBound r (Nat.le_of_not_lt hlt)] at hn
  cases hn

theorem wf_empty : WF Depsgraph.empty := by
  refine ⟨?_, ?_, ?_, ?_, ?_, ?_, ?_, ?_, ?_, ?_, ?_⟩ <;>
    simp [Depsgraph.empty, countKey]

/-- Adding an ID node for a fresh identity preserves well-formedness; the
fresh identity gets exactly one hash entry and other keys are untouched. -/
theorem wf_addId {g : Depsgraph} (hwf : WF g) (a : Ident)
    (hfresh : countKey g.nodehash a = 0) :
    WF (addIdNode g a) ∧
    countKey (addIdNode g a).nodehash a = 1 ∧
    (∀ b, b ≠ a → countKey (addIdNode g a).nodehash b = countKey g.nodehash b) := by
  have hnodes : (addIdNode g a).nodes = g.nodes ++ [g.nextNodeRef] := rfl
  have hhash : (addIdNode g a).nodehash = (a, g.nextNodeRef) :: g.nodehash := rfl
  have hnnr : (addIdNode g a).nextNodeRef = g.nextNodeRef + 1 := rfl
  have hnrr : (addIdNode g a).nextRelRef = g.nextRelRef := rfl
  have hrel : (addIdNode g a).relStore = g.relStore := rfl
  have hstore : ∀ x, (addIdNode g a).nodeStore x =
      if x = g.nextNodeRef then some { blankNode .OUTER_ID with id := a }
      else g.nodeStore x := fun _ => rfl
  have hρnotmem : g.nextNodeRef ∉ g.nodes := fun h => absurd (hwf.top_lt h) (Nat.lt_irrefl _)
  refine ⟨⟨?_, ?_, ?_, ?_, ?_, ?_, ?_, ?_, ?_, ?_, ?_⟩, ?_, ?_⟩
  · rw [hnodes]
    simp [List.nodup_append, hwf.nodesNodup, hρnotmem]
  · intro r hr
    rw [hnodes] at hr
    rw [hstore]
    rcases List.mem_append.mp hr with hold | hnew
    · rw [if_neg (Nat.ne_of_lt (hwf.top_lt hold))]
      exact hwf.topLive r hold
    · rw [List.mem_singleton.mp hnew, if_pos rfl]
      exact ⟨_, rfl, Or.inl rfl⟩
  · intro b
    rw [hhash]
    by_cases hb : b = a
    · subst hb
      simp [countKey, hfresh]
    · have : (a, g.nextNodeRef).1 = b ↔ False := by simp [Ne.symm hb]
      simp only [countKey]
      rw [if_neg (Ne.symm hb)]
      simpa using hwf.keysOnce b
  · intro b r hm
    rw [hhash] at hm
    rw [hnodes, hstore]
    rcases List.mem_cons.mp hm with heq | hold
    · obtain ⟨h1, h2⟩ := Prod.mk.injEq .. ▸ heq
      subst h1
      subst h2
      refine ⟨List.mem_append_right _ (List.mem_singleton.mpr rfl), ?_⟩
      rw [if_pos rfl]
      exact ⟨_, rfl, by simp [nodeIds, blankNode]⟩
    · obtain ⟨hmem, n, hn, hids⟩ := hwf.hashToLive b r hold
      refine ⟨List.mem_append_left _ hmem, ?_⟩
      rw [if_neg (Nat.ne_of_lt (hwf.top_lt hmem))]
      exact ⟨n, hn, hids⟩
  · intro r hr n hn b hb
    rw [hhash]
    rw [hnodes] at hr
    rw [hstore] at hn
    rcases List.mem_append.mp hr with hold | hnew
    · rw [if_neg (Nat.ne_of_lt (hwf.top_lt hold))] at hn
      exact List.mem_cons_of_mem _ (hwf.liveToHash r hold n hn b hb)
    · rw [List.mem_singleton.mp hnew, if_pos rfl] at hn
      cases hn
      simp [nodeIds, blankNode] at hb
      subst hb
      rw [List.mem_singleton.mp hnew]
      exact List.mem_cons_self _ _
  · intro r hr n hn
    rw [hnodes] at hr
    rw [hstore] at hn
    rcases List.mem_append.mp hr with hold | hnew
    · rw [if_neg (Nat.ne_of_lt (hwf.top_lt hold))] at hn
      exact hwf.idsNodup r hold n hn
    · rw [List.mem_singleton.mp hnew, if_pos rfl] at hn
      cases hn
      simp [nodeIds, blankNode]
  · intro r hle
    rw [hnnr] at hle
    rw [hstore, if_neg (Nat.ne_of_gt (Nat.lt_of_succ_le hle))]
    exact hwf.storeBound r (Nat.le_of_succ_le hle)
  · intro rr hle
    rw [hnrr] at hle
    rw [hrel]
    exact hwf.relBound rr hle
  · intro rr rel hm
    rw [hrel] at hm
    rw [hnodes]
    obtain ⟨h1, h2⟩ := hwf.relLive rr rel hm
    exact ⟨List.mem_append_left _ h1, List.mem_append_left _ h2⟩
  · intro rr rel hm
    rw [hrel] at hm
    obtain ⟨h1, h2⟩ := hwf.relLive rr rel hm
    obtain ⟨k1, k2⟩ := hwf.relLinked rr rel hm
    constructor
    · intro n hn
      rw [hstore, if_neg (Nat.ne_of_lt (hwf.top_lt h2))] at hn
      exact k1 n hn
    · intro n hn
      rw [hstore, if_neg (Nat.ne_of_lt (hwf.top_lt h1))] at hn
      exact k2 n hn
  · intro r hr n hn c hc
    rw [hnodes] at hr
    rw [hstore] at hn
    rcases List.mem_append.mp hr with hold | hnew
    · rw [if_neg (Nat.ne_of_lt (hwf.top_lt hold))] at hn
      obtain ⟨hc1, hc2⟩ := hwf.childGood r hold n hn c hc
      have hclt : c < g.nextNodeRef := by
        by_contra hlt
        rw [hwf.storeBound c (Nat.le_of_not_lt hlt)] at hc2
        cases hc2
      constructor
      · rw [hnodes]
        intro hmem
        rcases List.mem_append.mp hmem with h | h
        · exact hc1 h
        · rw [List.mem_singleton.mp h] at hclt
          exact absurd hclt (Nat.lt_irrefl _)
      · rw [hstore, if_neg (Nat.ne_of_lt hclt)]
        exact hc2
    · rw [List.mem_singleton.mp hnew, if_pos rfl] at hn
      cases hn
      simp [blankNode] at hc
  · rw [hhash]
    simp [countKey, hfresh]
  · intro b hb
    rw [hhash]
    simp [countKey, Ne.symm hb]

theorem nodeKey_transfer {o1 o2 : Option DepsNode}
    (hk : o2.map nodeKey = o1.map nodeKey) {n : DepsNode} (h : o1 = some n) :
    ∃ n2, o2 = some n2 ∧ n2.type = n.type ∧ n2.id = n.id ∧
      n2.id_blocks = n.id_blocks := by
  subst h
  cases o2 with
  | none => simp at hk
  | some n2 =>
    have hkk : nodeKey n2 = nodeKey n := Option.some.inj hk
    exact ⟨n2, rfl, congrArg (fun p => p.1) hkk, congrArg (fun p => p.2.1) hkk,
      congrArg (fun p => p.2.2) hkk⟩

/-- Pointwise effect of `DEG_add_relation` on the node stored behind `x`. -/
def addRelAdj (x r1 r2 : NodeRef) (ρ : RelRef) (n : DepsNode) : DepsNode :=
  let na := if x = r1 then { n with outlinks := n.outlinks ++ [ρ] } else n
  if x = r2 then { na with inlinks := na.inlinks ++ [ρ] } else na

theorem addRelAdj_fields (x r1 r2 : NodeRef) (ρ : RelRef) (n : DepsNode) :
    (addRelAdj x r1 r2 ρ n).subdata = n.subdata ∧
    (addRelAdj x r1 r2 ρ n).nodes = n.nodes ∧
    (∀ rr, rr ∈ n.inlinks → rr ∈ (addRelAdj x r1 r2 ρ n).inlinks) ∧
    (∀ rr, rr ∈ n.outlinks → rr ∈ (addRelAdj x r1 r2 ρ n).outlinks) ∧
    (x = r2 → ρ ∈ (addRelAdj x r1 r2 ρ n).inlinks) ∧
    (x = r1 → ρ ∈ (addRelAdj x r1 r2 ρ n).outlinks) := by
  unfold addRelAdj
  by_cases h1 : x = r1
  · subst h1
    by_cases h2 : x = r2
    · subst h2
      simp
      exact ⟨fun rr h => Or.inl h, fun rr h => Or.inl h⟩
    · simp [h2]
      exact fun rr h => Or.inl h
  · by_cases h2 : x = r2
    · subst h2
      simp [h1]
      exact fun rr h => Or.inl h
    · simp [h1, h2]

/-- Adding a relation between two registered toplevel nodes preserves
well-formedness and leaves the identity hash untouched. -/
theorem wf_addRel {g : Depsgraph} (hwf : WF g) (r1 r2 : NodeRef)
    (hm1 : r1 ∈ g.nodes) (hm2 : r2 ∈ g.nodes) :
    WF (DEG_add_relation g r1 r2) ∧
    (DEG_add_relation g r1 r2).nodehash = g.nodehash := by
  have hnodes : (DEG_add_relation g r1 r2).nodes = g.nodes := by
    unfold DEG_add_relation
    rw [updNode_nodes, updNode_nodes]
    rfl
  have hhash : (DEG_add_relation g r1 r2).nodehash = g.nodehash := by
    unfold DEG_add_relation
    rw [updNode_nodehash, updNode_nodehash]
    rfl
  have hnnr : (DEG_add_relation g r1 r2).nextNodeRef = g.nextNodeRef := by
    unfold DEG_add_relation
    rw [updNode_nextNodeRef, updNode_nextNodeRef]
    rfl
  have hnrr : (DEG_add_relation g r1 r2).nextRelRef = g.nextRelRef + 1 := by
    unfold DEG_add_relation
    rw [updNode_nextRelRef, updNode_nextRelRef]
  have hrel : ∀ x, (DEG_add_relation g r1 r2).relStore x =
      if x = g.nextRelRef then some { fromRef := r1, toRef := r2 }
      else g.relStore x := by
    intro x
    unfold DEG_add_relation
    rw [updNode_relStore, updNode_relStore]
    rfl
  have hst : ∀ x, (DEG_add_relation g r1 r2).nodeStore x =
      (g.nodeStore x).map (addRelAdj x r1 r2 g.nextRelRef) := by
    intro x
    unfold DEG_add_relation addRelAdj
    by_cases h2 : x = r2
    · subst h2
      rw [updNode_store_self]
      by_cases h1 : x = r1
      · subst h1
        rw [updNode_store_self]
        show Option.map _ (Option.map _ (g.nodeStore x)) = _
        cases g.nodeStore x <;> simp
      · rw [updNode_store_ne _ _ h1]
        show Option.map _ (g.nodeStore x) = _
        cases g.nodeStore x <;> simp [h1]
    · rw [updNode_store_ne _ _ h2]
      by_cases h1 : x = r1
      · subst h1
        rw [updNode_store_self]
        show Option.map _ (g.nodeStore x) = _
        cases g.nodeStore x <;> simp [h2]
      · rw [updNode_store_ne _ _ h1]
        show g.nodeStore x = _
        cases g.nodeStore x <;> simp [h1, h2]
  have hkey : ∀ x, ((DEG_add_relation g r1 r2).nodeStore x).map nodeKey =
      (g.nodeStore x).map nodeKey := by
    intro x
    rw [hst]
    cases g.nodeStore x with
    | none => rfl
    | some n =>
      show some (nodeKey _) = some (nodeKey n)
      congr 1
      unfold addRelAdj nodeKey
      split <;> split <;> rfl
  have hsome : ∀ x, ((DEG_add_relation g r1 r2).nodeStore x).isSome =
      (g.nodeStore x).isSome := by
    intro x
    rw [hst]
    cases g.nodeStore x <;> rfl
  refine ⟨⟨?_, ?_, ?_, ?_, ?_, ?_, ?_, ?_, ?_, ?_, ?_⟩, hhash⟩
  · rw [hnodes]
    exact hwf.nodesNodup
  · intro r hr
    rw [hnodes] at hr
    obtain ⟨n, hn, hty⟩ := hwf.topLive r hr
    obtain ⟨n2, hn2, ht2, _, _⟩ := nodeKey_transfer (hkey r) hn
    exact ⟨n2, hn2, ht2 ▸ hty⟩
  · intro a
    rw [hhash]
    exact hwf.keysOnce a
  · intro a r hm
    rw [hhash] at hm
    obtain ⟨hmem, n, hn, hids⟩ := hwf.hashToLive a r hm
    obtain ⟨n2, hn2, ht2, hi2, hb2⟩ := nodeKey_transfer (hkey r) hn
    refine ⟨hnodes ▸ hmem, n2, hn2, ?_⟩
    unfold nodeIds
    rw [ht2, hi2, hb2]
    unfold nodeIds at hids
    exact hids
  · intro r hr n hn a ha
    rw [hnodes] at hr
    rw [hhash]
    obtain ⟨n0, hn0, _⟩ := hwf.topLive r hr
    obtain ⟨n2, hn2, ht2, hi2, hb2⟩ := nodeKey_transfer (hkey r) hn0
    rw [hn2] at hn
    cases hn
    refine hwf.liveToHash r hr n0 hn0 a ?_
    unfold nodeIds at ha ⊢
    rw [ht2, hi2, hb2] at ha
    exact ha
  · intro r hr n hn
    rw [hnodes] at hr
    obtain ⟨n0, hn0, _⟩ := hwf.topLive r hr
    obtain ⟨n2, hn2, ht2, hi2, hb2⟩ := nodeKey_transfer (hkey r) hn0
    rw [hn2] at hn
    cases hn
    have := hwf.idsNodup r hr n0 hn0
    unfold nodeIds at this ⊢
    rw [ht2, hi2, hb2]
    exact this
  · intro r hle
    rw [hnnr] at hle
    rw [hst, hwf.storeBound r hle]
    rfl
  · intro rr hle
    rw [hnrr] at hle
    rw [hrel, if_neg (Nat.ne_of_gt (Nat.lt_of_succ_le hle))]
    exact hwf.relBound rr (Nat.le_of_succ_le hle)
  · intro rr rel hm
    rw [hrel] at hm
    rw [hnodes]
    by_cases h : rr = g.nextRelRef
    · rw [if_pos h] at hm
      cases hm
      exact ⟨hm1, hm2⟩
    · rw [if_neg h] at hm
      exact hwf.relLive rr rel hm
  · intro rr rel hm
    rw [hrel] at hm
    by_cases h : rr = g.nextRelRef
    · rw [if_pos h] at hm
      cases hm
      subst h
      constructor
      · intro n hn
        rw [hst] at hn
        cases hg2 : g.nodeStore r2 with
        | none => rw [hg2] at hn; cases hn
        | some n0 =>
          rw [hg2] at hn
          simp only [Option.map] at hn
          cases hn
          exact (addRelAdj_fields r2 r1 r2 g.nextRelRef n0).2.2.2.2.1 rfl
      · intro n hn
        rw [hst] at hn
        cases hg1 : g.nodeStore r1 with
        | none => rw [hg1] at hn; cases hn
        | some n0 =>
          rw [hg1] at hn
          simp only [Option.map] at hn
          cases hn
          exact (addRelAdj_fields r1 r1 r2 g.nextRelRef n0).2.2.2.2.2 rfl
    · rw [if_neg h] at hm
      obtain ⟨k1, k2⟩ := hwf.relLinked rr rel hm
      constructor
      · intro n hn
        rw [hst] at hn
        cases hg2 : g.nodeStore rel.toRef with
        | none => rw [hg2] at hn; cases hn
        | some n0 =>
          rw [hg2] at hn
          simp only [Option.map] at hn
          cases hn
          have hk := k1 n0 hg2
          exact (addRelAdj_fields rel.toRef r1 r2 g.nextRelRef n0).2.2.1 rr hk
      · intro n hn
        rw [hst] at hn
        cases hg1 : g.nodeStore rel.fromRef with
        | none => rw [hg1] at hn; cases hn
        | some n0 =>
          rw [hg1] at hn
          simp only [Option.map] at hn
          cases hn
          have hk := k2 n0 hg1
          exact (addRelAdj_fields rel.fromRef r1 r2 g.nextRelRef n0).2.2.2.1 rr hk
  · intro r hr n hn c hc
    rw [hnodes] at hr
    obtain ⟨n0, hn0, _⟩ := hwf.topLive r hr
    rw [hst, hn0] at hn
    simp only [Option.map] at hn
    cases hn
    obtain ⟨e1, e2, -⟩ := addRelAdj_fields r r1 r2 g.nextRelRef n0
    have hcc : c ∈ n0.subdata ++ n0.nodes := by
      rw [← e1, ← e2]
      exact hc
    obtain ⟨hc1, hc2⟩ := hwf.childGood r hr n0 hn0 c hcc
    refine ⟨hnodes ▸ hc1, ?_⟩
    rw [hsome c]
    exact hc2

theorem two_mem_countKey {h : List (Ident × NodeRef)} {a : Ident} {r r' : NodeRef}
    (h1 : (a, r) ∈ h) (h2 : (a, r') ∈ h) (hrr : r ≠ r') : 2 ≤ countKey h a := by
  induction h with
  | nil => simp at h1
  | cons e t ih =>
    obtain ⟨k, v⟩ := e
    rcases List.mem_cons.mp h1 with he1 | ht1
    · rcases List.mem_cons.mp h2 with he2 | ht2
      · exfalso
        obtain ⟨-, hv1⟩ := Prod.mk.injEq .. ▸ he1
        obtain ⟨-, hv2⟩ := Prod.mk.injEq .. ▸ he2
        exact hrr (hv1.trans hv2.symm)
      · obtain ⟨hk, -⟩ := Prod.mk.injEq .. ▸ he1
        have := countKey_pos_of_mem ht2
        simp only [countKey, if_pos hk.symm]
        omega
    · rcases List.mem_cons.mp h2 with he2 | ht2
      · obtain ⟨hk, -⟩ := Prod.mk.injEq .. ▸ he2
        have := countKey_pos_of_mem ht1
        simp only [countKey, if_pos hk.symm]
        omega
      · have := ih ht1 ht2
        by_cases hk : k = a
        · simp only [countKey, if_pos hk]
          omega
        · simp only [countKey, if_neg hk]
          omega

theorem countKey_remove_remove_self {h : List (Ident × NodeRef)} {a b : Ident}
    (hc : countKey h a ≤ 1) (hab : a ≠ b) :
    countKey (ghashRemove (ghashRemove h a) b) a = 0 := by
  rw [countKey_remove_ne _ (Ne.symm hab), countKey_remove_self]
  omega

/-- Membership in the rebuilt hash of the ID + ID merge. -/
theorem idid_hash_mem (h : List (Ident × NodeRef)) (a aid1 aid2 : Ident)
    (ρ r : NodeRef) (hc1 : countKey h aid1 ≤ 1) (hc2 : countKey h aid2 ≤ 1)
    (hab : aid1 ≠ aid2) :
    ((a, r) ∈ ghashInsert (ghashInsert (ghashRemove (ghashRemove h aid1) aid2)
        aid1 ρ) aid2 ρ ↔
      (a = aid2 ∧ r = ρ) ∨ (a = aid1 ∧ r = ρ) ∨
      ((a, r) ∈ h ∧ a ≠ aid1 ∧ a ≠ aid2)) := by
  unfold ghashInsert
  constructor
  · intro hm
    rcases List.mem_cons.mp hm with he | hm
    · obtain ⟨h1, h2⟩ := Prod.mk.injEq .. ▸ he
      exact Or.inl ⟨h1, h2⟩
    rcases List.mem_cons.mp hm with he | hm
    · obtain ⟨h1, h2⟩ := Prod.mk.injEq .. ▸ he
      exact Or.inr (Or.inl ⟨h1, h2⟩)
    · have ha1 : a ≠ aid1 := by
        intro heq
        subst heq
        have h0 : countKey (ghashRemove (ghashRemove h a) aid2) a = 0 :=
          countKey_remove_remove_self hc1 hab
        exact absurd hm ((countKey_eq_zero_iff _ _).mp h0 r)
      have ha2 : a ≠ aid2 := by
        intro heq
        subst heq
        have h0 : countKey (ghashRemove (ghashRemove h aid1) a) a = 0 := by
          rw [countKey_remove_self, countKey_remove_ne _ hab]
          omega
        exact absurd hm ((countKey_eq_zero_iff _ _).mp h0 r)
      exact Or.inr (Or.inr
        ⟨mem_of_mem_ghashRemove (mem_of_mem_ghashRemove hm), ha1, ha2⟩)
  · intro hm
    rcases hm with ⟨h1, h2⟩ | ⟨h1, h2⟩ | ⟨hm, ha1, ha2⟩
    · subst h1
      subst h2
      exact List.mem_cons_self _ _
    · subst h1
      subst h2
      exact List.mem_cons_of_mem _ (List.mem_cons_self _ _)
    · exact List.mem_cons_of_mem _ (List.mem_cons_of_mem _
        (mem_ghashRemove_of_ne (mem_ghashRemove_of_ne hm ha1) ha2))

/-- Membership in the rebuilt hash of the Group + ID merge. -/
theorem gid_hash_mem (h : List (Ident × NodeRef)) (a c : Ident) (grp r : NodeRef)
    (hc : countKey h c ≤ 1) :
    ((a, r) ∈ ghashInsert (ghashRemove h c) c grp ↔
      (a = c ∧ r = grp) ∨ ((a, r) ∈ h ∧ a ≠ c)) := by
  unfold ghashInsert
  constructor
  · intro hm
    rcases List.mem_cons.mp hm with he | hm
    · obtain ⟨h1, h2⟩ := Prod.mk.injEq .. ▸ he
      exact Or.inl ⟨h1, h2⟩
    · have hac : a ≠ c := by
        intro heq
        subst heq
        have h0 : countKey (ghashRemove h a) a = 0 := by
          rw [countKey_remove_self]
          omega
        exact absurd hm ((countKey_eq_zero_iff _ _).mp h0 r)
      exact Or.inr ⟨mem_of_mem_ghashRemove hm, hac⟩
  · intro hm
    rcases hm with ⟨h1, h2⟩ | ⟨hm, hac⟩
    · subst h1
      subst h2
      exact List.mem_cons_self _ _
    · exact List.mem_cons_of_mem _ (mem_ghashRemove_of_ne hm hac)

theorem isSome_none_eq_none {o : Option DepsNode} (h : o.isSome = false) :
    o = none := by
  cases o with
  | none => rfl
  | some n => simp at h

/-- The ID + ID merge preserves well-formedness and every identity's entry
count in the hash. -/
theorem wf_merge_idid {g : Depsgraph} {r1 r2 : NodeRef} {n1 n2 : DepsNode}
    (hwf : WF g) (hs1 : g.nodeStore r1 = some n1) (hs2 : g.nodeStore r2 = some n2)
    (hm1 : r1 ∈ g.nodes) (hm2 : r2 ∈ g.nodes) (hne : r1 ≠ r2)
    (ht1 : n1.type = .OUTER_ID) (ht2 : n2.type = .OUTER_ID) :
    WF (DEG_group_cyclic_node_pair g r1 r2).1 ∧
    (∀ a, countKey (DEG_group_cyclic_node_pair g r1 r2).1.nodehash a =
      countKey g.nodehash a) := by
  obtain ⟨c1, c2, c3, c4, c5, c6, c7, c8, c9, c10, c11⟩ :=
    merge_idid_spec g r1 r2 n1 n2 hwf hs1 hs2 hm1 hm2 hne ht1 ht2
  have hids1 : nodeIds n1 = [n1.id] := by
    unfold nodeIds
    rw [ht1]
  have hids2 : nodeIds n2 = [n2.id] := by
    unfold nodeIds
    rw [ht2]
  have ha1 : (n1.id, r1) ∈ g.nodehash :=
    hwf.liveToHash r1 hm1 n1 hs1 n1.id (by rw [hids1]; exact List.mem_singleton.mpr rfl)
  have ha2 : (n2.id, r2) ∈ g.nodehash :=
    hwf.liveToHash r2 hm2 n2 hs2 n2.id (by rw [hids2]; exact List.mem_singleton.mpr rfl)
  have hcnt1 : countKey g.nodehash n1.id = 1 :=
    Nat.le_antisymm (hwf.keysOnce _) (countKey_pos_of_mem ha1)
  have hcnt2 : countKey g.nodehash n2.id = 1 :=
    Nat.le_antisymm (hwf.keysOnce _) (countKey_pos_of_mem ha2)
  have hne_ids : n1.id ≠ n2.id := by
    intro heq
    have h2' : (n1.id, r2) ∈ g.nodehash := by
      rw [heq]
      exact ha2
    have := two_mem_countKey ha1 h2' hne
    have := hwf.keysOnce n1.id
    omega
  have hρ1 : g.nextNodeRef ≠ r1 := Nat.ne_of_gt (hwf.top_lt hm1)
  have hρ2 : g.nextNodeRef ≠ r2 := Nat.ne_of_gt (hwf.top_lt hm2)
  have hmem2 : ∀ x, x ∈ (DEG_group_cyclic_node_pair g r1 r2).1.nodes ↔
      (x ∈ g.nodes ∧ x ≠ r1 ∧ x ≠ r2) ∨ x = g.nextNodeRef := by
    intro x
    rw [c2, List.mem_append, List.mem_singleton,
        ((hwf.nodesNodup.erase r1).mem_erase_iff),
        (hwf.nodesNodup.mem_erase_iff)]
    constructor
    · rintro (⟨h2', h1', hg⟩ | hρ)
      · exact Or.inl ⟨hg, h1', h2'⟩
      · exact Or.inr hρ
    · rintro (⟨hg, h1', h2'⟩ | hρ)
      · exact Or.inl ⟨h2', h1', hg⟩
      · exact Or.inr hρ
  have hcnt : ∀ a, countKey (DEG_group_cyclic_node_pair g r1 r2).1.nodehash a =
      countKey g.nodehash a := by
    intro a
    rw [c3]
    by_cases h1' : a = n1.id
    · subst h1'
      rw [countKey_insert_ne _ _ (Ne.symm hne_ids), countKey_insert_self,
          countKey_remove_ne _ (Ne.symm hne_ids), countKey_remove_self, hcnt1]
    · by_cases h2' : a = n2.id
      · subst h2'
        rw [countKey_insert_self,
            countKey_insert_ne _ _ hne_ids,
            countKey_remove_self, countKey_remove_ne _ hne_ids, hcnt2]
      · rw [countKey_insert_ne _ _ (fun h => h2' h.symm),
            countKey_insert_ne _ _ (fun h => h1' h.symm),
            countKey_remove_ne _ (fun h => h2' h.symm),
            countKey_remove_ne _ (fun h => h1' h.symm)]
  have hmemhash : ∀ a r, ((a, r) ∈ (DEG_group_cyclic_node_pair g r1 r2).1.nodehash ↔
      (a = n2.id ∧ r = g.nextNodeRef) ∨ (a = n1.id ∧ r = g.nextNodeRef) ∨
      ((a, r) ∈ g.nodehash ∧ a ≠ n1.id ∧ a ≠ n2.id)) := by
    intro a r
    rw [c3]
    exact idid_hash_mem g.nodehash a n1.id n2.id g.nextNodeRef r
      (hwf.keysOnce _) (hwf.keysOnce _) hne_ids
  refine ⟨⟨?_, ?_, ?_, ?_, ?_, ?_, ?_, ?_, ?_, ?_, ?_⟩, hcnt⟩
  · rw [c2, List.nodup_append]
    refine ⟨(hwf.nodesNodup.erase r1).erase r2, List.nodup_singleton _, ?_⟩
    intro x hx hx2
    rw [List.mem_singleton] at hx2
    have hg : x ∈ g.nodes :=
      List.mem_of_mem_erase (List.mem_of_mem_erase hx)
    rw [hx2] at hg
    exact absurd (hwf.top_lt hg) (Nat.lt_irrefl _)
  · intro r hr
    rcases (hmem2 r).mp hr with ⟨hg, h1', h2'⟩ | hρ
    · rw [c9 r hg h1' h2']
      exact hwf.topLive r hg
    · subst hρ
      rw [c8]
      exact ⟨_, rfl, Or.inr rfl⟩
  · intro a
    rw [hcnt a]
    exact hwf.keysOnce a
  · intro a r hm
    rcases (hmemhash a r).mp hm with ⟨ha, hr⟩ | ⟨ha, hr⟩ | ⟨hm0, ha1', ha2'⟩
    · subst ha
      subst hr
      refine ⟨(hmem2 _).mpr (Or.inr rfl), ?_⟩
      rw [c8]
      exact ⟨_, rfl, by unfold nodeIds; simp⟩
    · subst ha
      subst hr
      refine ⟨(hmem2 _).mpr (Or.inr rfl), ?_⟩
      rw [c8]
      exact ⟨_, rfl, by unfold nodeIds; simp⟩
    · obtain ⟨hg, n, hn, hin⟩ := hwf.hashToLive a r hm0
      have hr1' : r ≠ r1 := by
        intro heq
        subst heq
        rw [hs1] at hn
        cases hn
        rw [hids1] at hin
        exact ha1' (List.mem_singleton.mp hin)
      have hr2' : r ≠ r2 := by
        intro heq
        subst heq
        rw [hs2] at hn
        cases hn
        rw [hids2] at hin
        exact ha2' (List.mem_singleton.mp hin)
      refine ⟨(hmem2 _).mpr (Or.inl ⟨hg, hr1', hr2'⟩), ?_⟩
      rw [c9 r hg hr1' hr2']
      exact ⟨n, hn, hin⟩
  · intro r hr n hn a ha
    rcases (hmem2 r).mp hr with ⟨hg, h1', h2'⟩ | hρ
    · rw [c9 r hg h1' h2'] at hn
      have hm0 := hwf.liveToHash r hg n hn a ha
      have ha1' : a ≠ n1.id := by
        intro heq
        subst heq
        have := two_mem_countKey hm0 ha1 h1'
        have := hwf.keysOnce n1.id
        omega
      have ha2' : a ≠ n2.id := by
        intro heq
        subst heq
        have := two_mem_countKey hm0 ha2 h2'
        have := hwf.keysOnce n2.id
        omega
      exact (hmemhash a r).mpr (Or.inr (Or.inr ⟨hm0, ha1', ha2'⟩))
    · subst hρ
      rw [c8] at hn
      cases hn
      unfold nodeIds at ha
      simp at ha
      rcases ha with ha | ha
      · exact (hmemhash a _).mpr (Or.inr (Or.inl ⟨ha, rfl⟩))
      · exact (hmemhash a _).mpr (Or.inl ⟨ha, rfl⟩)
  · intro r hr n hn
    rcases (hmem2 r).mp hr with ⟨hg, h1', h2'⟩ | hρ
    · rw [c9 r hg h1' h2'] at hn
      exact hwf.idsNodup r hg n hn
    · subst hρ
      rw [c8] at hn
      cases hn
      unfold nodeIds
      simp [hne_ids]
  · intro r hle
    rw [c4] at hle
    have h1' : r ≠ r1 :=
      Nat.ne_of_gt (Nat.lt_of_lt_of_le (hwf.top_lt hm1) (Nat.le_of_succ_le hle))
    have h2' : r ≠ r2 :=
      Nat.ne_of_gt (Nat.lt_of_lt_of_le (hwf.top_lt hm2) (Nat.le_of_succ_le hle))
    have hρ' : r ≠ g.nextNodeRef :=
      Nat.ne_of_gt (Nat.lt_of_succ_le hle)
    obtain ⟨-, hiso⟩ := c10 r h1' h2' hρ'
    rw [hwf.storeBound r (Nat.le_of_succ_le hle)] at hiso
    exact isSome_none_eq_none hiso
  · intro rr hle
    rw [c5] at hle
    rw [c11 rr, hwf.relBound rr hle]
    rfl
  · intro rr rel' hm
    rw [c11 rr] at hm
    cases hrel : g.relStore rr with
    | none =>
      rw [hrel] at hm
      cases hm
    | some rel =>
      rw [hrel] at hm
      simp only [Option.map] at hm
      cases hm
      obtain ⟨hf, ht⟩ := hwf.relLive rr rel hrel
      constructor
      · show (if rel.fromRef = r1 ∨ rel.fromRef = r2 then g.nextNodeRef
             else rel.fromRef) ∈ _
        split
        · exact (hmem2 _).mpr (Or.inr rfl)
        · rename_i hor
          push_neg at hor
          exact (hmem2 _).mpr (Or.inl ⟨hf, hor.1, hor.2⟩)
      · show (if rel.toRef = r1 ∨ rel.toRef = r2 then g.nextNodeRef
             else rel.toRef) ∈ _
        split
        · exact (hmem2 _).mpr (Or.inr rfl)
        · rename_i hor
          push_neg at hor
          exact (hmem2 _).mpr (Or.inl ⟨ht, hor.1, hor.2⟩)
  · intro rr rel' hm
    rw [c11 rr] at hm
    cases hrel : g.relStore rr with
    | none =>
      rw [hrel] at hm
      cases hm
    | some rel =>
      rw [hrel] at hm
      simp only [Option.map] at hm
      cases hm
      obtain ⟨hf, ht⟩ := hwf.relLive rr rel hrel
      obtain ⟨k1, k2⟩ := hwf.relLinked rr rel hrel
      constructor
      · intro n hn
        revert hn
        show (DEG_group_cyclic_node_pair g r1 r2).1.nodeStore
            (if rel.toRef = r1 ∨ rel.toRef = r2 then g.nextNodeRef else rel.toRef) =
            some n → rr ∈ n.inlinks
        split
        · rename_i hor
          intro hn
          rw [c8] at hn
          cases hn
          show rr ∈ n1.inlinks ++ n2.inlinks
          rcases hor with hor | hor
          · exact List.mem_append_left _ (k1 n1 (hor ▸ hs1))
          · exact List.mem_append_right _ (k1 n2 (hor ▸ hs2))
        · rename_i hor
          push_neg at hor
          intro hn
          rw [c9 _ ht hor.1 hor.2] at hn
          exact k1 n hn
      · intro n hn
        revert hn
        show (DEG_group_cyclic_node_pair g r1 r2).1.nodeStore
            (if rel.fromRef = r1 ∨ rel.fromRef = r2 then g.nextNodeRef else rel.fromRef) =
            some n → rr ∈ n.outlinks
        split
        · rename_i hor
          intro hn
          rw [c8] at hn
          cases hn
          show rr ∈ n1.outlinks ++ n2.outlinks
          rcases hor with hor | hor
          · exact List.mem_append_left _ (k2 n1 (hor ▸ hs1))
          · exact List.mem_append_right _ (k2 n2 (hor ▸ hs2))
        · rename_i hor
          push_neg at hor
          intro hn
          rw [c9 _ hf hor.1 hor.2] at hn
          exact k2 n hn
  · intro r hr n hn c hc
    have hchild : ∀ c0 n0 r0, g.nodeStore r0 = some n0 → r0 ∈ g.nodes →
        c0 ∈ n0.subdata ++ n0.nodes →
        c0 ∉ (DEG_group_cyclic_node_pair g r1 r2).1.nodes ∧
        ((DEG_group_cyclic_node_pair g r1 r2).1.nodeStore c0).isSome := by
      intro c0 n0 r0 hn0 hr0 hc0
      obtain ⟨hcn, hcs⟩ := hwf.childGood r0 hr0 n0 hn0 c0 hc0
      have hclt : c0 < g.nextNodeRef := by
        by_contra hlt
        rw [hwf.storeBound c0 (Nat.le_of_not_lt hlt)] at hcs
        cases hcs
      have hc1' : c0 ≠ r1 := fun heq => hcn (heq ▸ hm1)
      have hc2' : c0 ≠ r2 := fun heq => hcn (heq ▸ hm2)
      have hcρ : c0 ≠ g.nextNodeRef := Nat.ne_of_lt hclt
      constructor
      · intro hmem
        rcases (hmem2 c0).mp hmem with ⟨hg, -, -⟩ | hρ
        · exact hcn hg
        · exact hcρ hρ
      · obtain ⟨-, hiso⟩ := c10 c0 hc1' hc2' hcρ
        rw [hiso]
        exact hcs
    rcases (hmem2 r).mp hr with ⟨hg, h1', h2'⟩ | hρ
    · rw [c9 r hg h1' h2'] at hn
      exact hchild c n r hn hg hc
    · subst hρ
      rw [c8] at hn
      cases hn
      have hc' : (c ∈ n1.subdata ++ n1.nodes) ∨ (c ∈ n2.subdata ++ n2.nodes) := by
        simp only [List.mem_append] at hc ⊢
        rcases hc with (h | h) | (h | h)
        · exact Or.inl (Or.inl h)
        · exact Or.inr (Or.inl h)
        · exact Or.inl (Or.inr h)
        · exact Or.inr (Or.inr h)
      rcases hc' with hc' | hc'
      · exact hchild c n1 r1 hs1 hm1 hc'
      · exact hchild c n2 r2 hs2 hm2 hc'

/-- The Group + Group merge preserves well-formedness and every identity's
entry count in the hash. -/
theorem wf_merge_gg {g : Depsgraph} {r1 r2 : NodeRef} {n1 n2 : DepsNode}
    (hwf : WF g) (hs1 : g.nodeStore r1 = some n1) (hs2 : g.nodeStore r2 = some n2)
    (hm1 : r1 ∈ g.nodes) (hm2 : r2 ∈ g.nodes) (hne : r1 ≠ r2)
    (ht1 : n1.type = .OUTER_GROUP) (ht2 : n2.type = .OUTER_GROUP) :
    WF (DEG_group_cyclic_node_pair g r1 r2).1 ∧
    (∀ a, countKey (DEG_group_cyclic_node_pair g r1 r2).1.nodehash a =
      countKey g.nodehash a) := by
  obtain ⟨c1, c2, c3, c4, c5, c6, c7, c8, c9, c10⟩ :=
    merge_gg_spec g r1 r2 n1 n2 hwf hs1 hs2 hm1 hm2 hne ht1 ht2
  have hids1 : nodeIds n1 = n1.id_blocks := by
    unfold nodeIds
    rw [ht1]
  have hids2 : nodeIds n2 = n2.id_blocks := by
    unfold nodeIds
    rw [ht2]
  have hnd1 : n1.id_blocks.Nodup := by
    have := hwf.idsNodup r1 hm1 n1 hs1
    rwa [hids1] at this
  have hnd2 : n2.id_blocks.Nodup := by
    have := hwf.idsNodup r2 hm2 n2 hs2
    rwa [hids2] at this
  have hB1 : ∀ b ∈ n1.id_blocks, (b, r1) ∈ g.nodehash := by
    intro b hb
    exact hwf.liveToHash r1 hm1 n1 hs1 b (hids1 ▸ hb)
  have hB2 : ∀ b ∈ n2.id_blocks, (b, r2) ∈ g.nodehash := by
    intro b hb
    exact hwf.liveToHash r2 hm2 n2 hs2 b (hids2 ▸ hb)
  have hdisj : ∀ b ∈ n2.id_blocks, b ∉ n1.id_blocks := by
    intro b hb2 hb1
    have := two_mem_countKey (hB1 b hb1) (hB2 b hb2) hne
    have := hwf.keysOnce b
    omega
  have hcnt2 : ∀ b ∈ n2.id_blocks, countKey g.nodehash b = 1 := by
    intro b hb
    exact Nat.le_antisymm (hwf.keysOnce b) (countKey_pos_of_mem (hB2 b hb))
  have hmem2 : ∀ x, x ∈ (DEG_group_cyclic_node_pair g r1 r2).1.nodes ↔
      x ≠ r2 ∧ x ∈ g.nodes := by
    intro x
    rw [c2]
    exact hwf.nodesNodup.mem_erase_iff
  have hmemhash : ∀ a r, ((a, r) ∈ (DEG_group_cyclic_node_pair g r1 r2).1.nodehash ↔
      (a ∈ n2.id_blocks ∧ r = r1) ∨ ((a, r) ∈ g.nodehash ∧ a ∉ n2.id_blocks)) := by
    intro a r
    rw [c3]
    by_cases ha : a ∈ n2.id_blocks
    · obtain ⟨-, -, hm⟩ := foldl_reindex_mem n2.id_blocks r1 g.nodehash a hnd2
        (fun b _ => hwf.keysOnce b) ha
      rw [hm r]
      constructor
      · intro hr
        exact Or.inl ⟨ha, hr⟩
      · rintro (⟨-, hr⟩ | ⟨-, hcon⟩)
        · exact hr
        · exact absurd ha hcon
    · obtain ⟨-, -, hm⟩ := foldl_reindex_not_mem n2.id_blocks r1 g.nodehash a ha
      rw [hm r]
      constructor
      · intro hmm
        exact Or.inr ⟨hmm, ha⟩
      · rintro (⟨hcon, -⟩ | ⟨hmm, -⟩)
        · exact absurd hcon ha
        · exact hmm
  have hcnt : ∀ a, countKey (DEG_group_cyclic_node_pair g r1 r2).1.nodehash a =
      countKey g.nodehash a := by
    intro a
    rw [c3]
    by_cases ha : a ∈ n2.id_blocks
    · obtain ⟨hc, -, -⟩ := foldl_reindex_mem n2.id_blocks r1 g.nodehash a hnd2
        (fun b _ => hwf.keysOnce b) ha
      rw [hc, hcnt2 a ha]
    · obtain ⟨hc, -, -⟩ := foldl_reindex_not_mem n2.id_blocks r1 g.nodehash a ha
      rw [hc]
  refine ⟨⟨?_, ?_, ?_, ?_, ?_, ?_, ?_, ?_, ?_, ?_, ?_⟩, hcnt⟩
  · rw [c2]
    exact hwf.nodesNodup.erase r2
  · intro r hr
    obtain ⟨hr2, hg⟩ := (hmem2 r).mp hr
    by_cases hr1 : r = r1
    · subst hr1
      rw [c7]
      exact ⟨_, rfl, Or.inr ht1⟩
    · rw [c8 r hg hr1 hr2]
      exact hwf.topLive r hg
  · intro a
    rw [hcnt a]
    exact hwf.keysOnce a
  · intro a r hm
    rcases (hmemhash a r).mp hm with ⟨ha, hr⟩ | ⟨hm0, ha⟩
    · subst hr
      refine ⟨(hmem2 _).mpr ⟨hne, hm1⟩, ?_⟩
      rw [c7]
      refine ⟨_, rfl, ?_⟩
      unfold nodeIds
      rw [ht1]
      exact List.mem_append_right _ ha
    · obtain ⟨hg, n, hn, hin⟩ := hwf.hashToLive a r hm0
      have hr2' : r ≠ r2 := by
        intro heq
        subst heq
        rw [hs2] at hn
        cases hn
        rw [hids2] at hin
        exact ha hin
      refine ⟨(hmem2 _).mpr ⟨hr2', hg⟩, ?_⟩
      by_cases hr1 : r = r1
      · subst hr1
        rw [hs1] at hn
        cases hn
        rw [c7]
        refine ⟨_, rfl, ?_⟩
        unfold nodeIds
        rw [ht1]
        rw [hids1] at hin
        exact List.mem_append_left _ hin
      · rw [c8 r hg hr1 hr2']
        exact ⟨n, hn, hin⟩
  · intro r hr n hn a ha
    obtain ⟨hr2, hg⟩ := (hmem2 r).mp hr
    by_cases hr1 : r = r1
    · subst hr1
      rw [c7] at hn
      cases hn
      unfold nodeIds at ha
      rw [ht1] at ha
      rcases List.mem_append.mp ha with ha1 | ha2
      · exact (hmemhash a r).mpr
          (Or.inr ⟨hwf.liveToHash r hm1 n1 hs1 a (hids1 ▸ ha1),
            fun hmm => hdisj a hmm ha1⟩)
      · exact (hmemhash a r).mpr (Or.inl ⟨ha2, rfl⟩)
    · rw [c8 r hg hr1 hr2] at hn
      have hm0 := hwf.liveToHash r hg n hn a ha
      have hano : a ∉ n2.id_blocks := by
        intro ha2
        have := two_mem_countKey hm0 (hB2 a ha2) hr2
        have := hwf.keysOnce a
        omega
      exact (hmemhash a r).mpr (Or.inr ⟨hm0, hano⟩)
  · intro r hr n hn
    obtain ⟨hr2, hg⟩ := (hmem2 r).mp hr
    by_cases hr1 : r = r1
    · subst hr1
      rw [c7] at hn
      cases hn
      unfold nodeIds
      rw [ht1]
      show (n1.id_blocks ++ n2.id_blocks).Nodup
      rw [List.nodup_append]
      exact ⟨hnd1, hnd2, fun a ha1 ha2 => hdisj a ha2 ha1⟩
    · rw [c8 r hg hr1 hr2] at hn
      exact hwf.idsNodup r hg n hn
  · intro r hle
    rw [c4] at hle
    have h1' : r ≠ r1 := Nat.ne_of_gt (Nat.lt_of_lt_of_le (hwf.top_lt hm1) hle)
    have h2' : r ≠ r2 := Nat.ne_of_gt (Nat.lt_of_lt_of_le (hwf.top_lt hm2) hle)
    obtain ⟨-, hiso⟩ := c9 r h1' h2'
    rw [hwf.storeBound r hle] at hiso
    exact isSome_none_eq_none hiso
  · intro rr hle
    rw [c5] at hle
    rw [c10 rr, hwf.relBound rr hle]
    rfl
  · intro rr rel' hm
    rw [c10 rr] at hm
    cases hrel : g.relStore rr with
    | none =>
      rw [hrel] at hm
      cases hm
    | some rel =>
      rw [hrel] at hm
      simp only [Option.map] at hm
      cases hm
      obtain ⟨hf, ht⟩ := hwf.relLive rr rel hrel
      constructor
      · show (if rel.fromRef = r2 then r1 else rel.fromRef) ∈ _
        split
        · exact (hmem2 _).mpr ⟨hne, hm1⟩
        · rename_i hor
          exact (hmem2 _).mpr ⟨hor, hf⟩
      · show (if rel.toRef = r2 then r1 else rel.toRef) ∈ _
        split
        · exact (hmem2 _).mpr ⟨hne, hm1⟩
        · rename_i hor
          exact (hmem2 _).mpr ⟨hor, ht⟩
  · intro rr rel' hm
    rw [c10 rr] at hm
    cases hrel : g.relStore rr with
    | none =>
      rw [hrel] at hm
      cases hm
    | some rel =>
      rw [hrel] at hm
      simp only [Option.map] at hm
      cases hm
      obtain ⟨hf, ht⟩ := hwf.relLive rr rel hrel
      obtain ⟨k1, k2⟩ := hwf.relLinked rr rel hrel
      constructor
      · intro n hn
        revert hn
        show (DEG_group_cyclic_node_pair g r1 r2).1.nodeStore
            (if rel.toRef = r2 then r1 else rel.toRef) = some n → rr ∈ n.inlinks
        split
        · rename_i hor
          intro hn
          rw [c7] at hn
          cases hn
          show rr ∈ n1.inlinks ++ n2.inlinks
          exact List.mem_append_right _ (k1 n2 (hor ▸ hs2))
        · rename_i hor
          by_cases hr1 : rel.toRef = r1
          · intro hn
            rw [hr1, c7] at hn
            cases hn
            show rr ∈ n1.inlinks ++ n2.inlinks
            exact List.mem_append_left _ (k1 n1 (hr1 ▸ hs1))
          · intro hn
            rw [c8 _ ht hr1 hor] at hn
            exact k1 n hn
      · intro n hn
        revert hn
        show (DEG_group_cyclic_node_pair g r1 r2).1.nodeStore
            (if rel.fromRef = r2 then r1 else rel.fromRef) = some n → rr ∈ n.outlinks
        split
        · rename_i hor
          intro hn
          rw [c7] at hn
          cases hn
          show rr ∈ n1.outlinks ++ n2.outlinks
          exact List.mem_append_right _ (k2 n2 (hor ▸ hs2))
        · rename_i hor
          by_cases hr1 : rel.fromRef = r1
          · intro hn
            rw [hr1, c7] at hn
            cases hn
            show rr ∈ n1.outlinks ++ n2.outlinks
            exact List.mem_append_left _ (k2 n1 (hr1 ▸ hs1))
          · intro hn
            rw [c8 _ hf hr1 hor] at hn
            exact k2 n hn
  · intro r hr n hn c hc
    have hchild : ∀ c0 n0 r0, g.nodeStore r0 = some n0 → r0 ∈ g.nodes →
        c0 ∈ n0.subdata ++ n0.nodes →
        c0 ∉ (DEG_group_cyclic_node_pair g r1 r2).1.nodes ∧
        ((DEG_group_cyclic_node_pair g r1 r2).1.nodeStore c0).isSome := by
      intro c0 n0 r0 hn0 hr0 hc0
      obtain ⟨hcn, hcs⟩ := hwf.childGood r0 hr0 n0 hn0 c0 hc0
      have hc1' : c0 ≠ r1 := fun heq => hcn (heq ▸ hm1)
      have hc2' : c0 ≠ r2 := fun heq => hcn (heq ▸ hm2)
      constructor
      · intro hmem
        exact hcn ((hmem2 c0).mp hmem).2
      · obtain ⟨-, hiso⟩ := c9 c0 hc1' hc2'
        rw [hiso]
        exact hcs
    obtain ⟨hr2, hg⟩ := (hmem2 r).mp hr
    by_cases hr1 : r = r1
    · subst hr1
      rw [c7] at hn
      cases hn
      have hc' : (c ∈ n1.subdata ++ n1.nodes) ∨ (c ∈ n2.subdata ++ n2.nodes) := by
        simp only [List.mem_append] at hc ⊢
        rcases hc with (h | h) | (h | h)
        · exact Or.inl (Or.inl h)
        · exact Or.inr (Or.inl h)
        · exact Or.inl (Or.inr h)
        · exact Or.inr (Or.inr h)
      rcases hc' with hc' | hc'
      · exact hchild c n1 r hs1 hm1 hc'
      · exact hchild c n2 r2 hs2 hm2 hc'
    · rw [c8 r hg hr1 hr2] at hn
      exact hchild c n r hn hg hc

/-- The Group + ID merge (group first) preserves well-formedness and every
identity's entry count in the hash. -/
theorem wf_merge_gid {g : Depsgraph} {r1 r2 : NodeRef} {n1 n2 : DepsNode}
    (hwf : WF g) (hs1 : g.nodeStore r1 = some n1) (hs2 : g.nodeStore r2 = some n2)
    (hm1 : r1 ∈ g.nodes) (hm2 : r2 ∈ g.nodes) (hne : r1 ≠ r2)
    (ht1 : n1.type = .OUTER_GROUP) (ht2 : n2.type = .OUTER_ID) :
    WF (DEG_group_cyclic_node_pair g r1 r2).1 ∧
    (∀ a, countKey (DEG_group_cyclic_node_pair g r1 r2).1.nodehash a =
      countKey g.nodehash a) := by
  obtain ⟨c1, c2, c3, c4, c5, c6, c7, c8, c9, c10⟩ :=
    merge_gid_spec g r1 r2 n1 n2 hwf hs1 hs2 hm1 hm2 hne ht1 ht2
  have hids1 : nodeIds n1 = n1.id_blocks := by
    unfold nodeIds
    rw [ht1]
  have hids2 : nodeIds n2 = [n2.id] := by
    unfold nodeIds
    rw [ht2]
  have hnd1 : n1.id_blocks.Nodup := by
    have := hwf.idsNodup r1 hm1 n1 hs1
    rwa [hids1] at this
  have hB1 : ∀ b ∈ n1.id_blocks, (b, r1) ∈ g.nodehash := by
    intro b hb
    exact hwf.liveToHash r1 hm1 n1 hs1 b (hids1 ▸ hb)
  have ha2 : (n2.id, r2) ∈ g.nodehash :=
    hwf.liveToHash r2 hm2 n2 hs2 n2.id (by rw [hids2]; exact List.mem_singleton.mpr rfl)
  have hcnt2 : countKey g.nodehash n2.id = 1 :=
    Nat.le_antisymm (hwf.keysOnce _) (countKey_pos_of_mem ha2)
  have hdisj : n2.id ∉ n1.id_blocks := by
    intro hb1
    have := two_mem_countKey (hB1 n2.id hb1) ha2 hne
    have := hwf.keysOnce n2.id
    omega
  have hmem2 : ∀ x, x ∈ (DEG_group_cyclic_node_pair g r1 r2).1.nodes ↔
      x ≠ r2 ∧ x ∈ g.nodes := by
    intro x
    rw [c2]
    exact hwf.nodesNodup.mem_erase_iff
  have hmemhash : ∀ a r, ((a, r) ∈ (DEG_group_cyclic_node_pair g r1 r2).1.nodehash ↔
      (a = n2.id ∧ r = r1) ∨ ((a, r) ∈ g.nodehash ∧ a ≠ n2.id)) := by
    intro a r
    rw [c3]
    exact gid_hash_mem g.nodehash a n2.id r1 r (hwf.keysOnce _)
  have hcnt : ∀ a, countKey (DEG_group_cyclic_node_pair g r1 r2).1.nodehash a =
      countKey g.nodehash a := by
    intro a
    rw [c3]
    by_cases ha : a = n2.id
    · subst ha
      rw [countKey_insert_self, countKey_remove_self, hcnt2]
    · rw [countKey_insert_ne _ _ (fun h => ha h.symm),
          countKey_remove_ne _ (fun h => ha h.symm)]
  refine ⟨⟨?_, ?_, ?_, ?_, ?_, ?_, ?_, ?_, ?_, ?_, ?_⟩, hcnt⟩
  · rw [c2]
    exact hwf.nodesNodup.erase r2
  · intro r hr
    obtain ⟨hr2, hg⟩ := (hmem2 r).mp hr
    by_cases hr1 : r = r1
    · subst hr1
      rw [c7]
      exact ⟨_, rfl, Or.inr ht1⟩
    · rw [c8 r hg hr1 hr2]
      exact hwf.topLive r hg
  · intro a
    rw [hcnt a]
    exact hwf.keysOnce a
  · intro a r hm
    rcases (hmemhash a r).mp hm with ⟨ha, hr⟩ | ⟨hm0, ha⟩
    · subst hr
      refine ⟨(hmem2 _).mpr ⟨hne, hm1⟩, ?_⟩
      rw [c7]
      refine ⟨_, rfl, ?_⟩
      unfold nodeIds
      rw [ht1]
      exact List.mem_append_right _ (ha ▸ List.mem_singleton.mpr rfl)
    · obtain ⟨hg, n, hn, hin⟩ := hwf.hashToLive a r hm0
      have hr2' : r ≠ r2 := by
        intro heq
        subst heq
        rw [hs2] at hn
        cases hn
        rw [hids2] at hin
        exact ha (List.mem_singleton.mp hin)
      refine ⟨(hmem2 _).mpr ⟨hr2', hg⟩, ?_⟩
      by_cases hr1 : r = r1
      · subst hr1
        rw [hs1] at hn
        cases hn
        rw [c7]
        refine ⟨_, rfl, ?_⟩
        unfold nodeIds
        rw [ht1]
        rw [hids1] at hin
        exact List.mem_append_left _ hin
      · rw [c8 r hg hr1 hr2']
        exact ⟨n, hn, hin⟩
  · intro r hr n hn a ha
    obtain ⟨hr2, hg⟩ := (hmem2 r).mp hr
    by_cases hr1 : r = r1
    · subst hr1
      rw [c7] at hn
      cases hn
      unfold nodeIds at ha
      rw [ht1] at ha
      rcases List.mem_append.mp ha with ha1 | ha2
      · exact (hmemhash a r).mpr
          (Or.inr ⟨hwf.liveToHash r hm1 n1 hs1 a (hids1 ▸ ha1),
            fun hmm => hdisj (hmm ▸ ha1)⟩)
      · exact (hmemhash a r).mpr (Or.inl ⟨List.mem_singleton.mp ha2, rfl⟩)
    · rw [c8 r hg hr1 hr2] at hn
      have hm0 := hwf.liveToHash r hg n hn a ha
      have hano : a ≠ n2.id := by
        intro heq
        have hm2' : (a, r2) ∈ g.nodehash := by
          rw [heq]
          exact ha2
        have := two_mem_countKey hm0 hm2' hr2
        have := hwf.keysOnce a
        omega
      exact (hmemhash a r).mpr (Or.inr ⟨hm0, hano⟩)
  · intro r hr n hn
    obtain ⟨hr2, hg⟩ := (hmem2 r).mp hr
    by_cases hr1 : r = r1
    · subst hr1
      rw [c7] at hn
      cases hn
      unfold nodeIds
      rw [ht1]
      show (n1.id_blocks ++ [n2.id]).Nodup
      rw [List.nodup_append]
      refine ⟨hnd1, List.nodup_singleton _, ?_⟩
      intro a ha1 ha2
      rw [List.mem_singleton] at ha2
      exact hdisj (ha2 ▸ ha1)
    · rw [c8 r hg hr1 hr2] at hn
      exact hwf.idsNodup r hg n hn
  · intro r hle
    rw [c4] at hle
    have h1' : r ≠ r1 := Nat.ne_of_gt (Nat.lt_of_lt_of_le (hwf.top_lt hm1) hle)
    have h2' : r ≠ r2 := Nat.ne_of_gt (Nat.lt_of_lt_of_le (hwf.top_lt hm2) hle)
    obtain ⟨-, hiso⟩ := c9 r h1' h2'
    rw [hwf.storeBound r hle] at hiso
    exact isSome_none_eq_none hiso
  · intro rr hle
    rw [c5] at hle
    rw [c10 rr, hwf.relBound rr hle]
    rfl
  · intro rr rel' hm
    rw [c10 rr] at hm
    cases hrel : g.relStore rr with
    | none =>
      rw [hrel] at hm
      cases hm
    | some rel =>
      rw [hrel] at hm
      simp only [Option.map] at hm
      cases hm
      obtain ⟨hf, ht⟩ := hwf.relLive rr rel hrel
      constructor
      · show (if rel.fromRef = r2 then r1 else rel.fromRef) ∈ _
        split
        · exact (hmem2 _).mpr ⟨hne, hm1⟩
        · rename_i hor
          exact (hmem2 _).mpr ⟨hor, hf⟩
      · show (if rel.toRef = r2 then r1 else rel.toRef) ∈ _
        split
        · exact (hmem2 _).mpr ⟨hne, hm1⟩
        · rename_i hor
          exact (hmem2 _).mpr ⟨hor, ht⟩
  · intro rr rel' hm
    rw [c10 rr] at hm
    cases hrel : g.relStore rr with
    | none =>
      rw [hrel] at hm
      cases hm
    | some rel =>
      rw [hrel] at hm
      simp only [Option.map] at hm
      cases hm
      obtain ⟨hf, ht⟩ := hwf.relLive rr rel hrel
      obtain ⟨k1, k2⟩ := hwf.relLinked rr rel hrel
      constructor
      · intro n hn
        revert hn
        show (DEG_group_cyclic_node_pair g r1 r2).1.nodeStore
            (if rel.toRef = r2 then r1 else rel.toRef) = some n → rr ∈ n.inlinks
        split
        · rename_i hor
          intro hn
          rw [c7] at hn
          cases hn
          show rr ∈ n1.inlinks ++ n2.inlinks
          exact List.mem_append_right _ (k1 n2 (hor ▸ hs2))
        · rename_i hor
          by_cases hr1 : rel.toRef = r1
          · intro hn
            rw [hr1, c7] at hn
            cases hn
            show rr ∈ n1.inlinks ++ n2.inlinks
            exact List.mem_append_left _ (k1 n1 (hr1 ▸ hs1))
          · intro hn
            rw [c8 _ ht hr1 hor] at hn
            exact k1 n hn
      · intro n hn
        revert hn
        show (DEG_group_cyclic_node_pair g r1 r2).1.nodeStore
            (if rel.fromRef = r2 then r1 else rel.fromRef) = some n → rr ∈ n.outlinks
        split
        · rename_i hor
          intro hn
          rw [c7] at hn
          cases hn
          show rr ∈ n1.outlinks ++ n2.outlinks
          exact List.mem_append_right _ (k2 n2 (hor ▸ hs2))
        · rename_i hor
          by_cases hr1 : rel.fromRef = r1
          · intro hn
            rw [hr1, c7] at hn
            cases hn
            show rr ∈ n1.outlinks ++ n2.outlinks
            exact List.mem_append_left _ (k2 n1 (hr1 ▸ hs1))
          · intro hn
            rw [c8 _ hf hr1 hor] at hn
            exact k2 n hn
  · intro r hr n hn c hc
    have hchild : ∀ c0 n0 r0, g.nodeStore r0 = some n0 → r0 ∈ g.nodes →
        c0 ∈ n0.subdata ++ n0.nodes →
        c0 ∉ (DEG_group_cyclic_node_pair g r1 r2).1.nodes ∧
        ((DEG_group_cyclic_node_pair g r1 r2).1.nodeStore c0).isSome := by
      intro c0 n0 r0 hn0 hr0 hc0
      obtain ⟨hcn, hcs⟩ := hwf.childGood r0 hr0 n0 hn0 c0 hc0
      have hc1' : c0 ≠ r1 := fun heq => hcn (heq ▸ hm1)
      have hc2' : c0 ≠ r2 := fun heq => hcn (heq ▸ hm2)
      constructor
      · intro hmem
        exact hcn ((hmem2 c0).mp hmem).2
      · obtain ⟨-, hiso⟩ := c9 c0 hc1' hc2'
        rw [hiso]
        exact hcs
    obtain ⟨hr2, hg⟩ := (hmem2 r).mp hr
    by_cases hr1 : r = r1
    · subst hr1
      rw [c7] at hn
      cases hn
      have hc' : (c ∈ n1.subdata ++ n1.nodes) ∨ (c ∈ n2.subdata ++ n2.nodes) := by
        simp only [List.mem_append] at hc ⊢
        rcases hc with (h | h) | (h | h)
        · exact Or.inl (Or.inl h)
        · exact Or.inr (Or.inl h)
        · exact Or.inl (Or.inr h)
        · exact Or.inr (Or.inr h)
      rcases hc' with hc' | hc'
      · exact hchild c n1 r hs1 hm1 hc'
      · exact hchild c n2 r2 hs2 hm2 hc'
    · rw [c8 r hg hr1 hr2] at hn
      exact hchild c n r hn hg hc

/-- The ID + Group merge (group second) preserves well-formedness and every
identity's entry count in the hash. -/
theorem wf_merge_idg {g : Depsgraph} {r1 r2 : NodeRef} {n1 n2 : DepsNode}
    (hwf : WF g) (hs1 : g.nodeStore r1 = some n1) (hs2 : g.nodeStore r2 = some n2)
    (hm1 : r1 ∈ g.nodes) (hm2 : r2 ∈ g.nodes) (hne : r1 ≠ r2)
    (ht1 : n1.type = .OUTER_ID) (ht2 : n2.type = .OUTER_GROUP) :
    WF (DEG_group_cyclic_node_pair g r1 r2).1 ∧
    (∀ a, countKey (DEG_group_cyclic_node_pair g r1 r2).1.nodehash a =
      countKey g.nodehash a) := by
  obtain ⟨c1, c2, c3, c4, c5, c6, c7, c8, c9, c10⟩ :=
    merge_idg_spec g r1 r2 n1 n2 hwf hs1 hs2 hm1 hm2 hne ht1 ht2
  have hids2 : nodeIds n2 = n2.id_blocks := by
    unfold nodeIds
    rw [ht2]
  have hids1 : nodeIds n1 = [n1.id] := by
    unfold nodeIds
    rw [ht1]
  have hnd2 : n2.id_blocks.Nodup := by
    have := hwf.idsNodup r2 hm2 n2 hs2
    rwa [hids2] at this
  have hB2 : ∀ b ∈ n2.id_blocks, (b, r2) ∈ g.nodehash := by
    intro b hb
    exact hwf.liveToHash r2 hm2 n2 hs2 b (hids2 ▸ hb)
  have ha1 : (n1.id, r1) ∈ g.nodehash :=
    hwf.liveToHash r1 hm1 n1 hs1 n1.id (by rw [hids1]; exact List.mem_singleton.mpr rfl)
  have hcnt1 : countKey g.nodehash n1.id = 1 :=
    Nat.le_antisymm (hwf.keysOnce _) (countKey_pos_of_mem ha1)
  have hdisj : n1.id ∉ n2.id_blocks := by
    intro hb1
    have := two_mem_countKey ha1 (hB2 n1.id hb1) hne
    have := hwf.keysOnce n1.id
    omega
  have hmem2 : ∀ x, x ∈ (DEG_group_cyclic_node_pair g r1 r2).1.nodes ↔
      x ≠ r1 ∧ x ∈ g.nodes := by
    intro x
    rw [c2]
    exact hwf.nodesNodup.mem_erase_iff
  have hmemhash : ∀ a r, ((a, r) ∈ (DEG_group_cyclic_node_pair g r1 r2).1.nodehash ↔
      (a = n1.id ∧ r = r2) ∨ ((a, r) ∈ g.nodehash ∧ a ≠ n1.id)) := by
    intro a r
    rw [c3]
    exact gid_hash_mem g.nodehash a n1.id r2 r (hwf.keysOnce _)
  have hcnt : ∀ a, countKey (DEG_group_cyclic_node_pair g r1 r2).1.nodehash a =
      countKey g.nodehash a := by
    intro a
    rw [c3]
    by_cases ha : a = n1.id
    · subst ha
      rw [countKey_insert_self, countKey_remove_self, hcnt1]
    · rw [countKey_insert_ne _ _ (fun h => ha h.symm),
          countKey_remove_ne _ (fun h => ha h.symm)]
  refine ⟨⟨?_, ?_, ?_, ?_, ?_, ?_, ?_, ?_, ?_, ?_, ?_⟩, hcnt⟩
  · rw [c2]
    exact hwf.nodesNodup.erase r1
  · intro r hr
    obtain ⟨hr1, hg⟩ := (hmem2 r).mp hr
    by_cases hr2 : r = r2
    · subst hr2
      rw [c7]
      exact ⟨_, rfl, Or.inr ht2⟩
    · rw [c8 r hg hr1 hr2]
      exact hwf.topLive r hg
  · intro a
    rw [hcnt a]
    exact hwf.keysOnce a
  · intro a r hm
    rcases (hmemhash a r).mp hm with ⟨ha, hr⟩ | ⟨hm0, ha⟩
    · subst hr
      refine ⟨(hmem2 _).mpr ⟨Ne.symm hne, hm2⟩, ?_⟩
      rw [c7]
      refine ⟨_, rfl, ?_⟩
      unfold nodeIds
      rw [ht2]
      exact List.mem_append_right _ (ha ▸ List.mem_singleton.mpr rfl)
    · obtain ⟨hg, n, hn, hin⟩ := hwf.hashToLive a r hm0
      have hr1' : r ≠ r1 := by
        intro heq
        subst heq
        rw [hs1] at hn
        cases hn
        rw [hids1] at hin
        exact ha (List.mem_singleton.mp hin)
      refine ⟨(hmem2 _).mpr ⟨hr1', hg⟩, ?_⟩
      by_cases hr2 : r = r2
      · subst hr2
        rw [hs2] at hn
        cases hn
        rw [c7]
        refine ⟨_, rfl, ?_⟩
        unfold nodeIds
        rw [ht2]
        rw [hids2] at hin
        exact List.mem_append_left _ hin
      · rw [c8 r hg hr1' hr2]
        exact ⟨n, hn, hin⟩
  · intro r hr n hn a ha
    obtain ⟨hr1, hg⟩ := (hmem2 r).mp hr
    by_cases hr2 : r = r2
    · subst hr2
      rw [c7] at hn
      cases hn
      unfold nodeIds at ha
      rw [ht2] at ha
      rcases List.mem_append.mp ha with ha1 | ha2
      · exact (hmemhash a r).mpr
          (Or.inr ⟨hwf.liveToHash r hm2 n2 hs2 a (hids2 ▸ ha1),
            fun hmm => hdisj (hmm ▸ ha1)⟩)
      · exact (hmemhash a r).mpr (Or.inl ⟨List.mem_singleton.mp ha2, rfl⟩)
    · rw [c8 r hg hr1 hr2] at hn
      have hm0 := hwf.liveToHash r hg n hn a ha
      have hano : a ≠ n1.id := by
        intro heq
        have hm1' : (a, r1) ∈ g.nodehash := by
          rw [heq]
          exact ha1
        have := two_mem_countKey hm0 hm1' hr1
        have := hwf.keysOnce a
        omega
      exact (hmemhash a r).mpr (Or.inr ⟨hm0, hano⟩)
  · intro r hr n hn
    obtain ⟨hr1, hg⟩ := (hmem2 r).mp hr
    by_cases hr2 : r = r2
    · subst hr2
      rw [c7] at hn
      cases hn
      unfold nodeIds
      rw [ht2]
      show (n2.id_blocks ++ [n1.id]).Nodup
      rw [List.nodup_append]
      refine ⟨hnd2, List.nodup_singleton _, ?_⟩
      intro a ha1 ha2
      rw [List.mem_singleton] at ha2
      exact hdisj (ha2 ▸ ha1)
    · rw [c8 r hg hr1 hr2] at hn
      exact hwf.idsNodup r hg n hn
  · intro r hle
    rw [c4] at hle
    have h1' : r ≠ r1 := Nat.ne_of_gt (Nat.lt_of_lt_of_le (hwf.top_lt hm1) hle)
    have h2' : r ≠ r2 := Nat.ne_of_gt (Nat.lt_of_lt_of_le (hwf.top_lt hm2) hle)
    obtain ⟨-, hiso⟩ := c9 r h1' h2'
    rw [hwf.storeBound r hle] at hiso
    exact isSome_none_eq_none hiso
  · intro rr hle
    rw [c5] at hle
    rw [c10 rr, hwf.relBound rr hle]
    rfl
  · intro rr rel' hm
    rw [c10 rr] at hm
    cases hrel : g.relStore rr with
    | none =>
      rw [hrel] at hm
      cases hm
    | some rel =>
      rw [hrel] at hm
      simp only [Option.map] at hm
      cases hm
      obtain ⟨hf, ht⟩ := hwf.relLive rr rel hrel
      constructor
      · show (if rel.fromRef = r1 then r2 else rel.fromRef) ∈ _
        split
        · exact (hmem2 _).mpr ⟨Ne.symm hne, hm2⟩
        · rename_i hor
          exact (hmem2 _).mpr ⟨hor, hf⟩
      · show (if rel.toRef = r1 then r2 else rel.toRef) ∈ _
        split
        · exact (hmem2 _).mpr ⟨Ne.symm hne, hm2⟩
        · rename_i hor
          exact (hmem2 _).mpr ⟨hor, ht⟩
  · intro rr rel' hm
    rw [c10 rr] at hm
    cases hrel : g.relStore rr with
    | none =>
      rw [hrel] at hm
      cases hm
    | some rel =>
      rw [hrel] at hm
      simp only [Option.map] at hm
      cases hm
      obtain ⟨hf, ht⟩ := hwf.relLive rr rel hrel
      obtain ⟨k1, k2⟩ := hwf.relLinked rr rel hrel
      constructor
      · intro n hn
        revert hn
        show (DEG_group_cyclic_node_pair g r1 r2).1.nodeStore
            (if rel.toRef = r1 then r2 else rel.toRef) = some n → rr ∈ n.inlinks
        split
        · rename_i hor
          intro hn
          rw [c7] at hn
          cases hn
          show rr ∈ n2.inlinks ++ n1.inlinks
          exact List.mem_append_right _ (k1 n1 (hor ▸ hs1))
        · rename_i hor
          by_cases hr2 : rel.toRef = r2
          · intro hn
            rw [hr2, c7] at hn
            cases hn
            show rr ∈ n2.inlinks ++ n1.inlinks
            exact List.mem_append_left _ (k1 n2 (hr2 ▸ hs2))
          · intro hn
            rw [c8 _ ht hor hr2] at hn
            exact k1 n hn
      · intro n hn
        revert hn
        show (DEG_group_cyclic_node_pair g r1 r2).1.nodeStore
            (if rel.fromRef = r1 then r2 else rel.fromRef) = some n → rr ∈ n.outlinks
        split
        · rename_i hor
          intro hn
          rw [c7] at hn
          cases hn
          show rr ∈ n2.outlinks ++ n1.outlinks
          exact List.mem_append_right _ (k2 n1 (hor ▸ hs1))
        · rename_i hor
          by_cases hr2 : rel.fromRef = r2
          · intro hn
            rw [hr2, c7] at hn
            cases hn
            show rr ∈ n2.outlinks ++ n1.outlinks
            exact List.mem_append_left _ (k2 n2 (hr2 ▸ hs2))
          · intro hn
            rw [c8 _ hf hor hr2] at hn
            exact k2 n hn
  · intro r hr n hn c hc
    have hchild : ∀ c0 n0 r0, g.nodeStore r0 = some n0 → r0 ∈ g.nodes →
        c0 ∈ n0.subdata ++ n0.nodes →
        c0 ∉ (DEG_group_cyclic_node_pair g r1 r2).1.nodes ∧
        ((DEG_group_cyclic_node_pair g r1 r2).1.nodeStore c0).isSome := by
      intro c0 n0 r0 hn0 hr0 hc0
      obtain ⟨hcn, hcs⟩ := hwf.childGood r0 hr0 n0 hn0 c0 hc0
      have hc1' : c0 ≠ r1 := fun heq => hcn (heq ▸ hm1)
      have hc2' : c0 ≠ r2 := fun heq => hcn (heq ▸ hm2)
      constructor
      · intro hmem
        exact hcn ((hmem2 c0).mp hmem).2
      · obtain ⟨-, hiso⟩ := c9 c0 hc1' hc2'
        rw [hiso]
        exact hcs
    obtain ⟨hr1, hg⟩ := (hmem2 r).mp hr
    by_cases hr2 : r = r2
    · subst hr2
      rw [c7] at hn
      cases hn
      have hc' : (c ∈ n2.subdata ++ n2.nodes) ∨ (c ∈ n1.subdata ++ n1.nodes) := by
        simp only [List.mem_append] at hc ⊢
        rcases hc with (h | h) | (h | h)
        · exact Or.inl (Or.inl h)
        · exact Or.inr (Or.inl h)
        · exact Or.inl (Or.inr h)
        · exact Or.inr (Or.inr h)
      rcases hc' with hc' | hc'
      · exact hchild c n2 r hs2 hm2 hc'
      · exact hchild c n1 r1 hs1 hm1 hc'
    · rw [c8 r hg hr1 hr2] at hn
      exact hchild c n r hn hg hc

/-- Merging two distinct toplevel nodes preserves well-formedness and every
identity's entry count in the hash. -/
theorem wf_merge {g : Depsgraph} (hwf : WF g) (r1 r2 : NodeRef)
    (hm1 : r1 ∈ g.nodes) (hm2 : r2 ∈ g.nodes) (hne : r1 ≠ r2) :
    WF (DEG_group_cyclic_node_pair g r1 r2).1 ∧
    (∀ a, countKey (DEG_group_cyclic_node_pair g r1 r2).1.nodehash a =
      countKey g.nodehash a) := by
  obtain ⟨n1, hs1, hty1⟩ := hwf.topLive r1 hm1
  obtain ⟨n2, hs2, hty2⟩ := hwf.topLive r2 hm2
  rcases hty1 with h1 | h1 <;> rcases hty2 with h2 | h2
  · exact wf_merge_idid hwf hs1 hs2 hm1 hm2 hne h1 h2
  · exact wf_merge_idg hwf hs1 hs2 hm1 hm2 hne h1 h2
  · exact wf_merge_gid hwf hs1 hs2 hm1 hm2 hne h1 h2
  · exact wf_merge_gg hwf hs1 hs2 hm1 hm2 hne h1 h2

/-- Well-formedness and single-entry counts persist along every valid trace. -/
theorem runOps_wf {g : Depsgraph} {ops : List DepsOp} (hv : ValidFrom g ops) :
    WF g → WF (runOps g ops) ∧
      (∀ a, countKey g.nodehash a = 1 →
        countKey (runOps g ops).nodehash a = 1) := by
  induction hv with
  | nil g0 =>
    intro hwf
    exact ⟨hwf, fun a h => h⟩
  | addId g0 a ops hfresh htail ih =>
    intro hwf
    obtain ⟨hwf2, -, hc2⟩ := wf_addId hwf a hfresh
    obtain ⟨hwfN, hcN⟩ := ih hwf2
    refine ⟨hwfN, ?_⟩
    intro a0 h1
    apply hcN
    show countKey (addIdNode g0 a).nodehash a0 = 1
    by_cases ha : a0 = a
    · subst ha
      rw [hfresh] at h1
      cases h1
    · rw [hc2 a0 ha]
      exact h1
  | addRel g0 r1 r2 ops h1 h2 htail ih =>
    intro hwf
    obtain ⟨hwf2, hhash⟩ := wf_addRel hwf r1 r2 h1 h2
    obtain ⟨hwfN, hcN⟩ := ih hwf2
    refine ⟨hwfN, ?_⟩
    intro a0 hcnt
    apply hcN
    show countKey (DEG_add_relation g0 r1 r2).nodehash a0 = 1
    rw [hhash]
    exact hcnt
  | merge g0 r1 r2 ops h1 h2 hne htail ih =>
    intro hwf
    obtain ⟨hwf2, hcnt2⟩ := wf_merge hwf r1 r2 h1 h2 hne
    obtain ⟨hwfN, hcN⟩ := ih hwf2
    refine ⟨hwfN, ?_⟩
    intro a0 hcnt
    apply hcN
    show countKey (DEG_group_cyclic_node_pair g0 r1 r2).1.nodehash a0 = 1
    rw [hcnt2 a0]
    exact hcnt

/-- Every identity handed to `add_to_graph` along a valid trace has exactly
one hash entry at the end of the trace. -/
theorem tracedIds_count {g : Depsgraph} {ops : List DepsOp} (hv : ValidFrom g ops) :
    WF g → ∀ a ∈ tracedIds ops, countKey (runOps g ops).nodehash a = 1 := by
  induction hv with
  | nil g0 =>
    intro hwf a ha
    cases ha
  | addId g0 a ops hfresh htail ih =>
    intro hwf a0 ha0
    obtain ⟨hwf2, hc1, hc2⟩ := wf_addId hwf a hfresh
    rcases List.mem_cons.mp ha0 with heq | hmem
    · subst heq
      exact (runOps_wf htail hwf2).2 a0 hc1
    · exact ih hwf2 a0 hmem
  | addRel g0 r1 r2 ops h1 h2 htail ih =>
    intro hwf a0 ha0
    obtain ⟨hwf2, -⟩ := wf_addRel hwf r1 r2 h1 h2
    exact ih hwf2 a0 ha0
  | merge g0 r1 r2 ops h1 h2 hne htail ih =>
    intro hwf a0 ha0
    obtain ⟨hwf2, -⟩ := wf_merge hwf r1 r2 h1 h2 hne
    exact ih hwf2 a0 ha0

/-! ## Copy characterization -/

theorem range_map_shift (ρ n : Nat) :
    (List.range (n + 1)).map (fun i => ρ + i) =
      ρ :: (List.range n).map (fun i => (ρ + 1) + i) := by
  rw [List.range_succ_eq_map, List.map_cons, List.map_map]
  refine congrArg₂ _ (Nat.add_zero ρ) ?_
  apply List.map_congr_left
  intro i _
  show ρ + (i + 1) = (ρ + 1) + i
  rw [Nat.add_succ, Nat.succ_add]

theorem copyChildrenSubdata_spec (l : List NodeRef) :
    ∀ (g : Depsgraph) (dst : NodeRef) (d : DepsNode),
    g.nodeStore dst = some d →
    (∀ r, g.nextNodeRef ≤ r → g.nodeStore r = none) →
    dst ∉ l →
    (∀ c ∈ l, (g.nodeStore c).isSome) →
    (copyChildrenSubdata g dst l).nextNodeRef = g.nextNodeRef + l.length ∧
    (copyChildrenSubdata g dst l).relStore = g.relStore ∧
    (copyChildrenSubdata g dst l).nodes = g.nodes ∧
    (copyChildrenSubdata g dst l).nodehash = g.nodehash ∧
    (copyChildrenSubdata g dst l).nextRelRef = g.nextRelRef ∧
    (copyChildrenSubdata g dst l).nodeStore dst =
      some { d with subdata := d.subdata ++ (List.range l.length).map (fun i => g.nextNodeRef + i) } ∧
    (∀ i, ∀ hi : i < l.length, (copyChildrenSubdata g dst l).nodeStore (g.nextNodeRef + i) =
      g.nodeStore (l.get ⟨i, hi⟩)) ∧
    (∀ x, x ≠ dst → x < g.nextNodeRef →
      (copyChildrenSubdata g dst l).nodeStore x = g.nodeStore x) := by
  induction l with
  | nil =>
    intro g dst d hd hb hdl hl
    refine ⟨Nat.add_zero _ ▸ rfl, rfl, rfl, rfl, rfl, ?_, ?_, ?_⟩
    · show g.nodeStore dst = _
      rw [hd]
      simp
    · intro i hi
      cases hi
    · intro x _ _
      rfl
  | cons c t ih =>
    intro g dst d hd hb hdl hl
    have hdlt : dst < g.nextNodeRef := by
      by_contra hlt
      rw [hb dst (Nat.le_of_not_lt hlt)] at hd
      cases hd
    have hdne : dst ≠ g.nextNodeRef := Nat.ne_of_lt hdlt
    obtain ⟨cn, hcn⟩ := Option.isSome_iff_exists.mp (hl c (List.mem_cons_self _ _))
    have hclt : c < g.nextNodeRef := by
      by_contra hlt
      rw [hb c (Nat.le_of_not_lt hlt)] at hcn
      cases hcn
    have hcopy : DEG_copy_node g c =
        ({ g.setNode g.nextNodeRef cn with nextNodeRef := g.nextNodeRef + 1 },
          some g.nextNodeRef) := by
      unfold DEG_copy_node
      rw [hcn]
    have hstep : copyChildrenSubdata g dst (c :: t) =
        copyChildrenSubdata
          (({ g.setNode g.nextNodeRef cn with nextNodeRef := g.nextNodeRef + 1 }).updNode
            dst (fun n => { n with subdata := n.subdata ++ [g.nextNodeRef] })) dst t := by
      show List.foldl _ _ (c :: t) = _
      rw [List.foldl_cons]
      show List.foldl _
        (let pr := DEG_copy_node g c
         match pr.2 with
         | some nc => pr.1.updNode dst (fun n => { n with subdata := n.subdata ++ [nc] })
         | none => pr.1) t = _
      rw [hcopy]
      rfl
    set gs : Depsgraph :=
      ({ g.setNode g.nextNodeRef cn with nextNodeRef := g.nextNodeRef + 1 }).updNode
        dst (fun n => { n with subdata := n.subdata ++ [g.nextNodeRef] }) with hgs
    have hgs_dst : gs.nodeStore dst =
        some { d with subdata := d.subdata ++ [g.nextNodeRef] } := by
      rw [hgs, updNode_store_self]
      show Option.map _ ((g.setNode g.nextNodeRef cn).nodeStore dst) = _
      rw [setNode_store_ne _ _ hdne, hd]
      rfl
    have hgs_other : ∀ x, x ≠ dst → x ≠ g.nextNodeRef → gs.nodeStore x = g.nodeStore x := by
      intro x hx1 hx2
      rw [hgs, updNode_store_ne _ _ hx1]
      show (g.setNode g.nextNodeRef cn).nodeStore x = _
      exact setNode_store_ne _ _ hx2
    have hgs_new : gs.nodeStore g.nextNodeRef = some cn := by
      rw [hgs, updNode_store_ne _ _ (Ne.symm hdne)]
      exact setNode_store_self _ _ _
    have hgs_next : gs.nextNodeRef = g.nextNodeRef + 1 := by
      rw [hgs, updNode_nextNodeRef]
    have hgs_bound : ∀ r, gs.nextNodeRef ≤ r → gs.nodeStore r = none := by
      intro r hle
      rw [hgs_next] at hle
      have hr1 : r ≠ dst := Nat.ne_of_gt (Nat.lt_of_lt_of_le hdlt (Nat.le_of_succ_le hle))
      have hr2 : r ≠ g.nextNodeRef := Nat.ne_of_gt (Nat.lt_of_succ_le hle)
      rw [hgs_other r hr1 hr2]
      exact hb r (Nat.le_of_succ_le hle)
    have hgs_tail : ∀ c0 ∈ t, (gs.nodeStore c0).isSome := by
      intro c0 hc0
      have hs0 := hl c0 (List.mem_cons_of_mem _ hc0)
      have hc0lt : c0 < g.nextNodeRef := by
        by_contra hlt
        rw [hb c0 (Nat.le_of_not_lt hlt)] at hs0
        cases hs0
      by_cases hcd : c0 = dst
      · rw [hcd, hgs_dst]
        rfl
      · rw [hgs_other c0 hcd (Nat.ne_of_lt hc0lt)]
        exact hs0
    have hdt : dst ∉ t := fun h => hdl (List.mem_cons_of_mem _ h)
    obtain ⟨i1, i2, i3, i4, i5, i6, i7, i8⟩ :=
      ih gs dst { d with subdata := d.subdata ++ [g.nextNodeRef] } hgs_dst hgs_bound hdt hgs_tail
    rw [hstep]
    refine ⟨?_, ?_, ?_, ?_, ?_, ?_, ?_, ?_⟩
    · rw [i1, hgs_next, List.length_cons, Nat.succ_add]
      exact (Nat.add_succ _ _).symm
    · rw [i2, hgs]
      rw [updNode_relStore]
      rfl
    · rw [i3, hgs]
      rw [updNode_nodes]
      rfl
    · rw [i4, hgs]
      rw [updNode_nodehash]
      rfl
    · rw [i5, hgs]
      rw [updNode_nextRelRef]
      rfl
    · rw [i6, hgs_next]
      show some _ = some _
      congr 1
      show {d with subdata := (d.subdata ++ [g.nextNodeRef]) ++ _ } = _
      have : (d.subdata ++ [g.nextNodeRef]) ++
          (List.range t.length).map (fun i => (g.nextNodeRef + 1) + i) =
          d.subdata ++ (List.range (t.length + 1)).map (fun i => g.nextNodeRef + i) := by
        rw [range_map_shift, List.append_assoc]
        rfl
      rw [this]
      rfl
    · intro i hi
      cases i with
      | zero =>
        rw [Nat.add_zero]
        have h1 : (copyChildrenSubdata gs dst t).nodeStore g.nextNodeRef =
            gs.nodeStore g.nextNodeRef := by
          apply i8
          · exact Ne.symm hdne
          · rw [hgs_next]
            exact Nat.lt_succ_self _
        rw [h1, hgs_new]
        show _ = g.nodeStore c
        rw [hcn]
      | succ j =>
        have hj : j < t.length := Nat.lt_of_succ_lt_succ hi
        have harith : g.nextNodeRef + (j + 1) = gs.nextNodeRef + j := by
          rw [hgs_next, Nat.add_succ, Nat.succ_add]
        rw [harith, i7 j hj]
        have hget : t.get ⟨j, hj⟩ ∈ t := List.get_mem t j hj
        have hs0 := hgs_tail _ hget
        have hglt : t.get ⟨j, hj⟩ < g.nextNodeRef := by
          have hs1 := hl _ (List.mem_cons_of_mem _ hget)
          by_contra hlt
          rw [hb _ (Nat.le_of_not_lt hlt)] at hs1
          cases hs1
        rw [hgs_other _ (fun h => hdt (h ▸ hget)) (Nat.ne_of_lt hglt)]
        rfl
    · intro x hx1 hx2
      have h1 : (copyChildrenSubdata gs dst t).nodeStore x = gs.nodeStore x := by
        apply i8 x hx1
        rw [hgs_next]
        exact Nat.lt_succ_of_lt hx2
      rw [h1, hgs_other x hx1 (Nat.ne_of_lt hx2)]

theorem copyChildrenNodes_spec (l : List NodeRef) :
    ∀ (g : Depsgraph) (dst : NodeRef) (d : DepsNode),
    g.nodeStore dst = some d →
    (∀ r, g.nextNodeRef ≤ r → g.nodeStore r = none) →
    dst ∉ l →
    (∀ c ∈ l, (g.nodeStore c).isSome) →
    (copyChildrenNodes g dst l).nextNodeRef = g.nextNodeRef + l.length ∧
    (copyChildrenNodes g dst l).relStore = g.relStore ∧
    (copyChildrenNodes g dst l).nodes = g.nodes ∧
    (copyChildrenNodes g dst l).nodehash = g.nodehash ∧
    (copyChildrenNodes g dst l).nextRelRef = g.nextRelRef ∧
    (copyChildrenNodes g dst l).nodeStore dst =
      some { d with nodes := d.nodes ++ (List.range l.length).map (fun i => g.nextNodeRef + i) } ∧
    (∀ i, ∀ hi : i < l.length, (copyChildrenNodes g dst l).nodeStore (g.nextNodeRef + i) =
      g.nodeStore (l.get ⟨i, hi⟩)) ∧
    (∀ x, x ≠ dst → x < g.nextNodeRef →
      (copyChildrenNodes g dst l).nodeStore x = g.nodeStore x) := by
  induction l with
  | nil =>
    intro g dst d hd hb hdl hl
    refine ⟨Nat.add_zero _ ▸ rfl, rfl, rfl, rfl, rfl, ?_, ?_, ?_⟩
    · show g.nodeStore dst = _
      rw [hd]
      simp
    · intro i hi
      cases hi
    · intro x _ _
      rfl
  | cons c t ih =>
    intro g dst d hd hb hdl hl
    have hdlt : dst < g.nextNodeRef := by
      by_contra hlt
      rw [hb dst (Nat.le_of_not_lt hlt)] at hd
      cases hd
    have hdne : dst ≠ g.nextNodeRef := Nat.ne_of_lt hdlt
    obtain ⟨cn, hcn⟩ := Option.isSome_iff_exists.mp (hl c (List.mem_cons_self _ _))
    have hclt : c < g.nextNodeRef := by
      by_contra hlt
      rw [hb c (Nat.le_of_not_lt hlt)] at hcn
      cases hcn
    have hcopy : DEG_copy_node g c =
        ({ g.setNode g.nextNodeRef cn with nextNodeRef := g.nextNodeRef + 1 },
          some g.nextNodeRef) := by
      unfold DEG_copy_node
      rw [hcn]
    have hstep : copyChildrenNodes g dst (c :: t) =
        copyChildrenNodes
          (({ g.setNode g.nextNodeRef cn with nextNodeRef := g.nextNodeRef + 1 }).updNode
            dst (fun n => { n with nodes := n.nodes ++ [g.nextNodeRef] })) dst t := by
      show List.foldl _ _ (c :: t) = _
      rw [List.foldl_cons]
      show List.foldl _
        (let pr := DEG_copy_node g c
         match pr.2 with
         | some nc => pr.1.updNode dst (fun n => { n with nodes := n.nodes ++ [nc] })
         | none => pr.1) t = _
      rw [hcopy]
      rfl
    set gs : Depsgraph :=
      ({ g.setNode g.nextNodeRef cn with nextNodeRef := g.nextNodeRef + 1 }).updNode
        dst (fun n => { n with nodes := n.nodes ++ [g.nextNodeRef] }) with hgs
    have hgs_dst : gs.nodeStore dst =
        some { d with nodes := d.nodes ++ [g.nextNodeRef] } := by
      rw [hgs, updNode_store_self]
      show Option.map _ ((g.setNode g.nextNodeRef cn).nodeStore dst) = _
      rw [setNode_store_ne _ _ hdne, hd]
      rfl
    have hgs_other : ∀ x, x ≠ dst → x ≠ g.nextNodeRef → gs.nodeStore x = g.nodeStore x := by
      intro x hx1 hx2
      rw [hgs, updNode_store_ne _ _ hx1]
      show (g.setNode g.nextNodeRef cn).nodeStore x = _
      exact setNode_store_ne _ _ hx2
    have hgs_new : gs.nodeStore g.nextNodeRef = some cn := by
      rw [hgs, updNode_store_ne _ _ (Ne.symm hdne)]
      exact setNode_store_self _ _ _
    have hgs_next : gs.nextNodeRef = g.nextNodeRef + 1 := by
      rw [hgs, updNode_nextNodeRef]
    have hgs_bound : ∀ r, gs.nextNodeRef ≤ r → gs.nodeStore r = none := by
      intro r hle
      rw [hgs_next] at hle
      have hr1 : r ≠ dst := Nat.ne_of_gt (Nat.lt_of_lt_of_le hdlt (Nat.le_of_succ_le hle))
      have hr2 : r ≠ g.nextNodeRef := Nat.ne_of_gt (Nat.lt_of_succ_le hle)
      rw [hgs_other r hr1 hr2]
      exact hb r (Nat.le_of_succ_le hle)
    have hgs_tail : ∀ c0 ∈ t, (gs.nodeStore c0).isSome := by
      intro c0 hc0
      have hs0 := hl c0 (List.mem_cons_of_mem _ hc0)
      have hc0lt : c0 < g.nextNodeRef := by
        by_contra hlt
        rw [hb c0 (Nat.le_of_not_lt hlt)] at hs0
        cases hs0
      by_cases hcd : c0 = dst
      · rw [hcd, hgs_dst]
        rfl
      · rw [hgs_other c0 hcd (Nat.ne_of_lt hc0lt)]
        exact hs0
    have hdt : dst ∉ t := fun h => hdl (List.mem_cons_of_mem _ h)
    obtain ⟨i1, i2, i3, i4, i5, i6, i7, i8⟩ :=
      ih gs dst { d with nodes := d.nodes ++ [g.nextNodeRef] } hgs_dst hgs_bound hdt hgs_tail
    rw [hstep]
    refine ⟨?_, ?_, ?_, ?_, ?_, ?_, ?_, ?_⟩
    · rw [i1, hgs_next, List.length_cons, Nat.succ_add]
      exact (Nat.add_succ _ _).symm
    · rw [i2, hgs]
      rw [updNode_relStore]
      rfl
    · rw [i3, hgs]
      rw [updNode_nodes]
      rfl
    · rw [i4, hgs]
      rw [updNode_nodehash]
      rfl
    · rw [i5, hgs]
      rw [updNode_nextRelRef]
      rfl
    · rw [i6, hgs_next]
      show some _ = some _
      congr 1
      show {d with nodes := (d.nodes ++ [g.nextNodeRef]) ++ _ } = _
      have : (d.nodes ++ [g.nextNodeRef]) ++
          (List.range t.length).map (fun i => (g.nextNodeRef + 1) + i) =
          d.nodes ++ (List.range (t.length + 1)).map (fun i => g.nextNodeRef + i) := by
        rw [range_map_shift, List.append_assoc]
        rfl
      rw [this]
      rfl
    · intro i hi
      cases i with
      | zero =>
        rw [Nat.add_zero]
        have h1 : (copyChildrenNodes gs dst t).nodeStore g.nextNodeRef =
            gs.nodeStore g.nextNodeRef := by
          apply i8
          · exact Ne.symm hdne
          · rw [hgs_next]
            exact Nat.lt_succ_self _
        rw [h1, hgs_new]
        show _ = g.nodeStore c
        rw [hcn]
      | succ j =>
        have hj : j < t.length := Nat.lt_of_succ_lt_succ hi
        have harith : g.nextNodeRef + (j + 1) = gs.nextNodeRef + j := by
          rw [hgs_next, Nat.add_succ, Nat.succ_add]
        rw [harith, i7 j hj]
        have hget : t.get ⟨j, hj⟩ ∈ t := List.get_mem t j hj
        have hs0 := hgs_tail _ hget
        have hglt : t.get ⟨j, hj⟩ < g.nextNodeRef := by
          have hs1 := hl _ (List.mem_cons_of_mem _ hget)
          by_contra hlt
          rw [hb _ (Nat.le_of_not_lt hlt)] at hs1
          cases hs1
        rw [hgs_other _ (fun h => hdt (h ▸ hget)) (Nat.ne_of_lt hglt)]
        rfl
    · intro x hx1 hx2
      have h1 : (copyChildrenNodes gs dst t).nodeStore x = gs.nodeStore x := by
        apply i8 x hx1
        rw [hgs_next]
        exact Nat.lt_succ_of_lt hx2
      rw [h1, hgs_other x hx1 (Nat.ne_of_lt hx2)]

/-! ## Claim theorems -/

/-- C7: the spec claims that after `register(t, d)` a subsequent `lookup(t)`
returns `d` (with a second registration of the same tag replacing the first,
observable via the next lookup).  The registration itself does store the
table — the second registration shadows the first at the front of the
registry hash — but the source's `DEG_get_node_typeinfo` body is an
unimplemented TODO stub that ignores the registry and returns NULL for every
tag, so the lookup half of the claim fails: evaluated at the failing input,
lookup after registration yields nothing. -/
theorem C7_lookup_after_register_returns_none :
    DEG_register_node_typeinfo
        (DEG_register_node_typeinfo [] (some DNTI_OUTER_ID_info))
        (some { type := .OUTER_ID, name := "ID Node v2" }) =
      [(.OUTER_ID, { type := .OUTER_ID, name := "ID Node v2" }),
       (.OUTER_ID, DNTI_OUTER_ID_info)] ∧
    DEG_get_node_typeinfo
      (DEG_register_node_typeinfo
        (DEG_register_node_typeinfo [] (some DNTI_OUTER_ID_info))
        (some { type := .OUTER_ID, name := "ID Node v2" }))
      .OUTER_ID = none :=
  ⟨rfl, rfl⟩

/-- C8 counterexample: registering a null dispatch table is a silent no-op —
the registry is returned unchanged and no failure occurs — contradicting the
claim that it fails loudly and never silently degrades. -/
theorem C8_counterexample_null_register_silently_ignored :
    DEG_register_node_typeinfo [(.OUTER_ID, DNTI_OUTER_ID_info)] none =
      [(.OUTER_ID, DNTI_OUTER_ID_info)] :=
  rfl

/-- C8 amended: calling `DEG_register_node_typeinfo` with a null dispatch
table is a silent no-op — the `if (typeinfo)` guard skips the insertion, the
registry is left unchanged, and no assertion or error is raised. -/
theorem C8_null_register_is_noop :
    ∀ reg, DEG_register_node_typeinfo reg none = reg :=
  fun _ => rfl

/-- C6: attaching a Data Node looks up the identity's current outer node in
`nodehash` and fails (returns `none`, the model of the tripped
`BLI_assert`) when no outer node exists; otherwise it sets the node's
`owner` to the found outer node and appends the node to the owner's child
collection — the same `subdata` collection regardless of whether the owner
is an ID node or a Group (the source's Group branch appends to the group's
misspelt `subdaa`, i.e. its `subdata`, child list), so the conclusion below
covers identities currently represented by a Group as well. -/
theorem C6_data_node_attach (g : Depsgraph) (r : NodeRef) (id0 : Ident) :
    (ghashLookup g.nodehash id0 = none → dnti_data__add_to_graph g r id0 = none) ∧
    (∀ own ownRec nd, ghashLookup g.nodehash id0 = some own →
      g.nodeStore own = some ownRec → g.nodeStore r = some nd → r ≠ own →
      ∃ g2, dnti_data__add_to_graph g r id0 = some g2 ∧
        g2.nodeStore r = some { nd with owner := some own } ∧
        g2.nodeStore own = some { ownRec with subdata := ownRec.subdata ++ [r] } ∧
        (∀ x, x ≠ r → x ≠ own → g2.nodeStore x = g.nodeStore x) ∧
        g2.nodes = g.nodes ∧ g2.nodehash = g.nodehash ∧
        g2.relStore = g.relStore) := by
  constructor
  · intro h
    unfold dnti_data__add_to_graph
    rw [h]
  · intro own ownRec nd hl hown hnd hne
    simp only [dnti_data__add_to_graph, hl, hown, ite_self]
    refine ⟨_, rfl, ?_, ?_, ?_, ?_, ?_, ?_⟩
    · rw [updNode_store_ne _ _ hne, updNode_store_self, hnd]
      rfl
    · rw [updNode_store_self, updNode_store_ne _ _ (Ne.symm hne), hown]
      rfl
    · intro x hx1 hx2
      rw [updNode_store_ne _ _ hx2, updNode_store_ne _ _ hx1]
    · rw [updNode_nodes, updNode_nodes]
    · rw [updNode_nodehash, updNode_nodehash]
    · rw [updNode_relStore, updNode_relStore]

/-- Witness for C6 at a concrete graph: an ID node for identity 5 at ref 0
and a fresh data node at ref 1. -/
theorem C6_data_node_attach_witness :
    (ghashLookup (DEG_create_node (addIdNode Depsgraph.empty 5) .DATA).1.nodehash 7 =
        none →
      dnti_data__add_to_graph (DEG_create_node (addIdNode Depsgraph.empty 5) .DATA).1
        1 7 = none) ∧
    (ghashLookup (DEG_create_node (addIdNode Depsgraph.empty 5) .DATA).1.nodehash 5 =
        some 0) ∧
    (∃ g2, dnti_data__add_to_graph
        (DEG_create_node (addIdNode Depsgraph.empty 5) .DATA).1 1 5 = some g2 ∧
      g2.nodeStore 1 = some { blankNode .DATA with owner := some 0 } ∧
      g2.nodeStore 0 =
        some { { blankNode .OUTER_ID with id := 5 } with subdata := [] ++ [1] } ∧
      (∀ x, x ≠ 1 → x ≠ 0 → g2.nodeStore x =
        (DEG_create_node (addIdNode Depsgraph.empty 5) .DATA).1.nodeStore x) ∧
      g2.nodes = (DEG_create_node (addIdNode Depsgraph.empty 5) .DATA).1.nodes ∧
      g2.nodehash = (DEG_create_node (addIdNode Depsgraph.empty 5) .DATA).1.nodehash ∧
      g2.relStore = (DEG_create_node (addIdNode Depsgraph.empty 5) .DATA).1.relStore) := by
  refine ⟨(C6_data_node_attach _ 1 7).1, by decide, ?_⟩
  exact (C6_data_node_attach (DEG_create_node (addIdNode Depsgraph.empty 5) .DATA).1
    1 5).2 0 { blankNode .OUTER_ID with id := 5 } (blankNode .DATA)
    (by decide) (by decide) (by decide) (by decide)

/-- C2: merging two toplevel ID nodes (identities `n1.id`, `n2.id`) yields a
newly created Group as survivor: both identities now hash to it, its
`id_blocks` is exactly the two identities, and neither old ID node remains
in `graph.nodes` (both are freed). -/
theorem C2_merge_two_id_nodes (g : Depsgraph) (r1 r2 : NodeRef) (n1 n2 : DepsNode)
    (hwf : WF g) (hs1 : g.nodeStore r1 = some n1) (hs2 : g.nodeStore r2 = some n2)
    (hm1 : r1 ∈ g.nodes) (hm2 : r2 ∈ g.nodes) (hne : r1 ≠ r2)
    (ht1 : n1.type = .OUTER_ID) (ht2 : n2.type = .OUTER_ID) :
    ∃ ρ, (DEG_group_cyclic_node_pair g r1 r2).2 = some ρ ∧
      ghashLookup (DEG_group_cyclic_node_pair g r1 r2).1.nodehash n1.id = some ρ ∧
      ghashLookup (DEG_group_cyclic_node_pair g r1 r2).1.nodehash n2.id = some ρ ∧
      (∃ gn, (DEG_group_cyclic_node_pair g r1 r2).1.nodeStore ρ = some gn ∧
        gn.type = .OUTER_GROUP ∧ gn.id_blocks = [n1.id, n2.id]) ∧
      ρ ∉ g.nodes ∧ ρ ∈ (DEG_group_cyclic_node_pair g r1 r2).1.nodes ∧
      r1 ∉ (DEG_group_cyclic_node_pair g r1 r2).1.nodes ∧
      r2 ∉ (DEG_group_cyclic_node_pair g r1 r2).1.nodes ∧
      (DEG_group_cyclic_node_pair g r1 r2).1.nodeStore r1 = none ∧
      (DEG_group_cyclic_node_pair g r1 r2).1.nodeStore r2 = none := by
  obtain ⟨c1, c2, c3, c4, c5, c6, c7, c8, c9, c10, c11⟩ :=
    merge_idid_spec g r1 r2 n1 n2 hwf hs1 hs2 hm1 hm2 hne ht1 ht2
  have hids1 : nodeIds n1 = [n1.id] := by
    unfold nodeIds
    rw [ht1]
  have hids2 : nodeIds n2 = [n2.id] := by
    unfold nodeIds
    rw [ht2]
  have ha1 : (n1.id, r1) ∈ g.nodehash :=
    hwf.liveToHash r1 hm1 n1 hs1 n1.id (by rw [hids1]; exact List.mem_singleton.mpr rfl)
  have ha2 : (n2.id, r2) ∈ g.nodehash :=
    hwf.liveToHash r2 hm2 n2 hs2 n2.id (by rw [hids2]; exact List.mem_singleton.mpr rfl)
  have hne_ids : n1.id ≠ n2.id := by
    intro heq
    have h2' : (n1.id, r2) ∈ g.nodehash := by
      rw [heq]
      exact ha2
    have := two_mem_countKey ha1 h2' hne
    have := hwf.keysOnce n1.id
    omega
  have hρ1 : g.nextNodeRef ≠ r1 := Nat.ne_of_gt (hwf.top_lt hm1)
  have hρ2 : g.nextNodeRef ≠ r2 := Nat.ne_of_gt (hwf.top_lt hm2)
  refine ⟨g.nextNodeRef, c1, ?_, ?_, ⟨_, c8, rfl, rfl⟩, ?_, ?_, ?_, ?_, c6, c7⟩
  · rw [c3, ghashLookup_insert_ne _ _ (Ne.symm hne_ids)]
    exact ghashLookup_insert_self _ _ _
  · rw [c3]
    exact ghashLookup_insert_self _ _ _
  · exact fun h => absurd (hwf.top_lt h) (Nat.lt_irrefl _)
  · rw [c2]
    exact List.mem_append_right _ (List.mem_singleton.mpr rfl)
  · rw [c2]
    intro hmem
    rcases List.mem_append.mp hmem with her | hρ
    · obtain ⟨-, h1'⟩ := (hwf.nodesNodup.erase r1).mem_erase_iff.mp her
      obtain ⟨hcon, -⟩ := hwf.nodesNodup.mem_erase_iff.mp h1'
      exact hcon rfl
    · exact hρ1 (List.mem_singleton.mp hρ).symm
  · rw [c2]
    intro hmem
    rcases List.mem_append.mp hmem with her | hρ
    · obtain ⟨hcon, -⟩ := (hwf.nodesNodup.erase r1).mem_erase_iff.mp her
      exact hcon rfl
    · exact hρ2 (List.mem_singleton.mp hρ).symm

/-- If the post-state's relation store is the endpoint substitution
`rdead ↦ rkeep` of the pre-state's, every pre-state relation with an
endpoint at `rdead` has a post-state image with that endpoint at `rkeep`. -/
theorem subst_endpoint (gp g : Depsgraph) (rkeep rdead : NodeRef)
    (hmap : ∀ rr, gp.relStore rr = (g.relStore rr).map (fun rel =>
      { fromRef := if rel.fromRef = rdead then rkeep else rel.fromRef,
        toRef := if rel.toRef = rdead then rkeep else rel.toRef }))
    (rr : RelRef) (rel : DepsRelation) (hrel : g.relStore rr = some rel) :
    (rel.toRef = rdead → ∃ rel2, gp.relStore rr = some rel2 ∧
      rel2.toRef = rkeep) ∧
    (rel.fromRef = rdead → ∃ rel2, gp.relStore rr = some rel2 ∧
      rel2.fromRef = rkeep) := by
  have hval : gp.relStore rr =
      some { fromRef := if rel.fromRef = rdead then rkeep else rel.fromRef,
             toRef := if rel.toRef = rdead then rkeep else rel.toRef } := by
    rw [hmap rr, hrel]
    rfl
  constructor
  · intro h
    refine ⟨_, hval, ?_⟩
    show (if rel.toRef = rdead then rkeep else rel.toRef) = rkeep
    rw [if_pos h]
  · intro h
    refine ⟨_, hval, ?_⟩
    show (if rel.fromRef = rdead then rkeep else rel.fromRef) = rkeep
    rw [if_pos h]

/-- C3: merging a toplevel Group (identities `[a, b]`) with a toplevel ID
node, in either argument order, returns the Group as survivor: its
`id_blocks` becomes `[a, b, c]` where `c` is the ID node's identity, the
hash re-points `c` at the Group, every relation that pointed at the ID node
now points at the Group, and the stand-alone ID node is removed from
`graph.nodes` and freed. -/
theorem C3_merge_group_with_id (g : Depsgraph) (r1 r2 : NodeRef) (n1 n2 : DepsNode)
    (a b : Ident)
    (hwf : WF g) (hs1 : g.nodeStore r1 = some n1) (hs2 : g.nodeStore r2 = some n2)
    (hm1 : r1 ∈ g.nodes) (hm2 : r2 ∈ g.nodes) (hne : r1 ≠ r2) :
    (n1.type = .OUTER_GROUP → n2.type = .OUTER_ID → n1.id_blocks = [a, b] →
      (DEG_group_cyclic_node_pair g r1 r2).2 = some r1 ∧
      r1 ∈ (DEG_group_cyclic_node_pair g r1 r2).1.nodes ∧
      (∃ gn, (DEG_group_cyclic_node_pair g r1 r2).1.nodeStore r1 = some gn ∧
        gn.type = .OUTER_GROUP ∧ gn.id_blocks = [a, b, n2.id]) ∧
      ghashLookup (DEG_group_cyclic_node_pair g r1 r2).1.nodehash n2.id = some r1 ∧
      (∀ rr rel, g.relStore rr = some rel →
        (rel.toRef = r2 → ∃ rel2,
          (DEG_group_cyclic_node_pair g r1 r2).1.relStore rr = some rel2 ∧
          rel2.toRef = r1) ∧
        (rel.fromRef = r2 → ∃ rel2,
          (DEG_group_cyclic_node_pair g r1 r2).1.relStore rr = some rel2 ∧
          rel2.fromRef = r1)) ∧
      r2 ∉ (DEG_group_cyclic_node_pair g r1 r2).1.nodes ∧
      (DEG_group_cyclic_node_pair g r1 r2).1.nodeStore r2 = none) ∧
    (n1.type = .OUTER_ID → n2.type = .OUTER_GROUP → n2.id_blocks = [a, b] →
      (DEG_group_cyclic_node_pair g r1 r2).2 = some r2 ∧
      r2 ∈ (DEG_group_cyclic_node_pair g r1 r2).1.nodes ∧
      (∃ gn, (DEG_group_cyclic_node_pair g r1 r2).1.nodeStore r2 = some gn ∧
        gn.type = .OUTER_GROUP ∧ gn.id_blocks = [a, b, n1.id]) ∧
      ghashLookup (DEG_group_cyclic_node_pair g r1 r2).1.nodehash n1.id = some r2 ∧
      (∀ rr rel, g.relStore rr = some rel →
        (rel.toRef = r1 → ∃ rel2,
          (DEG_group_cyclic_node_pair g r1 r2).1.relStore rr = some rel2 ∧
          rel2.toRef = r2) ∧
        (rel.fromRef = r1 → ∃ rel2,
          (DEG_group_cyclic_node_pair g r1 r2).1.relStore rr = some rel2 ∧
          rel2.fromRef = r2)) ∧
      r1 ∉ (DEG_group_cyclic_node_pair g r1 r2).1.nodes ∧
      (DEG_group_cyclic_node_pair g r1 r2).1.nodeStore r1 = none) := by
  constructor
  · intro ht1 ht2 hgb
    obtain ⟨c1, c2, c3, c4, c5, c6, c7, c8, c9, c10⟩ :=
      merge_gid_spec g r1 r2 n1 n2 hwf hs1 hs2 hm1 hm2 hne ht1 ht2
    refine ⟨c1, ?_, ⟨_, c7, ht1, ?_⟩, ?_, ?_, ?_, c6⟩
    · rw [c2]
      exact hwf.nodesNodup.mem_erase_iff.mpr ⟨hne, hm1⟩
    · show n1.id_blocks ++ [n2.id] = [a, b, n2.id]
      rw [hgb]
      rfl
    · rw [c3]
      exact ghashLookup_insert_self _ _ _
    · exact fun rr rel hrel => subst_endpoint _ g r1 r2 c10 rr rel hrel
    · rw [c2]
      intro hmem
      obtain ⟨hcon, -⟩ := hwf.nodesNodup.mem_erase_iff.mp hmem
      exact hcon rfl
  · intro ht1 ht2 hgb
    obtain ⟨c1, c2, c3, c4, c5, c6, c7, c8, c9, c10⟩ :=
      merge_idg_spec g r1 r2 n1 n2 hwf hs1 hs2 hm1 hm2 hne ht1 ht2
    refine ⟨c1, ?_, ⟨_, c7, ht2, ?_⟩, ?_, ?_, ?_, c6⟩
    · rw [c2]
      exact hwf.nodesNodup.mem_erase_iff.mpr ⟨Ne.symm hne, hm2⟩
    · show n2.id_blocks ++ [n1.id] = [a, b, n1.id]
      rw [hgb]
      rfl
    · rw [c3]
      exact ghashLookup_insert_self _ _ _
    · exact fun rr rel hrel => subst_endpoint _ g r2 r1 c10 rr rel hrel
    · rw [c2]
      intro hmem
      obtain ⟨hcon, -⟩ := hwf.nodesNodup.mem_erase_iff.mp hmem
      exact hcon rfl

/-- C4: merging two toplevel Groups keeps node1 as survivor: node2's
identities are re-pointed in the hash to node1, node2's `id_blocks` are
appended to node1's, node2's relations and children are transferred into
node1 by the same transfer routine, and node2 is removed from `graph.nodes`
and freed. -/
theorem C4_merge_two_groups (g : Depsgraph) (r1 r2 : NodeRef) (n1 n2 : DepsNode)
    (hwf : WF g) (hs1 : g.nodeStore r1 = some n1) (hs2 : g.nodeStore r2 = some n2)
    (hm1 : r1 ∈ g.nodes) (hm2 : r2 ∈ g.nodes) (hne : r1 ≠ r2)
    (ht1 : n1.type = .OUTER_GROUP) (ht2 : n2.type = .OUTER_GROUP) :
    (DEG_group_cyclic_node_pair g r1 r2).2 = some r1 ∧
    (∀ a ∈ n2.id_blocks,
      ghashLookup (DEG_group_cyclic_node_pair g r1 r2).1.nodehash a = some r1) ∧
    (∃ gn, (DEG_group_cyclic_node_pair g r1 r2).1.nodeStore r1 = some gn ∧
      gn.id_blocks = n1.id_blocks ++ n2.id_blocks ∧
      gn.inlinks = n1.inlinks ++ n2.inlinks ∧
      gn.outlinks = n1.outlinks ++ n2.outlinks ∧
      gn.subdata = n1.subdata ++ n2.subdata ∧
      gn.nodes = n1.nodes ++ n2.nodes) ∧
    (∀ rr rel, g.relStore rr = some rel →
      (rel.toRef = r2 → ∃ rel2,
        (DEG_group_cyclic_node_pair g r1 r2).1.relStore rr = some rel2 ∧
        rel2.toRef = r1) ∧
      (rel.fromRef = r2 → ∃ rel2,
        (DEG_group_cyclic_node_pair g r1 r2).1.relStore rr = some rel2 ∧
        rel2.fromRef = r1)) ∧
    r2 ∉ (DEG_group_cyclic_node_pair g r1 r2).1.nodes ∧
    (DEG_group_cyclic_node_pair g r1 r2).1.nodeStore r2 = none := by
  obtain ⟨c1, c2, c3, c4, c5, c6, c7, c8, c9, c10⟩ :=
    merge_gg_spec g r1 r2 n1 n2 hwf hs1 hs2 hm1 hm2 hne ht1 ht2
  have hids2 : nodeIds n2 = n2.id_blocks := by
    unfold nodeIds
    rw [ht2]
  have hnd2 : n2.id_blocks.Nodup := by
    have := hwf.idsNodup r2 hm2 n2 hs2
    rwa [hids2] at this
  refine ⟨c1, ?_, ⟨_, c7, rfl, rfl, rfl, rfl, rfl⟩, ?_, ?_, c6⟩
  · intro a ha
    rw [c3]
    exact (foldl_reindex_mem n2.id_blocks r1 g.nodehash a hnd2
      (fun b _ => hwf.keysOnce b) ha).2.1
  · exact fun rr rel hrel => subst_endpoint _ g r1 r2 c10 rr rel hrel
  · rw [c2]
    intro hmem
    obtain ⟨hcon, -⟩ := hwf.nodesNodup.mem_erase_iff.mp hmem
    exact hcon rfl

/-- C10: merging any two distinct toplevel nodes (well-formedness forces
them to be ID or Group nodes) always returns a Group-typed survivor that is
present in `graph.nodes` after the merge, so callers may feed any merge
result into a subsequent merge uniformly. -/
theorem C10_survivor_always_live_group (g : Depsgraph) (r1 r2 : NodeRef)
    (hwf : WF g) (hm1 : r1 ∈ g.nodes) (hm2 : r2 ∈ g.nodes) (hne : r1 ≠ r2) :
    ∃ ρ gn, (DEG_group_cyclic_node_pair g r1 r2).2 = some ρ ∧
      ρ ∈ (DEG_group_cyclic_node_pair g r1 r2).1.nodes ∧
      (DEG_group_cyclic_node_pair g r1 r2).1.nodeStore ρ = some gn ∧
      gn.type = .OUTER_GROUP := by
  obtain ⟨n1, hs1, hty1⟩ := hwf.topLive r1 hm1
  obtain ⟨n2, hs2, hty2⟩ := hwf.topLive r2 hm2
  rcases hty1 with h1 | h1 <;> rcases hty2 with h2 | h2
  · obtain ⟨c1, c2, c3, c4, c5, c6, c7, c8, c9, c10, c11⟩ :=
      merge_idid_spec g r1 r2 n1 n2 hwf hs1 hs2 hm1 hm2 hne h1 h2
    refine ⟨g.nextNodeRef, _, c1, ?_, c8, rfl⟩
    rw [c2]
    exact List.mem_append_right _ (List.mem_singleton.mpr rfl)
  · obtain ⟨c1, c2, c3, c4, c5, c6, c7, c8, c9, c10⟩ :=
      merge_idg_spec g r1 r2 n1 n2 hwf hs1 hs2 hm1 hm2 hne h1 h2
    refine ⟨r2, _, c1, ?_, c7, h2⟩
    rw [c2]
    exact hwf.nodesNodup.mem_erase_iff.mpr ⟨Ne.symm hne, hm2⟩
  · obtain ⟨c1, c2, c3, c4, c5, c6, c7, c8, c9, c10⟩ :=
      merge_gid_spec g r1 r2 n1 n2 hwf hs1 hs2 hm1 hm2 hne h1 h2
    refine ⟨r1, _, c1, ?_, c7, h1⟩
    rw [c2]
    exact hwf.nodesNodup.mem_erase_iff.mpr ⟨hne, hm1⟩
  · obtain ⟨c1, c2, c3, c4, c5, c6, c7, c8, c9, c10⟩ :=
      merge_gg_spec g r1 r2 n1 n2 hwf hs1 hs2 hm1 hm2 hne h1 h2
    refine ⟨r1, _, c1, ?_, c7, h1⟩
    rw [c2]
    exact hwf.nodesNodup.mem_erase_iff.mpr ⟨hne, hm1⟩

/-- A concrete trace: two toplevel ID nodes, identities 5 and 7, at refs 0
and 1. -/
def demo2 : Depsgraph :=
  runOps Depsgraph.empty [DepsOp.addId 5, DepsOp.addId 7]

theorem demo2_valid : ValidFrom Depsgraph.empty
    [DepsOp.addId 5, DepsOp.addId 7] :=
  ValidFrom.addId _ 5 _ (by decide)
    (ValidFrom.addId _ 7 _ (by decide) (ValidFrom.nil _))

theorem demo2_wf : WF demo2 :=
  (runOps_wf demo2_valid wf_empty).1

/-- The trace extended by merging the two ID nodes (group at ref 2) and
adding a third ID node (identity 9, at ref 3). -/
def demo4 : Depsgraph :=
  runOps Depsgraph.empty
    [DepsOp.addId 5, DepsOp.addId 7, DepsOp.merge 0 1, DepsOp.addId 9]

theorem demo4_valid : ValidFrom Depsgraph.empty
    [DepsOp.addId 5, DepsOp.addId 7, DepsOp.merge 0 1, DepsOp.addId 9] :=
  ValidFrom.addId _ 5 _ (by decide)
    (ValidFrom.addId _ 7 _ (by decide)
      (ValidFrom.merge _ 0 1 _ (by decide) (by decide) (by decide)
        (ValidFrom.addId _ 9 _ (by decide) (ValidFrom.nil _))))

theorem demo4_wf : WF demo4 :=
  (runOps_wf demo4_valid wf_empty).1

/-- The trace extended further to two disjoint groups: identities 5/7
merged into the group at ref 2, identities 9/11 merged into the group at
ref 5. -/
def demo6 : Depsgraph :=
  runOps Depsgraph.empty
    [DepsOp.addId 5, DepsOp.addId 7, DepsOp.merge 0 1, DepsOp.addId 9,
     DepsOp.addId 11, DepsOp.merge 3 4]

theorem demo6_valid : ValidFrom Depsgraph.empty
    [DepsOp.addId 5, DepsOp.addId 7, DepsOp.merge 0 1, DepsOp.addId 9,
     DepsOp.addId 11, DepsOp.merge 3 4] :=
  ValidFrom.addId _ 5 _ (by decide)
    (ValidFrom.addId _ 7 _ (by decide)
      (ValidFrom.merge _ 0 1 _ (by decide) (by decide) (by decide)
        (ValidFrom.addId _ 9 _ (by decide)
          (ValidFrom.addId _ 11 _ (by decide)
            (ValidFrom.merge _ 3 4 _ (by decide) (by decide) (by decide)
              (ValidFrom.nil _))))))

theorem demo6_wf : WF demo6 :=
  (runOps_wf demo6_valid wf_empty).1

/-- C2 at a concrete input: merging the ID nodes for identities 5 and 7. -/
theorem C2_merge_two_id_nodes_witness :
    ∃ ρ, (DEG_group_cyclic_node_pair demo2 0 1).2 = some ρ ∧
      ghashLookup (DEG_group_cyclic_node_pair demo2 0 1).1.nodehash 5 =
        some ρ ∧
      ghashLookup (DEG_group_cyclic_node_pair demo2 0 1).1.nodehash 7 =
        some ρ ∧
      (∃ gn, (DEG_group_cyclic_node_pair demo2 0 1).1.nodeStore ρ = some gn ∧
        gn.type = .OUTER_GROUP ∧ gn.id_blocks = [5, 7]) ∧
      ρ ∉ demo2.nodes ∧ ρ ∈ (DEG_group_cyclic_node_pair demo2 0 1).1.nodes ∧
      0 ∉ (DEG_group_cyclic_node_pair demo2 0 1).1.nodes ∧
      1 ∉ (DEG_group_cyclic_node_pair demo2 0 1).1.nodes ∧
      (DEG_group_cyclic_node_pair demo2 0 1).1.nodeStore 0 = none ∧
      (DEG_group_cyclic_node_pair demo2 0 1).1.nodeStore 1 = none :=
  C2_merge_two_id_nodes demo2 0 1 { blankNode .OUTER_ID with id := 5 }
    { blankNode .OUTER_ID with id := 7 } demo2_wf (by decide) (by decide)
    (by decide) (by decide) (by decide) rfl rfl

/-- C3 at a concrete input: merging the group for identities 5 and 7 with
the ID node for identity 9 keeps the group, extends its identity list to
`[5, 7, 9]`, re-points identity 9's hash entry at it, and removes and
frees the ID node. -/
theorem C3_merge_group_with_id_witness :
    (DEG_group_cyclic_node_pair demo4 2 3).2 = some 2 ∧
    (∃ gn, (DEG_group_cyclic_node_pair demo4 2 3).1.nodeStore 2 = some gn ∧
      gn.type = .OUTER_GROUP ∧ gn.id_blocks = [5, 7, 9]) ∧
    ghashLookup (DEG_group_cyclic_node_pair demo4 2 3).1.nodehash 9 =
      some 2 ∧
    3 ∉ (DEG_group_cyclic_node_pair demo4 2 3).1.nodes ∧
    (DEG_group_cyclic_node_pair demo4 2 3).1.nodeStore 3 = none := by
  have h := (C3_merge_group_with_id demo4 2 3
      { type := .OUTER_GROUP, owner := none, inlinks := [], outlinks := [],
        subdata := [], nodes := [], id := 0, id_blocks := [5, 7] }
      { blankNode .OUTER_ID with id := 9 } 5 7
      demo4_wf (by decide) (by decide) (by decide) (by decide)
      (by decide)).1 rfl rfl rfl
  exact ⟨h.1, h.2.2.1, h.2.2.2.1, h.2.2.2.2.2.1, h.2.2.2.2.2.2⟩

/-- C4 at a concrete input: merging the group for identities 5/7 with the
group for identities 9/11 keeps the former, re-points 9 and 11 at it,
appends the identity lists, and removes and frees the latter group. -/
theorem C4_merge_two_groups_witness :
    (DEG_group_cyclic_node_pair demo6 2 5).2 = some 2 ∧
    ghashLookup (DEG_group_cyclic_node_pair demo6 2 5).1.nodehash 9 =
      some 2 ∧
    ghashLookup (DEG_group_cyclic_node_pair demo6 2 5).1.nodehash 11 =
      some 2 ∧
    (∃ gn, (DEG_group_cyclic_node_pair demo6 2 5).1.nodeStore 2 = some gn ∧
      gn.id_blocks = [5, 7, 9, 11]) ∧
    5 ∉ (DEG_group_cyclic_node_pair demo6 2 5).1.nodes ∧
    (DEG_group_cyclic_node_pair demo6 2 5).1.nodeStore 5 = none := by
  have h := C4_merge_two_groups demo6 2 5
    { type := .OUTER_GROUP, owner := none, inlinks := [], outlinks := [],
      subdata := [], nodes := [], id := 0, id_blocks := [5, 7] }
    { type := .OUTER_GROUP, owner := none, inlinks := [], outlinks := [],
      subdata := [], nodes := [], id := 0, id_blocks := [9, 11] }
    demo6_wf (by decide) (by decide) (by decide) (by decide) (by decide)
    rfl rfl
  refine ⟨h.1, h.2.1 9 (by decide), h.2.1 11 (by decide), ?_,
    h.2.2.2.2.1, h.2.2.2.2.2⟩
  obtain ⟨gn, hst, hib, -⟩ := h.2.2.1
  exact ⟨gn, hst, hib⟩

/-- C10 at a concrete input: merging the two ID nodes of the concrete
trace yields a live Group-typed survivor. -/
theorem C10_survivor_always_live_group_witness :
    ∃ ρ gn, (DEG_group_cyclic_node_pair demo2 0 1).2 = some ρ ∧
      ρ ∈ (DEG_group_cyclic_node_pair demo2 0 1).1.nodes ∧
      (DEG_group_cyclic_node_pair demo2 0 1).1.nodeStore ρ = some gn ∧
      gn.type = .OUTER_GROUP :=
  C10_survivor_always_live_group demo2 0 1 demo2_wf (by decide) (by decide)
    (by decide)

/-- C1: along any valid trace from the empty graph (add_to_graph calls
with fresh identities interleaved with relation additions and merges of
distinct live toplevel nodes), every identity ever added has exactly one
entry in `nodehash`; that entry points at a node that is present in
`graph.nodes` and whose storage is live and outer-typed; and every hash
entry for the identity points at a present, un-freed node. -/
theorem C1_traced_identity_maps_to_one_live_node (ops : List DepsOp)
    (hv : ValidFrom Depsgraph.empty ops) :
    ∀ a ∈ tracedIds ops,
      countKey (runOps Depsgraph.empty ops).nodehash a = 1 ∧
      (∃ r n, ghashLookup (runOps Depsgraph.empty ops).nodehash a = some r ∧
        r ∈ (runOps Depsgraph.empty ops).nodes ∧
        (runOps Depsgraph.empty ops).nodeStore r = some n ∧
        (n.type = .OUTER_ID ∨ n.type = .OUTER_GROUP)) ∧
      (∀ r0, (a, r0) ∈ (runOps Depsgraph.empty ops).nodehash →
        r0 ∈ (runOps Depsgraph.empty ops).nodes ∧
        ((runOps Depsgraph.empty ops).nodeStore r0).isSome) := by
  intro a ha
  have hwf := (runOps_wf hv wf_empty).1
  have hc1 := tracedIds_count hv wf_empty a ha
  refine ⟨hc1, ?_, ?_⟩
  · obtain ⟨r, hlk, hmemh⟩ := exists_lookup_of_countKey_one hc1
    obtain ⟨hrm, -⟩ := hwf.hashToLive a r hmemh
    obtain ⟨n, hst, hty⟩ := hwf.topLive r hrm
    exact ⟨r, n, hlk, hrm, hst, hty⟩
  · intro r0 hmem
    obtain ⟨hrm, n, hst, -⟩ := hwf.hashToLive a r0 hmem
    refine ⟨hrm, ?_⟩
    rw [hst]
    rfl

/-- C1 at a concrete input: along the trace that adds identities 5, 7, 9
and merges the first two nodes, identity 5 still has exactly one hash
entry, pointing at a live outer node. -/
theorem C1_traced_identity_maps_to_one_live_node_witness :
    countKey demo4.nodehash 5 = 1 ∧
    (∃ r n, ghashLookup demo4.nodehash 5 = some r ∧ r ∈ demo4.nodes ∧
      demo4.nodeStore r = some n ∧
      (n.type = .OUTER_ID ∨ n.type = .OUTER_GROUP)) ∧
    (∀ r0, (5, r0) ∈ demo4.nodehash → r0 ∈ demo4.nodes ∧
      (demo4.nodeStore r0).isSome) :=
  C1_traced_identity_maps_to_one_live_node
    [DepsOp.addId 5, DepsOp.addId 7, DepsOp.merge 0 1, DepsOp.addId 9]
    demo4_valid 5 (by decide)

/-- C5: merging never leaves a dangling relation. First, after a merge of
any two distinct live toplevel nodes of a well-formed graph, every stored
relation's endpoints are present in `graph.nodes`. Second, inside the
transfer routine itself: whenever the source node's link lists index every
relation touching it (the linkage discipline), no relation in the
transferred graph references the source node at either endpoint — the
rewrite happens before the lists are appended, so not even transiently. -/
theorem C5_relations_never_dangle (g : Depsgraph) :
    (∀ r1 r2, WF g → r1 ∈ g.nodes → r2 ∈ g.nodes → r1 ≠ r2 →
      ∀ rr rel, (DEG_group_cyclic_node_pair g r1 r2).1.relStore rr = some rel →
        rel.fromRef ∈ (DEG_group_cyclic_node_pair g r1 r2).1.nodes ∧
        rel.toRef ∈ (DEG_group_cyclic_node_pair g r1 r2).1.nodes) ∧
    (∀ group src s, g.nodeStore src = some s → group ≠ src →
      (∀ rr rel, g.relStore rr = some rel →
        (rel.toRef = src → rr ∈ s.inlinks) ∧
        (rel.fromRef = src → rr ∈ s.outlinks)) →
      ∀ rr rel2,
        (transfer_nodegraph_to_group g group src).relStore rr = some rel2 →
        rel2.toRef ≠ src ∧ rel2.fromRef ≠ src) := by
  constructor
  · intro r1 r2 hwf hm1 hm2 hne rr rel hrel
    exact ((wf_merge hwf r1 r2 hm1 hm2 hne).1.relLive rr rel hrel)
  · intro group src s hs hgs hlink rr rel2 hrel2
    have hchar : (transfer_nodegraph_to_group g group src).relStore rr =
        (g.relStore rr).map (relAdjust s.inlinks s.outlinks src group rr) := by
      simp only [transfer_nodegraph_to_group, hs, updNode_relStore]
      rw [(owners_proj _ group src s.subdata s.nodes).2.2.1]
      exact rewrites_relStore g group src s.inlinks s.outlinks hgs rr
    rw [hchar] at hrel2
    cases hg0 : g.relStore rr with
    | none =>
      rw [hg0] at hrel2
      cases hrel2
    | some rel =>
      rw [hg0] at hrel2
      have heq : relAdjust s.inlinks s.outlinks src group rr rel = rel2 :=
        Option.some.inj hrel2
      have hadj := relAdjust_endpoint s.inlinks s.outlinks src group rr rel
        (fun h => (hlink rr rel hg0).1 h) (fun h => (hlink rr rel hg0).2 h)
      rw [hadj] at heq
      rw [← heq]
      constructor
      · show (if rel.toRef = src then group else rel.toRef) ≠ src
        by_cases h : rel.toRef = src
        · rw [if_pos h]
          exact hgs
        · rw [if_neg h]
          exact h
      · show (if rel.fromRef = src then group else rel.fromRef) ≠ src
        by_cases h : rel.fromRef = src
        · rw [if_pos h]
          exact hgs
        · rw [if_neg h]
          exact h

/-- A concrete trace with a relation: ID nodes for identities 5 and 7 at
refs 0 and 1, and a relation 0 → 1 at ref 0. -/
def demoR : Depsgraph :=
  runOps Depsgraph.empty [DepsOp.addId 5, DepsOp.addId 7, DepsOp.addRel 0 1]

theorem demoR_valid : ValidFrom Depsgraph.empty
    [DepsOp.addId 5, DepsOp.addId 7, DepsOp.addRel 0 1] :=
  ValidFrom.addId _ 5 _ (by decide)
    (ValidFrom.addId _ 7 _ (by decide)
      (ValidFrom.addRel _ 0 1 _ (by decide) (by decide) (ValidFrom.nil _)))

theorem demoR_wf : WF demoR :=
  (runOps_wf demoR_valid wf_empty).1

/-- The record stored for node 1 in `demoR`. -/
def demoR_s : DepsNode :=
  { type := .OUTER_ID, owner := none, inlinks := [0], outlinks := [],
    subdata := [], nodes := [], id := 7, id_blocks := [] }

/-- C5 at a concrete input: after merging the two related ID nodes, the
surviving relation's endpoints (both re-pointed at the group, ref 2) are in
`graph.nodes`; and transferring node 1 into node 0 leaves no relation
referencing node 1. -/
theorem C5_relations_never_dangle_witness :
    (DepsRelation.mk 2 2).fromRef ∈
      (DEG_group_cyclic_node_pair demoR 0 1).1.nodes ∧
    (DepsRelation.mk 2 2).toRef ∈
      (DEG_group_cyclic_node_pair demoR 0 1).1.nodes ∧
    (∀ rr rel2,
      (transfer_nodegraph_to_group demoR 0 1).relStore rr = some rel2 →
      rel2.toRef ≠ 1 ∧ rel2.fromRef ≠ 1) := by
  have h := C5_relations_never_dangle demoR
  have h1 := h.1 0 1 demoR_wf (by decide) (by decide) (by decide)
    0 ⟨2, 2⟩ (by decide)
  have hlink : ∀ rr rel, demoR.relStore rr = some rel →
      (rel.toRef = 1 → rr ∈ demoR_s.inlinks) ∧
      (rel.fromRef = 1 → rr ∈ demoR_s.outlinks) := by
    intro rr rel hrel
    rcases Nat.lt_or_ge rr 1 with hlt | hge
    · have h0 : rr = 0 := Nat.lt_one_iff.mp hlt
      subst h0
      have hv : demoR.relStore 0 = some ⟨0, 1⟩ := by decide
      rw [hv] at hrel
      cases Option.some.inj hrel
      constructor
      · intro _
        decide
      · intro hc
        exact absurd hc (by decide)
    · rw [demoR_wf.relBound rr hge] at hrel
      cases hrel
  have h2 := h.2 0 1 demoR_s (by decide) (by decide) hlink
  exact ⟨h1.1, h1.2, h2⟩

theorem copyChildrenSubdata_bound (l : List NodeRef) :
    ∀ (g : Depsgraph) (dst : NodeRef) (d : DepsNode),
    g.nodeStore dst = some d →
    (∀ r, g.nextNodeRef ≤ r → g.nodeStore r = none) →
    ∀ r, g.nextNodeRef + l.length ≤ r →
      (copyChildrenSubdata g dst l).nodeStore r = none := by
  induction l with
  | nil =>
    intro g dst d hd hb r hle
    exact hb r hle
  | cons c t ih =>
    intro g dst d hd hb r hle
    have hdlt : dst < g.nextNodeRef := by
      by_contra hlt
      rw [hb dst (Nat.le_of_not_lt hlt)] at hd
      cases hd
    have hdne : dst ≠ g.nextNodeRef := Nat.ne_of_lt hdlt
    cases hcn : g.nodeStore c with
    | none =>
      have hcopy : DEG_copy_node g c = (g, none) := by
        unfold DEG_copy_node
        rw [hcn]
      have hstep : copyChildrenSubdata g dst (c :: t) =
          copyChildrenSubdata g dst t := by
        show List.foldl _ _ (c :: t) = _
        rw [List.foldl_cons]
        show List.foldl _
          (let pr := DEG_copy_node g c
           match pr.2 with
           | some nc => pr.1.updNode dst
               (fun n => { n with subdata := n.subdata ++ [nc] })
           | none => pr.1) t = _
        rw [hcopy]
        rfl
      rw [hstep]
      exact ih g dst d hd hb r (Nat.le_of_succ_le hle)
    | some cn =>
      have hcopy : DEG_copy_node g c =
          ({ g.setNode g.nextNodeRef cn with nextNodeRef := g.nextNodeRef + 1 },
            some g.nextNodeRef) := by
        unfold DEG_copy_node
        rw [hcn]
      have hstep : copyChildrenSubdata g dst (c :: t) =
          copyChildrenSubdata
            (({ g.setNode g.nextNodeRef cn with
                nextNodeRef := g.nextNodeRef + 1 }).updNode
              dst (fun n => { n with subdata := n.subdata ++ [g.nextNodeRef] }))
            dst t := by
        show List.foldl _ _ (c :: t) = _
        rw [List.foldl_cons]
        show List.foldl _
          (let pr := DEG_copy_node g c
           match pr.2 with
           | some nc => pr.1.updNode dst
               (fun n => { n with subdata := n.subdata ++ [nc] })
           | none => pr.1) t = _
        rw [hcopy]
        rfl
      set gs : Depsgraph :=
        ({ g.setNode g.nextNodeRef cn with
            nextNodeRef := g.nextNodeRef + 1 }).updNode
          dst (fun n => { n with subdata := n.subdata ++ [g.nextNodeRef] })
        with hgs
      have hgs_dst : gs.nodeStore dst =
          some { d with subdata := d.subdata ++ [g.nextNodeRef] } := by
        rw [hgs, updNode_store_self]
        show Option.map _ ((g.setNode g.nextNodeRef cn).nodeStore dst) = _
        rw [setNode_store_ne _ _ hdne, hd]
        rfl
      have hgs_other : ∀ x, x ≠ dst → x ≠ g.nextNodeRef →
          gs.nodeStore x = g.nodeStore x := by
        intro x hx1 hx2
        rw [hgs, updNode_store_ne _ _ hx1]
        show (g.setNode g.nextNodeRef cn).nodeStore x = _
        exact setNode_store_ne _ _ hx2
      have hgs_next : gs.nextNodeRef = g.nextNodeRef + 1 := by
        rw [hgs, updNode_nextNodeRef]
      have hgs_bound : ∀ r0, gs.nextNodeRef ≤ r0 → gs.nodeStore r0 = none := by
        intro r0 hle0
        rw [hgs_next] at hle0
        have hr1 : r0 ≠ dst :=
          Nat.ne_of_gt (Nat.lt_of_lt_of_le hdlt (Nat.le_of_succ_le hle0))
        have hr2 : r0 ≠ g.nextNodeRef := Nat.ne_of_gt (Nat.lt_of_succ_le hle0)
        rw [hgs_other r0 hr1 hr2]
        exact hb r0 (Nat.le_of_succ_le hle0)
      rw [hstep]
      apply ih gs dst { d with subdata := d.subdata ++ [g.nextNodeRef] }
        hgs_dst hgs_bound
      rw [hgs_next, Nat.add_right_comm]
      exact hle

/-- C9: for every outer node, copy_data copies each child of the source's
subdata and nodes collections (by the node-copy operation, at fresh refs)
and appends the copies to the destination's corresponding collection; the
Group variant additionally duplicates id_blocks into the destination. The
relation store is untouched, so the copied children's inlinks/outlinks keep
their original endpoints — copies are not re-linked. -/
theorem C9_copy_children_not_relinked (g : Depsgraph) (dst src : NodeRef)
    (s d : DepsNode)
    (hsrc : g.nodeStore src = some s) (hdst : g.nodeStore dst = some d)
    (hb : ∀ r, g.nextNodeRef ≤ r → g.nodeStore r = none)
    (hd1 : dst ∉ s.subdata) (hd2 : dst ∉ s.nodes)
    (hl1 : ∀ c ∈ s.subdata, (g.nodeStore c).isSome)
    (hl2 : ∀ c ∈ s.nodes, (g.nodeStore c).isSome) :
    ((dnti_outer_node__copy_data g dst src).relStore = g.relStore ∧
     (dnti_outer_node__copy_data g dst src).nodeStore dst =
       some { d with
         subdata := (d.subdata ++
           (List.range s.subdata.length).map (fun i => g.nextNodeRef + i)),
         nodes := (d.nodes ++
           (List.range s.nodes.length).map
             (fun i => g.nextNodeRef + s.subdata.length + i)) } ∧
     (∀ i, ∀ hi : i < s.subdata.length,
       (dnti_outer_node__copy_data g dst src).nodeStore (g.nextNodeRef + i) =
         g.nodeStore (s.subdata.get ⟨i, hi⟩)) ∧
     (∀ i, ∀ hi : i < s.nodes.length,
       (dnti_outer_node__copy_data g dst src).nodeStore
           (g.nextNodeRef + s.subdata.length + i) =
         g.nodeStore (s.nodes.get ⟨i, hi⟩))) ∧
    ((dnti_outer_group__copy_data g dst src).relStore = g.relStore ∧
     (dnti_outer_group__copy_data g dst src).nodeStore dst =
       some { d with
         subdata := (d.subdata ++
           (List.range s.subdata.length).map (fun i => g.nextNodeRef + i)),
         nodes := (d.nodes ++
           (List.range s.nodes.length).map
             (fun i => g.nextNodeRef + s.subdata.length + i)),
         id_blocks := s.id_blocks }) := by
  obtain ⟨a1, a2, a3, a4, a5, a6, a7, a8⟩ :=
    copyChildrenSubdata_spec s.subdata g dst d hdst hb hd1 hl1
  have hdlt : dst < g.nextNodeRef := by
    by_contra hlt
    rw [hb dst (Nat.le_of_not_lt hlt)] at hdst
    cases hdst
  have hb1 : ∀ r, (copyChildrenSubdata g dst s.subdata).nextNodeRef ≤ r →
      (copyChildrenSubdata g dst s.subdata).nodeStore r = none := by
    intro r hle
    apply copyChildrenSubdata_bound s.subdata g dst d hdst hb
    rw [← a1]
    exact hle
  have hl2a : ∀ c ∈ s.nodes,
      ((copyChildrenSubdata g dst s.subdata).nodeStore c).isSome := by
    intro c hc
    have hcs := hl2 c hc
    have hclt : c < g.nextNodeRef := by
      by_contra hlt
      rw [hb c (Nat.le_of_not_lt hlt)] at hcs
      cases hcs
    by_cases hcd : c = dst
    · rw [hcd, a6]
      rfl
    · rw [a8 c hcd hclt]
      exact hcs
  obtain ⟨b1, b2, b3, b4, b5, b6, b7, b8⟩ :=
    copyChildrenNodes_spec s.nodes (copyChildrenSubdata g dst s.subdata)
      dst _ a6 hb1 hd2 hl2a
  have hnode : dnti_outer_node__copy_data g dst src =
      copyChildrenNodes (copyChildrenSubdata g dst s.subdata) dst s.nodes := by
    unfold dnti_outer_node__copy_data
    rw [hsrc]
  have hgrp : dnti_outer_group__copy_data g dst src =
      (copyChildrenNodes (copyChildrenSubdata g dst s.subdata) dst
        s.nodes).updNode dst (fun n => { n with id_blocks := s.id_blocks }) := by
    simp only [dnti_outer_group__copy_data, hsrc]
    rw [hnode]
  refine ⟨⟨?_, ?_, ?_, ?_⟩, ?_, ?_⟩
  · rw [hnode, b2, a2]
  · rw [hnode, b6, a1]
  · intro i hi
    have hx1 : g.nextNodeRef + i ≠ dst :=
      Nat.ne_of_gt (Nat.lt_of_lt_of_le hdlt (Nat.le_add_right _ _))
    have hx2 : g.nextNodeRef + i <
        (copyChildrenSubdata g dst s.subdata).nextNodeRef := by
      rw [a1]
      exact Nat.add_lt_add_left hi _
    rw [hnode, b8 _ hx1 hx2, a7 i hi]
  · intro i hi
    have harith : g.nextNodeRef + s.subdata.length + i =
        (copyChildrenSubdata g dst s.subdata).nextNodeRef + i := by
      rw [a1]
    have hget : s.nodes.get ⟨i, hi⟩ ∈ s.nodes := List.get_mem s.nodes i hi
    have hcs := hl2 _ hget
    have hclt : s.nodes.get ⟨i, hi⟩ < g.nextNodeRef := by
      by_contra hlt
      rw [hb _ (Nat.le_of_not_lt hlt)] at hcs
      cases hcs
    have hcd : s.nodes.get ⟨i, hi⟩ ≠ dst := fun h => hd2 (h ▸ hget)
    rw [hnode, harith, b7 i hi, a8 _ hcd hclt]
  · rw [hgrp, updNode_relStore, b2, a2]
  · rw [hgrp, updNode_store_self, b6, a1]
    rfl

/-- Source node for the copy witness: an outer ID node with one subdata
child at ref 2. -/
def demoC_src : DepsNode :=
  { type := .OUTER_ID, owner := none, inlinks := [], outlinks := [],
    subdata := [2], nodes := [], id := 5, id_blocks := [] }

/-- Destination node for the copy witness. -/
def demoC_dst : DepsNode :=
  { blankNode .OUTER_ID with id := 7 }

/-- The subdata child of the copy witness's source node. -/
def demoC_child : DepsNode :=
  { blankNode .DATA with owner := some 0 }

def demoC_store : NodeRef → Option DepsNode := fun r =>
  if r = 0 then some demoC_src
  else if r = 1 then some demoC_dst
  else if r = 2 then some demoC_child
  else none

/-- A concrete graph for the copy witness: source at ref 0 with a subdata
child at ref 2, destination at ref 1. -/
def demoC : Depsgraph :=
  { nodes := [0, 1], nodehash := [(5, 0), (7, 1)],
    nodeStore := demoC_store, relStore := fun _ => none,
    nextNodeRef := 3, nextRelRef := 0 }

theorem demoC_bound : ∀ r, demoC.nextNodeRef ≤ r → demoC.nodeStore r = none := by
  intro r h3
  have h0 : r ≠ 0 :=
    Nat.ne_of_gt (Nat.lt_of_lt_of_le (by decide) h3)
  have h1 : r ≠ 1 :=
    Nat.ne_of_gt (Nat.lt_of_lt_of_le (by decide) h3)
  have h2 : r ≠ 2 :=
    Nat.ne_of_gt (Nat.lt_of_lt_of_le (by decide) h3)
  show demoC_store r = none
  unfold demoC_store
  rw [if_neg h0, if_neg h1, if_neg h2]

/-- C9 at a concrete input: copying node 0 (one subdata child) onto node 1
leaves the relation store untouched, appends the fresh copy (ref 3) to the
destination's subdata, and stores at ref 3 a record equal to the child's
original; the Group variant also duplicates id_blocks. -/
theorem C9_copy_children_not_relinked_witness :
    ((dnti_outer_node__copy_data demoC 1 0).relStore = demoC.relStore ∧
     (dnti_outer_node__copy_data demoC 1 0).nodeStore 1 =
       some { demoC_dst with
         subdata := (demoC_dst.subdata ++
           (List.range demoC_src.subdata.length).map
             (fun i => demoC.nextNodeRef + i)),
         nodes := (demoC_dst.nodes ++
           (List.range demoC_src.nodes.length).map
             (fun i => demoC.nextNodeRef + demoC_src.subdata.length + i)) } ∧
     (∀ i, ∀ hi : i < demoC_src.subdata.length,
       (dnti_outer_node__copy_data demoC 1 0).nodeStore
           (demoC.nextNodeRef + i) =
         demoC.nodeStore (demoC_src.subdata.get ⟨i, hi⟩)) ∧
     (∀ i, ∀ hi : i < demoC_src.nodes.length,
       (dnti_outer_node__copy_data demoC 1 0).nodeStore
           (demoC.nextNodeRef + demoC_src.subdata.length + i) =
         demoC.nodeStore (demoC_src.nodes.get ⟨i, hi⟩))) ∧
    ((dnti_outer_group__copy_data demoC 1 0).relStore = demoC.relStore ∧
     (dnti_outer_group__copy_data demoC 1 0).nodeStore 1 =
       some { demoC_dst with
         subdata := (demoC_dst.subdata ++
           (List.range demoC_src.subdata.length).map
             (fun i => demoC.nextNodeRef + i)),
         nodes := (demoC_dst.nodes ++
           (List.range demoC_src.nodes.length).map
             (fun i => demoC.nextNodeRef + demoC_src.subdata.length + i)),
         id_blocks := demoC_src.id_blocks }) :=
  C9_copy_children_not_relinked demoC 1 0 demoC_src demoC_dst
    (by decide) (by decide) demoC_bound (by decide) (by decide)
    (by decide) (by decide)
